import Mathlib

/-!
PriFi: a shallow embedding of the DC-net codec, the Schnorr signature and the client slot logic.

Bytes are natural numbers (values below 256), byte slices are lists, Go `int32`
values are integers that wrap around explicitly, and a Go panic or `log.Fatal`
is the `error` branch of `Except Crash`.
-/

namespace PriFi

/-! ## Machine integers and crashes -/

/-- Two's complement wrap-around of an integer into the Go `int32` range. -/
def wrapInt32 (i : Int) : Int := (i + 2147483648) % 4294967296 - 2147483648

/-- The integer is a value of the Go type `int32`. -/
def IsInt32 (i : Int) : Prop := -2147483648 ≤ i ∧ i < 2147483648

instance (i : Int) : Decidable (IsInt32 i) := by unfold IsInt32; infer_instance

/-- The ways in which the embedded code can stop abnormally (a Go `panic`, a
runtime error or `log.Fatal`). -/
inductive Crash where
  | payloadTooLong
  | payloadTooSmall
  | marshalFailed
  | indexOutOfRange
  | negativeLength
  | badPayloadSize
  | wrongRound
  | nilDereference
  | divideByZero
  | deadlock
  | outOfFuel
  | fatal
  | ioFailed
  | wrongSize
  | illegalSlot
  | badMessageType
  deriving DecidableEq, Repr

deriving instance DecidableEq for Except

/-! ## prifi-lib/dcnet/dcnet.go -/

/-- Relay, Trustee or Client. -/
inductive DCNET_ENTITY where
  | DCNET_CLIENT
  | DCNET_TRUSTEE
  | DCNET_RELAY
  deriving DecidableEq, Repr

/-- A `kyber.XOF` stream in use as a pad generator: the seed it was created
from and the number of key-stream bytes it has handed out so far. -/
structure XOF where
  seed : List Nat
  consumed : Nat
  deriving DecidableEq, Repr

/-- The output of one DC-net round (`DCNetCipher`); a nil tag is the empty list. -/
structure DCNetCipher where
  Payload : List Nat
  EquivocationProtectionTag : List Nat
  deriving DecidableEq, Repr

/-- The parts of the program that live outside the embedded files: the crypto
suite (point marshalling and the XOF key stream), the wire form of a cipher and
the equivocation-protection primitives. `keystream seed k` is byte `k` of the
XOF stream created from `seed`; the equivocation functions receive the history
of downstream data recorded so far. -/
structure Env (Pt : Type) where
  MarshalBinary : Pt → Option (List Nat)
  keystream : List Nat → Nat → Nat
  ToBytes : DCNetCipher → List Nat
  DCNetCipherFromBytes : List Nat → DCNetCipher
  ClientEncryptPayload : List (List Nat) → Bool → List Nat → List (List Nat) → List Nat × List Nat
  TrusteeGetContribution : List (List Nat) → List (List Nat) → List Nat
  RelayDecode : List (List Nat) → List Nat → List (List Nat) → List (List Nat) → List Nat
  scalarMarshalSize : Nat

/-- DCNetRoundDecoder is used by the relay to decode the dcnet ciphers. -/
structure DCNetRoundDecoder where
  currentRoundBeingDecoded : Int
  xorBuffer : List Nat
  equivTrusteeContribs : List (List Nat)
  equivClientContribs : List (List Nat)
  deriving DecidableEq, Repr

/-- A struct with all methods to encode and decode dc-net messages. The
equivocation state is the recorded downstream history (`none` when unused). -/
structure DCNetEntity (Pt : Type) where
  EntityID : Int
  Entity : DCNET_ENTITY
  EquivocationProtectionEnabled : Bool
  DCNetPayloadSize : Nat
  sharedKeys : List Pt
  sharedPRNGs : List XOF
  currentRound : Int
  DCNetRoundDecoder : Option DCNetRoundDecoder
  equivocationProtection : Option (List (List Nat))
  equivocationContribLength : Nat

/-- Go `make([]byte, n)`. -/
def makeBytes (n : Nat) : List Nat := List.replicate n 0

/-- The key-stream XOR of `XORKeyStream`, byte by byte from stream offset `pos`. -/
def xorStream (ks : Nat → Nat) : Nat → List Nat → List Nat
  | _, [] => []
  | pos, b :: bs => (b ^^^ ks pos) :: xorStream ks (pos + 1) bs

/-- `x.XORKeyStream(dst, src)`: the bytes written to `dst` and the advanced stream. -/
def XOF.XORKeyStream {Pt : Type} (env : Env Pt) (x : XOF) (src : List Nat) : List Nat × XOF :=
  (xorStream (env.keystream x.seed) x.consumed src,
   { x with consumed := x.consumed + src.length })

/-- `cryptoSuite.XOF(seed)`: a fresh stream. -/
def Env.XOF {Pt : Type} (_env : Env Pt) (seed : List Nat) : XOF := ⟨seed, 0⟩

/-- The seeding loop of lines 86-94 (and 159-167, 302-310): one fresh XOF per
shared key, `log.Fatal` when a key cannot be marshalled. -/
def seedPRNGs {Pt : Type} (env : Env Pt) : List Pt → Except Crash (List XOF)
  | [] => .ok []
  | k :: ks =>
    match env.MarshalBinary k with
    | none => .error .marshalFailed
    | some seed =>
      match seedPRNGs env ks with
      | .error c => .error c
      | .ok xs => .ok (env.XOF seed :: xs)

/-- Used by clients, trustees (and, with no keys, by the relay). -/
def NewDCNetEntity {Pt : Type} (env : Env Pt) (entityID : Int) (entity : DCNET_ENTITY)
    (PayloadSize : Int) (equivocationProtection : Bool) (sharedKeys : List Pt) :
    Except Crash (DCNetEntity Pt) :=
  match (if entity ≠ .DCNET_RELAY then seedPRNGs env sharedKeys else .ok []) with
  | .error c => .error c
  | .ok prngs =>
    if PayloadSize ≤ 0 then .error .badPayloadSize
    else .ok
      { EntityID := entityID
        Entity := entity
        EquivocationProtectionEnabled := equivocationProtection
        DCNetPayloadSize := PayloadSize.toNat
        sharedKeys := if entity ≠ .DCNET_RELAY then sharedKeys else []
        sharedPRNGs := prngs
        currentRound := 0
        DCNetRoundDecoder := none
        equivocationProtection := if equivocationProtection then some [] else none
        equivocationContribLength := if equivocationProtection then env.scalarMarshalSize else 0 }

/-- One pass of `for i := range e.sharedPRNGs { sharedPRNGsCopy[i].XORKeyStream(dummy, dummy) }`:
the first `n` streams of the copy each discard `L` bytes; indexing past the
end of the copy is a runtime error. -/
def consumeFirst {Pt : Type} (env : Env Pt) (L : Nat) : Nat → List XOF → Except Crash (List XOF)
  | 0, xs => .ok xs
  | _ + 1, [] => .error .indexOutOfRange
  | n + 1, x :: xs =>
    match consumeFirst env L n xs with
    | .error c => .error c
    | .ok xs' => .ok ((x.XORKeyStream env (makeBytes L)).2 :: xs')

/-- The loop `for round < roundID` of lines 168-180 (and 311-323), `round` starting at 0. -/
def discardCopyRounds {Pt : Type} (env : Env Pt) (L n : Nat) : Nat → List XOF → Except Crash (List XOF)
  | 0, xs => .ok xs
  | rounds + 1, xs =>
    match consumeFirst env L n xs with
    | .error c => .error c
    | .ok xs' => discardCopyRounds env L n rounds xs'

/-- Lines 156-182 (and 299-325): rebuild the pad streams from the shared keys,
advance them to `roundID`, and install them together with `roundID` in the entity. -/
def reseedAtRound {Pt : Type} (env : Env Pt) (e : DCNetEntity Pt) (roundID : Int) :
    Except Crash (DCNetEntity Pt) :=
  match seedPRNGs env e.sharedKeys with
  | .error c => .error c
  | .ok sharedPRNGsCopy =>
    match discardCopyRounds env e.DCNetPayloadSize e.sharedPRNGs.length roundID.toNat sharedPRNGsCopy with
    | .error c => .error c
    | .ok copy => .ok { e with sharedPRNGs := copy, currentRound := roundID }

/-- The loop `for e.currentRound < roundID` of lines 185-196; `fuel` bounds the
number of iterations. -/
def discardRounds {Pt : Type} (env : Env Pt) (roundID : Int) : Nat → DCNetEntity Pt → DCNetEntity Pt
  | 0, e => e
  | fuel + 1, e =>
    if e.currentRound < roundID then
      discardRounds env roundID fuel
        { e with
          sharedPRNGs := e.sharedPRNGs.map (fun x => (x.XORKeyStream env (makeBytes e.DCNetPayloadSize)).2)
          currentRound := wrapInt32 (e.currentRound + 1) }
    else e

/-- The pad preparation `p_ij[i] = make(L); sharedPRNGs[i].XORKeyStream(p_ij[i], p_ij[i])`:
the pads and the advanced streams. -/
def preparePads {Pt : Type} (env : Env Pt) (L : Nat) : List XOF → List (List Nat) × List XOF
  | [] => ([], [])
  | x :: xs =>
    let r := x.XORKeyStream env (makeBytes L)
    let rest := preparePads env L xs
    (r.1 :: rest.1, r.2 :: rest.2)

/-- The loop `for k := range buf { buf[k] ^= pad[k] }`: a pad shorter than the
buffer is indexed out of range. -/
def xorPad : List Nat → List Nat → Except Crash (List Nat)
  | [], _ => .ok []
  | _ :: _, [] => .error .indexOutOfRange
  | b :: bs, p :: ps =>
    match xorPad bs ps with
    | .error c => .error c
    | .ok r => .ok ((b ^^^ p) :: r)

/-- The loop `for i := range p_ij { for k := range c.Payload { c.Payload[k] ^= p_ij[i][k] } }`. -/
def xorPads (buf : List Nat) : List (List Nat) → Except Crash (List Nat)
  | [] => .ok buf
  | p :: ps =>
    match xorPad buf p with
    | .error c => .error c
    | .ok buf' => xorPads buf' ps

/-- Go `copy(dst, src)`: the first `min(len(dst), len(src))` bytes of `dst` are
overwritten with those of `src`. -/
def copyInto (dst src : List Nat) : List Nat := src.take dst.length ++ dst.drop src.length

/-- Go `len(payload)` for a slice that may be nil. -/
def goLen (payload : Option (List Nat)) : Nat :=
  match payload with
  | none => 0
  | some p => p.length

/-- Encode for clients. Returns the entity with its advanced streams, the cipher and the plain payload. -/
def clientEncode {Pt : Type} (env : Env Pt) (e : DCNetEntity Pt) (slotOwner : Bool)
    (payload : Option (List Nat)) : Except Crash (DCNetEntity Pt × DCNetCipher × List Nat) :=
  let padded : Except Crash (List Nat) :=
    match payload with
    | none => .ok (makeBytes e.DCNetPayloadSize)
    | some p =>
      let dcnetPayloadSize : Int :=
        if e.EquivocationProtectionEnabled && slotOwner then (e.DCNetPayloadSize : Int) - 16
        else (e.DCNetPayloadSize : Int)
      if dcnetPayloadSize < 0 then .error .negativeLength
      else if (p.length : Int) > dcnetPayloadSize then .error .indexOutOfRange
      else .ok (copyInto (makeBytes dcnetPayloadSize.toNat) p)
  match padded with
  | .error c => .error c
  | .ok payload1 =>
    let pp := preparePads env e.DCNetPayloadSize e.sharedPRNGs
    let e1 := { e with sharedPRNGs := pp.2 }
    let plainPayload := makeBytes e.DCNetPayloadSize
    if e.EquivocationProtectionEnabled then
      match e.equivocationProtection with
      | none => .error .nilDereference
      | some history =>
        let r := env.ClientEncryptPayload history slotOwner payload1 pp.1
        match xorPads r.1 pp.1 with
        | .error c => .error c
        | .ok enc => .ok (e1, ⟨enc, r.2⟩, copyInto plainPayload r.1)
    else
      match xorPads payload1 pp.1 with
      | .error c => .error c
      | .ok enc => .ok (e1, ⟨enc, []⟩, plainPayload)

/-- Encode for trustees. -/
def trusteeEncode {Pt : Type} (env : Env Pt) (e : DCNetEntity Pt) :
    Except Crash (DCNetEntity Pt × DCNetCipher) :=
  let pp := preparePads env e.DCNetPayloadSize e.sharedPRNGs
  let e1 := { e with sharedPRNGs := pp.2 }
  match xorPads (makeBytes e.DCNetPayloadSize) pp.1 with
  | .error c => .error c
  | .ok enc =>
    if e.EquivocationProtectionEnabled then
      match e.equivocationProtection with
      | none => .error .nilDereference
      | some history => .ok (e1, ⟨enc, env.TrusteeGetContribution history pp.1⟩)
    else .ok (e1, ⟨enc, []⟩)

/-- Encodes "Payload" in the correct round. Returns the updated entity, the
cipher bytes and the plain payload. -/
def EncodeForRound {Pt : Type} (env : Env Pt) (e : DCNetEntity Pt) (roundID : Int)
    (slotOwner : Bool) (payload : Option (List Nat)) :
    Except Crash (DCNetEntity Pt × List Nat × List Nat) :=
  if goLen payload > e.DCNetPayloadSize then .error .payloadTooLong
  else
    match (if roundID < e.currentRound then reseedAtRound env e roundID else .ok e) with
    | .error c => .error c
    | .ok e1 =>
      let e2 := discardRounds env roundID (roundID - e1.currentRound).toNat e1
      if e2.Entity = .DCNET_CLIENT then
        match clientEncode env e2 slotOwner payload with
        | .error c => .error c
        | .ok (e3, c, plainPayload) =>
          .ok ({ e3 with currentRound := wrapInt32 (e3.currentRound + 1) }, env.ToBytes c, plainPayload)
      else
        match trusteeEncode env e2 with
        | .error c => .error c
        | .ok (e3, c) =>
          .ok ({ e3 with currentRound := wrapInt32 (e3.currentRound + 1) }, env.ToBytes c, [])

/-- Encodes for a trustee: `EncodeForRound(roundID, false, nil)` without the plain payload. -/
def TrusteeEncodeForRound {Pt : Type} (env : Env Pt) (e : DCNetEntity Pt) (roundID : Int) :
    Except Crash (DCNetEntity Pt × List Nat) :=
  match EncodeForRound env e roundID false none with
  | .error c => .error c
  | .ok (e1, upstreamCell, _) => .ok (e1, upstreamCell)

/-- Adds `newData` into the recorded downstream history. -/
def UpdateReceivedMessageHistory {Pt : Type} (e : DCNetEntity Pt) (newData : List Nat) :
    Except Crash (DCNetEntity Pt) :=
  if e.EquivocationProtectionEnabled then
    match e.equivocationProtection with
    | none => .error .nilDereference
    | some history => .ok { e with equivocationProtection := some (history ++ [newData]) }
  else .ok e

/-- The bit test of lines 338-350 on one pad: the byte at `bitPosition / 8`
(plus one without equivocation protection), masked with `byte(1 << uint(bitInByte))`. -/
def bitOfPad (equivocation : Bool) (bitPosition : Int) (pad : List Nat) : Except Crash Nat :=
  let bytePosition : Int :=
    if !equivocation then Int.tdiv bitPosition 8 + 1 else Int.tdiv bitPosition 8
  if bytePosition < 0 ∨ bytePosition ≥ (pad.length : Int) then .error .indexOutOfRange
  else
    let byte_toGet := pad.getD bytePosition.toNat 0
    let bitInByte : Int := Int.tmod (8 - Int.tmod bitPosition 8) 8 - 1
    let shift : Nat := (bitInByte % 18446744073709551616).toNat
    let mask : Nat := if shift < 8 then 2 ^ shift else 0
    .ok (if byte_toGet &&& mask = 0 then 0 else 1)

/-- The loop of lines 337-352 over the pads, filling the map `rtn` from index `i` on. -/
def bitsOfPads (equivocation : Bool) (bitPosition : Int) : Nat → List (List Nat) → Except Crash (List (Nat × Nat))
  | _, [] => .ok []
  | i, pad :: pads =>
    match bitOfPad equivocation bitPosition pad with
    | .error c => .error c
    | .ok b =>
      match bitsOfPads equivocation bitPosition (i + 1) pads with
      | .error c => .error c
      | .ok rest => .ok ((i, b) :: rest)

/-- Function to get the bits from previous round in an exact position. Returns
the entity as the call leaves it and, unless the round is not a previous one
(`nil, nil`), the map from peer index to bit and the pads. -/
def GetBitsOfRound {Pt : Type} (env : Env Pt) (e : DCNetEntity Pt) (roundID : Int) (bitPosition : Int) :
    Except Crash (DCNetEntity Pt × Option (List (Nat × Nat) × List (List Nat))) :=
  if roundID ≥ e.currentRound then .ok (e, none)
  else
    match reseedAtRound env e roundID with
    | .error c => .error c
    | .ok e1 =>
      let pp := preparePads env e1.DCNetPayloadSize e1.sharedPRNGs
      let e2 := { e1 with sharedPRNGs := pp.2 }
      match bitsOfPads e.EquivocationProtectionEnabled bitPosition 0 pp.1 with
      | .error c => .error c
      | .ok rtn => .ok (e2, some (rtn, pp.1))

/-- Used by the relay to start decoding a round. -/
def DecodeStart {Pt : Type} (e : DCNetEntity Pt) (roundID : Int) : DCNetEntity Pt :=
  { e with DCNetRoundDecoder := some ⟨roundID, makeBytes e.DCNetPayloadSize, [], []⟩ }

/-- The loop `for i := range payload { xorBuffer[i] ^= payload[i] }`: a payload
longer than the buffer indexes it out of range. -/
def xorInto : List Nat → List Nat → Except Crash (List Nat)
  | buf, [] => .ok buf
  | [], _ :: _ => .error .indexOutOfRange
  | b :: bs, s :: ss =>
    match xorInto bs ss with
    | .error c => .error c
    | .ok r => .ok ((b ^^^ s) :: r)

/-- Called by the relay to decode a client contribution. -/
def DecodeClient {Pt : Type} (env : Env Pt) (e : DCNetEntity Pt) (roundID : Int) (slice : List Nat) :
    Except Crash (DCNetEntity Pt) :=
  let dcNetCipher := env.DCNetCipherFromBytes slice
  match e.DCNetRoundDecoder with
  | none => .error .nilDereference
  | some d =>
    if roundID ≠ d.currentRoundBeingDecoded then .error .wrongRound
    else
      match xorInto d.xorBuffer dcNetCipher.Payload with
      | .error c => .error c
      | .ok buf =>
        let d1 : DCNetRoundDecoder :=
          { d with
            xorBuffer := buf
            equivClientContribs :=
              if e.EquivocationProtectionEnabled then
                d.equivClientContribs ++ [dcNetCipher.EquivocationProtectionTag]
              else d.equivClientContribs }
        .ok { e with DCNetRoundDecoder := some d1 }

/-- Called by the relay to decode a trustee contribution. -/
def DecodeTrustee {Pt : Type} (env : Env Pt) (e : DCNetEntity Pt) (roundID : Int) (slice : List Nat) :
    Except Crash (DCNetEntity Pt) :=
  let dcNetCipher := env.DCNetCipherFromBytes slice
  match e.DCNetRoundDecoder with
  | none => .error .nilDereference
  | some d =>
    if roundID ≠ d.currentRoundBeingDecoded then .error .wrongRound
    else
      match xorInto d.xorBuffer dcNetCipher.Payload with
      | .error c => .error c
      | .ok buf =>
        let d1 : DCNetRoundDecoder :=
          { d with
            xorBuffer := buf
            equivTrusteeContribs :=
              if e.EquivocationProtectionEnabled then
                d.equivTrusteeContribs ++ [dcNetCipher.EquivocationProtectionTag]
              else d.equivTrusteeContribs }
        .ok { e with DCNetRoundDecoder := some d1 }

/-- Called on the relay to decode the cell, after having stored the
cryptographic materials: the decoded bytes and the raw XOR. -/
def DecodeCell {Pt : Type} (env : Env Pt) (e : DCNetEntity Pt) (isOpenClosedSlot : Bool) :
    Except Crash (List Nat × List Nat) :=
  match e.DCNetRoundDecoder with
  | none => .error .nilDereference
  | some d =>
    let cipherText := d.xorBuffer
    if e.EquivocationProtectionEnabled && !isOpenClosedSlot then
      match e.equivocationProtection with
      | none => .error .nilDereference
      | some history =>
        .ok (env.RelayDecode history d.xorBuffer d.equivTrusteeContribs d.equivClientContribs, cipherText)
    else .ok (cipherText, cipherText)

/-- Modelled from the spec: the wire form of a DC-net cipher (`ToBytes`, whose
source is not part of the embedded files) is the payload followed by the
equivocation tag. -/
def wireToBytes (c : DCNetCipher) : List Nat := c.Payload ++ c.EquivocationProtectionTag

/-- Modelled from the spec: reading a cipher back from the wire
(`DCNetCipherFromBytes`) with a tag of `E` bytes (0 when equivocation
protection is disabled): the last `E` bytes are the tag, the rest the payload. -/
def wireFromBytes (E : Nat) (slice : List Nat) : DCNetCipher :=
  ⟨slice.take (slice.length - E), slice.drop (slice.length - E)⟩

/-- A small concrete environment used to run the definitions: points are
numbers marshalled to one byte, the key stream is an arithmetic mix of seed and
offset, equivocation primitives are trivial. -/
def demoEnv : Env Nat where
  MarshalBinary := fun k => some [k % 256]
  keystream := fun seed k => (seed.sum * 31 + k * 7 + 3) % 256
  ToBytes := wireToBytes
  DCNetCipherFromBytes := wireFromBytes 0
  ClientEncryptPayload := fun _ _ payload _ => (payload, [])
  TrusteeGetContribution := fun _ _ => []
  RelayDecode := fun _ buf _ _ => buf
  scalarMarshalSize := 32

/-! ## Specification-side vocabulary for the DC-net claims -/

/-- The marshalled seeds of a list of shared keys, when every key marshals. -/
def marshalAll {Pt : Type} (env : Env Pt) : List Pt → Option (List (List Nat))
  | [] => some []
  | k :: ks =>
    match env.MarshalBinary k, marshalAll env ks with
    | some s, some ss => some (s :: ss)
    | _, _ => none

/-- One stream per seed, each having handed out `pos` bytes. -/
def streamsAt (seeds : List (List Nat)) (pos : Nat) : List XOF :=
  seeds.map (fun s => ⟨s, pos⟩)

/-- The `L` pad bytes of round `r` of the stream seeded with `seed`: stream
bytes `r * L` to `r * L + L - 1`. -/
def padOfRound {Pt : Type} (env : Env Pt) (L : Nat) (r : Nat) (seed : List Nat) : List Nat :=
  (List.range L).map (fun k => env.keystream seed (r * L + k))

/-- Bytewise XOR of two byte strings. -/
def xorBytes (a b : List Nat) : List Nat := List.zipWith (fun x y => x ^^^ y) a b

/-- The XOR of a list of byte strings into an initial one. -/
def xorAll (init : List Nat) (xs : List (List Nat)) : List Nat := xs.foldl xorBytes init

/-- A payload zero-padded to `L` bytes (a nil payload is `L` zero bytes). -/
def zeroPad (L : Nat) (payload : Option (List Nat)) : List Nat :=
  match payload with
  | none => List.replicate L 0
  | some p => p ++ List.replicate (L - p.length) 0

/-- The pad offset invariant: every peer stream is the stream of the
corresponding shared key and has handed out `currentRound * DCNetPayloadSize` bytes. -/
def InLockstep {Pt : Type} (env : Env Pt) (e : DCNetEntity Pt) : Prop :=
  0 ≤ e.currentRound ∧
  ∃ seeds, marshalAll env e.sharedKeys = some seeds ∧
    e.sharedPRNGs = streamsAt seeds (e.currentRound.toNat * e.DCNetPayloadSize)

/-- The relay feeds the clients' ciphers of a round, in order, to `DecodeClient`. -/
def decodeClients {Pt : Type} (env : Env Pt) (roundID : Int) :
    DCNetEntity Pt → List (List Nat) → Except Crash (DCNetEntity Pt)
  | e, [] => .ok e
  | e, x :: xs =>
    match DecodeClient env e roundID x with
    | .error c => .error c
    | .ok e1 => decodeClients env roundID e1 xs

/-- The relay feeds the trustees' ciphers of a round, in order, to `DecodeTrustee`. -/
def decodeTrustees {Pt : Type} (env : Env Pt) (roundID : Int) :
    DCNetEntity Pt → List (List Nat) → Except Crash (DCNetEntity Pt)
  | e, [] => .ok e
  | e, y :: ys =>
    match DecodeTrustee env e roundID y with
    | .error c => .error c
    | .ok e1 => decodeTrustees env roundID e1 ys

/-- The relay's side of one round: `DecodeStart`, every client cipher, every
trustee cipher, then `DecodeCell`. -/
def relayDecodeRound {Pt : Type} (env : Env Pt) (relay : DCNetEntity Pt) (roundID : Int)
    (clientCiphers trusteeCiphers : List (List Nat)) (isOpenClosedSlot : Bool) :
    Except Crash (List Nat × List Nat) :=
  match decodeClients env roundID (DecodeStart relay roundID) clientCiphers with
  | .error c => .error c
  | .ok e1 =>
    match decodeTrustees env roundID e1 trusteeCiphers with
    | .error c => .error c
    | .ok e2 => DecodeCell env e2 isOpenClosedSlot

/-- The ciphers of a list of clients for one round: each client calls
`EncodeForRound(roundID, slotOwner, payload)` with its own flag and payload. -/
def clientCiphers {Pt : Type} (env : Env Pt) (roundID : Int) :
    List (DCNetEntity Pt × Bool × Option (List Nat)) → Except Crash (List (List Nat))
  | [] => .ok []
  | (e, slotOwner, payload) :: rest =>
    match EncodeForRound env e roundID slotOwner payload with
    | .error c => .error c
    | .ok (_, x, _) =>
      match clientCiphers env roundID rest with
      | .error c => .error c
      | .ok xs => .ok (x :: xs)

/-- The ciphers of a list of trustees for one round: each trustee calls
`TrusteeEncodeForRound(roundID)`. -/
def trusteeCiphers {Pt : Type} (env : Env Pt) (roundID : Int) :
    List (DCNetEntity Pt) → Except Crash (List (List Nat))
  | [] => .ok []
  | e :: rest =>
    match TrusteeEncodeForRound env e roundID with
    | .error c => .error c
    | .ok (_, y) =>
      match trusteeCiphers env roundID rest with
      | .error c => .error c
      | .ok ys => .ok (y :: ys)

/-- One DC-net round end to end: the clients and the trustees encode round
`roundID`, the relay decodes what they sent. -/
def dcnetRound {Pt : Type} (env : Env Pt) (relay : DCNetEntity Pt) (roundID : Int)
    (clients : List (DCNetEntity Pt × Bool × Option (List Nat)))
    (trustees : List (DCNetEntity Pt)) (isOpenClosedSlot : Bool) :
    Except Crash (List Nat × List Nat) :=
  match clientCiphers env roundID clients with
  | .error c => .error c
  | .ok xs =>
    match trusteeCiphers env roundID trustees with
    | .error c => .error c
    | .ok ys => relayDecodeRound env relay roundID xs ys isOpenClosedSlot

/-- The XOR of a list of bytes. -/
def xsum (l : List Nat) : Nat := l.foldl (fun x y => x ^^^ y) 0

/-- The seed a shared key marshals to (empty when it does not marshal). -/
def seedOf {Pt : Type} (env : Env Pt) (k : Pt) : List Nat := (env.MarshalBinary k).getD []

/-- The shared key of client `c` (with the single trustee) in the demonstration set-up. -/
def demoKey (c : Nat) (_t : Nat) : Nat := 5 + 4 * c

/-- Client `c` of the demonstration set-up (payload size 32, one trustee) at the start of `round`. -/
def demoClient (round : Nat) (c : Nat) : DCNetEntity Nat :=
  { EntityID := c
    Entity := .DCNET_CLIENT
    EquivocationProtectionEnabled := false
    DCNetPayloadSize := 32
    sharedKeys := [demoKey c 0]
    sharedPRNGs := [⟨[demoKey c 0 % 256], round * 32⟩]
    currentRound := round
    DCNetRoundDecoder := none
    equivocationProtection := none
    equivocationContribLength := 0 }

/-- The trustee of the demonstration set-up (two clients) at the start of `round`. -/
def demoTrustee (round : Nat) (t : Nat) : DCNetEntity Nat :=
  { EntityID := t
    Entity := .DCNET_TRUSTEE
    EquivocationProtectionEnabled := false
    DCNetPayloadSize := 32
    sharedKeys := [demoKey 0 t, demoKey 1 t]
    sharedPRNGs := [⟨[demoKey 0 t % 256], round * 32⟩, ⟨[demoKey 1 t % 256], round * 32⟩]
    currentRound := round
    DCNetRoundDecoder := none
    equivocationProtection := none
    equivocationContribLength := 0 }

/-- The relay of the demonstration set-up. -/
def demoRelay : DCNetEntity Nat :=
  { EntityID := 0
    Entity := .DCNET_RELAY
    EquivocationProtectionEnabled := false
    DCNetPayloadSize := 32
    sharedKeys := []
    sharedPRNGs := []
    currentRound := 0
    DCNetRoundDecoder := none
    equivocationProtection := none
    equivocationContribLength := 0 }

/-- The payloads of round 0 of the demonstration: client 0 sends "hi", client 1 nothing. -/
def demoPayload (c : Nat) : Option (List Nat) := if c = 0 then some [104, 105] else none

/-- The round counter and the pad streams an operation leaves behind (`none` when it crashed). -/
def stateOf {Pt α : Type} (x : Except Crash (DCNetEntity Pt × α)) : Option (Int × List XOF) :=
  match x with
  | .ok (e, _) => some (e.currentRound, e.sharedPRNGs)
  | .error _ => none

/-- The cipher bytes an encoding returned (`none` when it crashed). -/
def bytesOf {Pt : Type} (x : Except Crash (DCNetEntity Pt × List Nat × List Nat)) : Option (List Nat) :=
  match x with
  | .ok (_, bytes, _) => some bytes
  | .error _ => none

/-! ## Group operations of the crypto suite

The suite's group is a module: scalars form a commutative ring acting on the
additive group of points. -/

/-- `suite.Point().Mul(p, s)`: the point `p` multiplied by the scalar `s`. -/
def PointMul {S P : Type} [SMul S P] (p : P) (s : S) : P := s • p

/-- The loop `for i := 0; i < len(Pks); i++ { sharedSecrets[i] = Mul(Pks[i], privateKey) }`
over a slice `sharedSecrets` made with `slots` nil entries (client/client.go
lines 375-381, trusteeServer.go lines 129-135): more keys than slots index the
slice out of range, missing keys leave nil entries. -/
def sharedSecretsLoop {S P : Type} [SMul S P] (slots : Nat) (Pks : List P) (privateKey : S) :
    Except Crash (List (Option P)) :=
  if Pks.length > slots then .error .indexOutOfRange
  else .ok (Pks.map (fun pk => some (PointMul pk privateKey)) ++
    List.replicate (slots - Pks.length) none)

/-- The shared secrets a client derives in `Received_REL_CLI_TELL_TRUSTEES_PK`
from the trustees' public keys. -/
def clientSharedSecrets {S P : Type} [SMul S P] (nTrustees : Nat) (Pks : List P) (privateKey : S) :
    Except Crash (List (Option P)) :=
  sharedSecretsLoop nTrustees Pks privateKey

/-- The shared secrets a trustee derives in `handleConnection` from the
clients' public keys. -/
def trusteeSharedSecrets {S P : Type} [SMul S P] (nClients : Nat) (clientsPublicKeys : List P)
    (privateKey : S) : Except Crash (List (Option P)) :=
  sharedSecretsLoop nClients clientsPublicKeys privateKey

/-! ## prifi-lib/crypto/schnorr.go -/

/-- The parts of the `abstract.Suite` the Schnorr code uses: the base point,
point marshalling, the scalar picked from a cipher seeded with some bytes that
has absorbed a message, the scalar picked from a random stream, and the
encoding of a `basicSig` (challenge, response). -/
structure SchnorrSuite (S P Stream : Type) where
  Base : P
  MarshalBinary : P → List Nat
  PickFromCipher : List Nat → List Nat → S
  Pick : Stream → S
  Write : S × S → List Nat
  Read : List Nat → Option (S × S)

/-- The outcome of `SchnorrVerify` when it is not nil. -/
inductive VerifyError where
  | decode
  | invalidSignature
  deriving DecidableEq, Repr

/-- Returns a secret that depends on a message and a point. -/
def hashSchnorr {S P Stream : Type} (suite : SchnorrSuite S P Stream) (message : List Nat) (p : P) : S :=
  suite.PickFromCipher (suite.MarshalBinary p) message

/-- SchnorrSign: the signature `{c, r}` with `c` the challenge for the
commitment `v * Base` and `r = v - x * c`, written with `suite.Write`. -/
def SchnorrSign {S P Stream : Type} [Ring S] [SMul S P] (suite : SchnorrSuite S P Stream)
    (random : Stream) (message : List Nat) (privateKey : S) : List Nat :=
  let v := suite.Pick random
  let T := PointMul suite.Base v
  let c := hashSchnorr suite message T
  let r := v - privateKey * c
  suite.Write (c, r)

/-- SchnorrVerify checks a signature generated by Sign; `none` is the nil error. -/
def SchnorrVerify {S P Stream : Type} [DecidableEq S] [SMul S P] [Add P]
    (suite : SchnorrSuite S P Stream) (message : List Nat) (publicKey : P)
    (signatureBuffer : List Nat) : Option VerifyError :=
  match suite.Read signatureBuffer with
  | none => some .decode
  | some (sigC, sigR) =>
    let T := PointMul suite.Base sigR + PointMul publicKey sigC
    let c := hashSchnorr suite message T
    if c ≠ sigC then some .invalidSignature else none

/-- A small concrete suite used to run the Schnorr code: scalars and points
are the integers modulo 11, the base point is 2. -/
def demoSchnorrSuite : SchnorrSuite (ZMod 11) (ZMod 11) Nat where
  Base := 2
  MarshalBinary := fun p => [p.val]
  PickFromCipher := fun seed message => ((seed.sum * 3 + message.sum + 1 : Nat) : ZMod 11)
  Pick := fun n => (n : ZMod 11)
  Write := fun sig => [sig.1.val, sig.2.val]
  Read := fun buf =>
    match buf with
    | [a, b] => some ((a : ZMod 11), (b : ZMod 11))
    | _ => none

/-! ## Slot ownership and slot recognition in the client -/

/-- The slot test at the head of `SendUpstreamData`:
`currentRound := RoundNo % int32(nClients)`, `isMySlot := currentRound == int32(MySlot)`.
`RoundNo` is an `int32`, `nClients` and `MySlot` are `int`; a zero divisor is a
runtime error. -/
def isMySlot (RoundNo nClients MySlot : Int) : Except Crash Bool :=
  if wrapInt32 nClients = 0 then .error .divideByZero
  else .ok (decide (wrapInt32 (Int.tmod RoundNo (wrapInt32 nClients)) = wrapInt32 MySlot))

/-- Big-endian encoding of `v` on `width` bytes (`binary.BigEndian.PutUintNN`). -/
def bigEndian : Nat → Nat → List Nat
  | 0, _ => []
  | width + 1, v => (v / 256 ^ width) % 256 :: bigEndian width v

/-- Go `copy(buffer[pos:], src)` for `pos ≤ len(buffer)`. -/
def copyAt (buffer : List Nat) (pos : Nat) (src : List Nat) : List Nat :=
  buffer.take pos ++ copyInto (buffer.drop pos) src

/-- The upstream content chosen by `SendUpstreamData` in prifi-lib/client.go
(lines 327-365). `dataForDCNet` is what the `select` finds on the channel
`DataForDCNet` (`none`: nothing ready; the slice received may itself be nil),
`dummy` the bytes of the dummy socks packet, `currTime` the value of
`MsTimeStamp()`. Returns `isMySlot` and `upstreamCellContent` (nil is `none`). -/
def PrifiLib_upstreamCellContent (dummy : List Nat) (currTime : Int)
    (ID nClients MySlot PayloadLength RoundNo : Int) (LatencyTest : Bool)
    (dataForDCNet : Option (Option (List Nat))) : Except Crash (Bool × Option (List Nat)) :=
  match isMySlot RoundNo nClients MySlot with
  | .error c => .error c
  | .ok false => .ok (false, none)
  | .ok true =>
    match dataForDCNet with
    | some myData => .ok (true, myData)
    | none =>
      if LatencyTest then
        if PayloadLength < 12 then .error .payloadTooSmall
        else
          let buffer := makeBytes PayloadLength.toNat
          let b1 := copyAt buffer 0 (bigEndian 2 43690)
          let b2 := copyAt b1 2 (bigEndian 2 (ID % 65536).toNat)
          let b3 := copyAt b2 4 (bigEndian 8 (currTime % 18446744073709551616).toNat)
          .ok (true, some b3)
      else .ok (true, some dummy)

/-- The latency-test bookkeeping of the client in prifi-lib/client/client.go;
times are integers, `LatencyTestsToSend` holds the creation times of the
pending tests. -/
structure LatencyTests where
  DoLatencyTests : Bool
  NextLatencyTest : Int
  LatencyTestsInterval : Int
  LatencyTestsToSend : List Int
  deriving DecidableEq, Repr

/-- The loop of lines 293-314 packing pending latency messages (client id,
creation time in ms, round) of 14 bytes each into the buffer from `posInBuffer`
on, while they fit in `PayloadLength`. Returns the buffer and the tests left. -/
def packLatencyMessages (MsTimeStamp : Int → Int) (ID RoundNo : Int) (PayloadLength : Nat) :
    List Int → Nat → List Nat → List Nat × List Int
  | [], _, buffer => (buffer, [])
  | createdAt :: rest, posInBuffer, buffer =>
    if posInBuffer + 14 ≤ PayloadLength then
      let latencyMsgBytes :=
        bigEndian 2 (ID % 65536).toNat ++
        bigEndian 8 (MsTimeStamp createdAt % 18446744073709551616).toNat ++
        bigEndian 4 (RoundNo % 4294967296).toNat
      packLatencyMessages MsTimeStamp ID RoundNo PayloadLength rest (posInBuffer + 14)
        (copyAt buffer posInBuffer latencyMsgBytes)
    else (buffer, createdAt :: rest)

/-- Lines 254-263 of `SendUpstreamData` in prifi-lib/client/client.go: when
latency tests are on and the next one is due, a test created `now` is queued
and the next one is scheduled an interval and a random `jitter` later. -/
def scheduleLatencyTest (lat : LatencyTests) (now jitter : Int) : LatencyTests :=
  if lat.DoLatencyTests && decide (now > lat.NextLatencyTest) then
    { lat with
      LatencyTestsToSend := lat.LatencyTestsToSend ++ [now]
      NextLatencyTest := now + lat.LatencyTestsInterval + jitter }
  else lat

/-- The upstream content chosen by `SendUpstreamData` in
prifi-lib/client/client.go (lines 247-319). `now` is `time.Now()`, `jitter` the
random delay added to the next latency test, `MsTimeStamp` the conversion of a
time to milliseconds. Returns `isMySlot`, `upstreamCellContent` (nil is `none`)
and the updated latency-test bookkeeping. -/
def Client_upstreamCellContent (dummy : List Nat) (MsTimeStamp : Int → Int) (now jitter : Int)
    (ID nClients MySlot PayloadLength RoundNo : Int) (lat : LatencyTests)
    (dataForDCNet : Option (Option (List Nat))) :
    Except Crash (Bool × Option (List Nat) × LatencyTests) :=
  match isMySlot RoundNo nClients MySlot with
  | .error c => .error c
  | .ok mine =>
    let lat1 := scheduleLatencyTest lat now jitter
    if mine then
      match dataForDCNet with
      | some myData => .ok (true, myData, lat1)
      | none =>
        if lat1.LatencyTestsToSend.length > 0 then
          if PayloadLength < 16 then .error .payloadTooSmall
          else
            let buffer := copyAt (makeBytes PayloadLength.toNat) 0 (bigEndian 2 43690)
            let r := packLatencyMessages MsTimeStamp ID RoundNo PayloadLength.toNat
              lat1.LatencyTestsToSend 2 buffer
            .ok (true, some r.1, { lat1 with LatencyTestsToSend := r.2 })
        else .ok (true, some dummy, lat1)
    else .ok (false, none, lat1)

/-- The slot-recognition loop of `Received_REL_CLI_TELL_EPH_PKS_AND_TRUSTEES_SIG`
(prifi-lib/client.go lines 513-517) from index `j` on: every match overwrites `mySlot`. -/
def recognizeSlotFrom {P : Type} [DecidableEq P] (ephPubInNewBase : P) : List P → Int → Int → Int
  | [], _, mySlot => mySlot
  | k :: ks, j, mySlot =>
    recognizeSlotFrom ephPubInNewBase ks (j + 1) (if k = ephPubInNewBase then j else mySlot)

/-- Lines 507-517: the client re-bases its ephemeral public key
(`Mul(Mul(base, G), myPrivKey)`) and searches it in the shuffled list,
starting from `mySlot := -1`. -/
def recognizeSlot {S P : Type} [SMul S P] [DecidableEq P] (base : P) (G : S) (myPrivKey : S)
    (ephPubKeys : List P) : Int :=
  let newBaseFromTrusteesG := PointMul base G
  let ephPubInNewBase := PointMul newBaseFromTrusteesG myPrivKey
  recognizeSlotFrom ephPubInNewBase ephPubKeys 0 (-1)

/-- Lines 519-532: the slot the client keeps, its own ID when no key matched. -/
def assignedSlot {S P : Type} [SMul S P] [DecidableEq P] (ID : Int) (base : P) (G : S)
    (myPrivKey : S) (ephPubKeys : List P) : Int :=
  let mySlot := recognizeSlot base G myPrivKey ephPubKeys
  if mySlot = -1 then ID else mySlot

/-- A small concrete environment over the points of `demoSchnorrSuite`
(integers modulo 11), used to run the shared-secret derivation. -/
def demoPointEnv : Env (ZMod 11) where
  MarshalBinary := fun p => some [p.val]
  keystream := fun seed k => (seed.sum * 31 + k * 7 + 3) % 256
  ToBytes := wireToBytes
  DCNetCipherFromBytes := wireFromBytes 0
  ClientEncryptPayload := fun _ _ payload _ => (payload, [])
  TrusteeGetContribution := fun _ _ => []
  RelayDecode := fun _ buf _ _ => buf
  scalarMarshalSize := 32

/-- The ephemeral private scalars of the three clients of the slot demonstration. -/
def demoEphPriv (c : Nat) : ZMod 11 := if c = 0 then 1 else if c = 1 then 4 else 5

/-! ## Helpers shared by the two client files -/

/-- Two's complement wrap-around of an integer into the Go `int64` range. -/
def wrapInt64 (i : Int) : Int :=
  (i + 9223372036854775808) % 18446744073709551616 - 9223372036854775808

/-- The Go slice expression `s[lo:hi]` on a byte slice whose visible bytes are
`data` and whose backing array continues with `spare` (so `len(s)` is
`data.length` and `cap(s)` is `data.length + spare.length`): it is a runtime
error when `hi` exceeds the capacity. -/
def sliceBytes (data spare : List Nat) (lo hi : Nat) : Except Crash (List Nat) :=
  if hi ≤ data.length + spare.length then .ok (((data ++ spare).drop lo).take (hi - lo))
  else .error .indexOutOfRange

/-- The unsigned integer a byte string denotes in big-endian order (`binary.BigEndian.UintNN`). -/
def beUint (bytes : List Nat) : Nat := bytes.foldl (fun acc b => acc * 256 + b) 0

/-- Go `delete(m, k)` on a map kept as an association list. -/
def mapDelete {α : Type} (m : List (Int × α)) (k : Int) : List (Int × α) :=
  m.filter (fun e => decide (e.1 ≠ k))

/-- Go `m[k]` with its presence flag. -/
def mapLookup {α : Type} (m : List (Int × α)) (k : Int) : Option α :=
  match m with
  | [] => none
  | e :: rest => if e.1 = k then some e.2 else mapLookup rest k

/-- Go `m[k] = v`. -/
def mapInsert {α : Type} (m : List (Int × α)) (k : Int) (v : α) : List (Int × α) :=
  (k, v) :: mapDelete m k

/-! ## prifi-lib/client.go

Each handler runs atomically (the mutex of the client state is allocated and
not modelled); a channel is the list of values written to it, or `none` when
it is nil. A handler returns the instance it leaves behind and the Go `error`
(`none` is nil). -/

namespace PrifiLib

/-- Possible states of the clients (`int16` constants). -/
def CLIENT_STATE_BEFORE_INIT : Int := 0

/-- The client has been initialised. -/
def CLIENT_STATE_INITIALIZING : Int := 1

/-- The client has sent its ephemeral keys. -/
def CLIENT_STATE_EPH_KEYS_SENT : Int := 2

/-- The client is ready to communicate. -/
def CLIENT_STATE_READY : Int := 3

/-- The client has shut down. -/
def CLIENT_STATE_SHUTDOWN : Int := 4

/-- The non-nil errors the handlers return. -/
inductive ClientError where
  | wrongState
  | noTrusteeKey
  | sendFailed
  | invalidSignature (j : Nat)
  | noUdpHelper
  deriving DecidableEq, Repr

/-- The downstream frame; `DataSpare` are the bytes of the backing array of
`Data` beyond its length. -/
structure REL_CLI_DOWNSTREAM_DATA where
  RoundID : Int
  Data : List Nat
  DataSpare : List Nat
  FlagResync : Bool
  deriving DecidableEq, Repr

/-- The parameters message. -/
structure ALL_ALL_PARAMETERS where
  ForceParams : Bool
  NextFreeClientID : Int
  NTrustees : Int
  NClients : Int
  UpCellSize : Int
  DoLatencyTests : Bool
  UseUDP : Bool
  ClientDataOutputEnabled : Bool
  deriving DecidableEq, Repr

/-- The trustees' public keys. -/
structure REL_CLI_TELL_TRUSTEES_PK (P : Type) where
  Pks : List P
  deriving DecidableEq, Repr

/-- The result of the shuffle: the base (used as a scalar), the shuffled
ephemeral public keys and the trustees' signatures. -/
structure REL_CLI_TELL_EPH_PKS_AND_TRUSTEES_SIG (S P : Type) where
  Base : S
  EphPks : List P
  TrusteesSigs : List (List Nat)
  deriving DecidableEq, Repr

/-- The messages a client hands to `messageSender.SendToRelay`. -/
inductive Sent (P : Type) where
  | CLI_REL_TELL_PK_AND_EPH_PK (Pk EphPk : Option P)
  | CLI_REL_UPSTREAM_DATA (ClientID RoundID : Int) (Data : List Nat)
  deriving DecidableEq, Repr

/-- ClientState contains the mutable state of the client. `statistics` is the
list of latencies passed to `AddLatency`. -/
structure ClientState (S P C H : Type) where
  CellCoder : C
  currentState : Int
  DataForDCNet : List (Option (List Nat))
  DataFromDCNet : List (List Nat)
  DataOutputEnabled : Bool
  ephemeralPrivateKey : Option S
  EphemeralPublicKey : Option P
  ID : Int
  LatencyTest : Bool
  MySlot : Int
  Name : String
  nClients : Int
  nTrustees : Int
  PayloadLength : Int
  privateKey : Option S
  PublicKey : Option P
  sharedSecrets : List (Option P)
  TrusteePublicKey : List (Option P)
  UsablePayloadLength : Int
  UseSocksProxy : Bool
  UseUDP : Bool
  MessageHistory : Option H
  StartStopReceiveBroadcast : Option (List Bool)
  statistics : List Int
  RoundNo : Int
  BufferedRoundData : List (Int × REL_CLI_DOWNSTREAM_DATA)
  deriving DecidableEq, Repr

/-- The protocol instance as far as the client handlers use it: the client
state and the messages passed to `messageSender.SendToRelay` so far. -/
structure PriFiLibInstance (S P C H : Type) where
  clientState : ClientState S P C H
  sent : List (Sent P)
  deriving DecidableEq, Repr

/-- What the client takes from outside this file: the crypto suite, the
marshalling of a scalar, the cell coder (`config.Factory`, `ClientCellSize`,
`ClientEncode`), whether the transport accepts a message, the private scalar
picked from the cipher seeded with the client's name, the ephemeral scalar
picked from the random stream, the bytes of the dummy socks packet for a
payload length, and the current time in milliseconds. -/
structure Env (S P C H : Type) where
  suite : SchnorrSuite S P Nat
  ScalarMarshalBinary : S → List Nat
  Factory : C
  ClientCellSize : C → Int → Int
  ClientEncode : C → Option (List Nat) → Int → Option H → List Nat × C
  SendToRelay : Sent P → Bool
  PickPrivateKey : String → S
  PickEphemeral : S
  DummyPacket : Int → List Nat
  MsTimeStamp : Int

/-- NewClientState is used to initialize the state of the client; the two
channels it is given are fresh. -/
def NewClientState {S P C H : Type} [SMul S P] (env : Env S P C H)
    (clientID nTrustees nClients payloadLength : Int)
    (latencyTest useUDP dataOutputEnabled : Bool) : Except Crash (ClientState S P C H) :=
  if nTrustees < 0 then .error .negativeLength
  else .ok
    { CellCoder := env.Factory
      currentState := CLIENT_STATE_INITIALIZING
      DataForDCNet := []
      DataFromDCNet := []
      DataOutputEnabled := dataOutputEnabled
      ephemeralPrivateKey := none
      EphemeralPublicKey := none
      ID := clientID
      LatencyTest := latencyTest
      MySlot := -1
      Name := "Client-" ++ toString clientID
      nClients := nClients
      nTrustees := nTrustees
      PayloadLength := payloadLength
      privateKey := some (env.PickPrivateKey ("Client-" ++ toString clientID))
      PublicKey := some (PointMul env.suite.Base (env.PickPrivateKey ("Client-" ++ toString clientID)))
      sharedSecrets := List.replicate nTrustees.toNat none
      TrusteePublicKey := List.replicate nTrustees.toNat none
      UsablePayloadLength := env.ClientCellSize env.Factory payloadLength
      UseSocksProxy := false
      UseUDP := useUDP
      MessageHistory := none
      StartStopReceiveBroadcast := some []
      statistics := []
      RoundNo := 0
      BufferedRoundData := [] }

/-- Received_ALL_CLI_SHUTDOWN handles ALL_CLI_SHUTDOWN messages. -/
def Received_ALL_CLI_SHUTDOWN {S P C H : Type} (p : PriFiLibInstance S P C H) :
    Except Crash (PriFiLibInstance S P C H × Option ClientError) :=
  .ok ({ p with clientState := { p.clientState with currentState := CLIENT_STATE_SHUTDOWN } }, none)

/-- Received_ALL_CLI_PARAMETERS handles ALL_CLI_PARAMETERS messages. -/
def Received_ALL_CLI_PARAMETERS {S P C H : Type} [SMul S P] (env : Env S P C H)
    (p : PriFiLibInstance S P C H) (msg : ALL_ALL_PARAMETERS) :
    Except Crash (PriFiLibInstance S P C H × Option ClientError) :=
  if p.clientState.currentState ≠ CLIENT_STATE_BEFORE_INIT ∧ msg.ForceParams = false then
    .ok (p, none)
  else
    match NewClientState env msg.NextFreeClientID msg.NTrustees msg.NClients msg.UpCellSize
        msg.DoLatencyTests msg.UseUDP msg.ClientDataOutputEnabled with
    | .error c => .error c
    | .ok cs =>
      .ok ({ p with clientState := { cs with currentState := CLIENT_STATE_INITIALIZING } }, none)

/-- The latency part of `ProcessDownStreamData` (lines 286-300): when the data
starts with the pattern 43690 and carries this client's ID, the time elapsed
since the embedded timestamp is added to the statistics. -/
def recordLatency {S P C H : Type} (env : Env S P C H) (cs : ClientState S P C H)
    (msg : REL_CLI_DOWNSTREAM_DATA) : Except Crash (ClientState S P C H) :=
  if cs.LatencyTest && decide (msg.Data.length > 2) then
    match sliceBytes msg.Data msg.DataSpare 0 2 with
    | .error c => .error c
    | .ok b01 =>
      if beUint b01 = 43690 then
        match sliceBytes msg.Data msg.DataSpare 2 4 with
        | .error c => .error c
        | .ok b23 =>
          if (beUint b23 : Int) = cs.ID then
            match sliceBytes msg.Data msg.DataSpare 4 12 with
            | .error c => .error c
            | .ok b4 =>
              let timestamp := wrapInt64 (beUint b4)
              let diff := wrapInt64 (env.MsTimeStamp - timestamp)
              .ok { cs with statistics := cs.statistics ++ [diff] }
          else .ok cs
      else .ok cs
  else .ok cs

/-- SendUpstreamData determines if it's our round, embeds data in the payload
if we can, creates the DC-net cipher and sends it to the relay. When the next
round's frame is already buffered the handler calls
`Received_REL_CLI_DOWNSTREAM_DATA`, which locks the mutex the caller holds:
the call never returns. -/
def SendUpstreamData {S P C H : Type} (env : Env S P C H) (p : PriFiLibInstance S P C H) :
    Except Crash (PriFiLibInstance S P C H × Option ClientError) :=
  let cs := p.clientState
  match PrifiLib_upstreamCellContent (env.DummyPacket cs.PayloadLength) env.MsTimeStamp cs.ID
      cs.nClients cs.MySlot cs.PayloadLength cs.RoundNo cs.LatencyTest cs.DataForDCNet.head? with
  | .error c => .error c
  | .ok (mine, upstreamCellContent) =>
    let queue := if mine then cs.DataForDCNet.tail else cs.DataForDCNet
    let enc := env.ClientEncode cs.CellCoder upstreamCellContent cs.PayloadLength cs.MessageHistory
    let toSend : Sent P := .CLI_REL_UPSTREAM_DATA cs.ID cs.RoundNo enc.1
    let cs1 := { cs with DataForDCNet := queue, CellCoder := enc.2 }
    if env.SendToRelay toSend = false then
      .ok ({ clientState := cs1, sent := p.sent ++ [toSend] }, some .sendFailed)
    else
      let buffered := mapDelete cs1.BufferedRoundData (wrapInt32 (cs1.RoundNo - 1))
      let cs2 := { cs1 with BufferedRoundData := buffered, RoundNo := wrapInt32 (cs1.RoundNo + 1) }
      match mapLookup cs2.BufferedRoundData cs2.RoundNo with
      | some _ => .error .deadlock
      | none => .ok ({ clientState := cs2, sent := p.sent ++ [toSend] }, none)

/-- ProcessDownStreamData handles the downstream data, tests if it is a
latency-test message, tests if the resync flag is on, and otherwise calls
`SendUpstreamData`. -/
def ProcessDownStreamData {S P C H : Type} (env : Env S P C H) (p : PriFiLibInstance S P C H)
    (msg : REL_CLI_DOWNSTREAM_DATA) :
    Except Crash (PriFiLibInstance S P C H × Option ClientError) :=
  let handled : Except Crash (ClientState S P C H) :=
    if msg.Data.length > 1 then
      recordLatency env
        (if p.clientState.DataOutputEnabled then
          { p.clientState with DataFromDCNet := p.clientState.DataFromDCNet ++ [msg.Data] }
         else p.clientState) msg
    else .ok p.clientState
  match handled with
  | .error c => .error c
  | .ok cs =>
    if msg.FlagResync = true then
      .ok ({ p with clientState := { cs with currentState := CLIENT_STATE_INITIALIZING } }, none)
    else SendUpstreamData env { p with clientState := cs }

/-- Received_REL_CLI_DOWNSTREAM_DATA handles REL_CLI_DOWNSTREAM_DATA messages.
The third test repeats the second one, as in the source. -/
def Received_REL_CLI_DOWNSTREAM_DATA {S P C H : Type} (env : Env S P C H)
    (p : PriFiLibInstance S P C H) (msg : REL_CLI_DOWNSTREAM_DATA) :
    Except Crash (PriFiLibInstance S P C H × Option ClientError) :=
  if p.clientState.currentState ≠ CLIENT_STATE_READY then .ok (p, some .wrongState)
  else if msg.RoundID = p.clientState.RoundNo then ProcessDownStreamData env p msg
  else if msg.RoundID < p.clientState.RoundNo then .ok (p, none)
  else if msg.RoundID < p.clientState.RoundNo then
    .ok ({ p with clientState := { p.clientState with
            BufferedRoundData := mapInsert p.clientState.BufferedRoundData msg.RoundID msg } }, none)
  else .ok (p, none)

/-- Received_REL_CLI_UDP_DOWNSTREAM_DATA handles REL_CLI_UDP_DOWNSTREAM_DATA
messages; its body is a copy of the TCP handler's. -/
def Received_REL_CLI_UDP_DOWNSTREAM_DATA {S P C H : Type} (env : Env S P C H)
    (p : PriFiLibInstance S P C H) (msg : REL_CLI_DOWNSTREAM_DATA) :
    Except Crash (PriFiLibInstance S P C H × Option ClientError) :=
  if p.clientState.currentState ≠ CLIENT_STATE_READY then .ok (p, some .wrongState)
  else if msg.RoundID = p.clientState.RoundNo then ProcessDownStreamData env p msg
  else if msg.RoundID < p.clientState.RoundNo then .ok (p, none)
  else if msg.RoundID < p.clientState.RoundNo then
    .ok ({ p with clientState := { p.clientState with
            BufferedRoundData := mapInsert p.clientState.BufferedRoundData msg.RoundID msg } }, none)
  else .ok (p, none)

end PrifiLib

namespace PrifiLib

/-- Received_REL_CLI_TELL_TRUSTEES_PK handles REL_CLI_TELL_TRUSTEES_PK
messages: the client stores the trustees' keys, derives the shared secrets,
generates its ephemeral keys and sends its public keys to the relay. -/
def Received_REL_CLI_TELL_TRUSTEES_PK {S P C H : Type} [SMul S P] (env : Env S P C H)
    (p : PriFiLibInstance S P C H) (msg : REL_CLI_TELL_TRUSTEES_PK P) :
    Except Crash (PriFiLibInstance S P C H × Option ClientError) :=
  if p.clientState.currentState ≠ CLIENT_STATE_INITIALIZING then .ok (p, some .wrongState)
  else if msg.Pks.length < 1 then .ok (p, some .noTrusteeKey)
  else
    match p.clientState.privateKey with
    | none => .error .nilDereference
    | some privateKey =>
      let cs1 := { p.clientState with
        nTrustees := (msg.Pks.length : Int)
        TrusteePublicKey := msg.Pks.map some
        sharedSecrets := msg.Pks.map (fun pk => some (PointMul pk privateKey))
        ephemeralPrivateKey := some env.PickEphemeral
        EphemeralPublicKey := some (PointMul env.suite.Base env.PickEphemeral) }
      let toSend : Sent P := .CLI_REL_TELL_PK_AND_EPH_PK cs1.PublicKey cs1.EphemeralPublicKey
      if env.SendToRelay toSend = false then
        .ok ({ clientState := cs1, sent := p.sent ++ [toSend] }, some .sendFailed)
      else
        .ok ({ clientState := { cs1 with currentState := CLIENT_STATE_EPH_KEYS_SENT },
               sent := p.sent ++ [toSend] }, none)

/-- The loop of lines 494-502: the signature of every trustee `j < nTrustees`
is verified over `M`; the first invalid one ends the handler with an error.
`count` is the number of iterations left, `j` the current index; a nil public
key is the standard base for the suite. -/
def verifyTrusteeSignatures {S P : Type} [DecidableEq S] [SMul S P] [Add P]
    (suite : SchnorrSuite S P Nat) (M : List Nat) (TrusteePublicKey : List (Option P))
    (signatures : List (List Nat)) : Nat → Nat → Except Crash (Option ClientError)
  | 0, _ => .ok none
  | count + 1, j =>
    match TrusteePublicKey[j]?, signatures[j]? with
    | some pk, some sig =>
      match SchnorrVerify suite M (pk.getD suite.Base) sig with
      | some _ => .ok (some (.invalidSignature j))
      | none => verifyTrusteeSignatures suite M TrusteePublicKey signatures count (j + 1)
    | _, _ => .error .indexOutOfRange

/-- The message `M` the trustees sign (lines 486-492): the marshalled base
followed by the marshalled ephemeral public keys. -/
def shuffleMessage {S P C H : Type} (env : Env S P C H) (G : S) (ephPubKeys : List P) : List Nat :=
  env.ScalarMarshalBinary G ++ (ephPubKeys.map env.suite.MarshalBinary).flatten

/-- Received_REL_CLI_TELL_EPH_PKS_AND_TRUSTEES_SIG handles the result of the
shuffle: the trustees' signatures are verified, the client locates its slot
(its own ID when no key matches), resets the round state, becomes ready and
sends a first blank cell. -/
def Received_REL_CLI_TELL_EPH_PKS_AND_TRUSTEES_SIG {S P C H : Type} [DecidableEq S]
    [DecidableEq P] [SMul S P] [Add P] (env : Env S P C H) (p : PriFiLibInstance S P C H)
    (msg : REL_CLI_TELL_EPH_PKS_AND_TRUSTEES_SIG S P) :
    Except Crash (PriFiLibInstance S P C H × Option ClientError) :=
  if p.clientState.currentState ≠ CLIENT_STATE_EPH_KEYS_SENT then .ok (p, some .wrongState)
  else
    let cs0 := { p.clientState with nClients := (msg.EphPks.length : Int) }
    match verifyTrusteeSignatures env.suite (shuffleMessage env msg.Base msg.EphPks)
        cs0.TrusteePublicKey msg.TrusteesSigs cs0.nTrustees.toNat 0 with
    | .error c => .error c
    | .ok (some e) => .ok ({ p with clientState := cs0 }, some e)
    | .ok none =>
      match cs0.ephemeralPrivateKey with
      | none => .error .nilDereference
      | some myPrivKey =>
        let mySlot := assignedSlot cs0.ID env.suite.Base msg.Base myPrivKey msg.EphPks
        let cs1 := { cs0 with MySlot := mySlot, RoundNo := 0, BufferedRoundData := [] }
        if cs1.UseUDP = true ∧ cs1.StartStopReceiveBroadcast = none then
          .ok ({ p with clientState := cs1 }, some .noUdpHelper)
        else
          let cs2 := { cs1 with
            StartStopReceiveBroadcast :=
              if cs1.UseUDP then cs1.StartStopReceiveBroadcast.map (fun l => l ++ [true])
              else cs1.StartStopReceiveBroadcast
            currentState := CLIENT_STATE_READY }
          let enc := env.ClientEncode cs2.CellCoder (some []) cs2.PayloadLength cs2.MessageHistory
          let toSend : Sent P := .CLI_REL_UPSTREAM_DATA cs2.ID cs2.RoundNo enc.1
          let cs3 := { cs2 with CellCoder := enc.2 }
          if env.SendToRelay toSend = false then
            .ok ({ clientState := cs3, sent := p.sent ++ [toSend] }, some .sendFailed)
          else
            .ok ({ clientState := { cs3 with RoundNo := wrapInt32 (cs3.RoundNo + 1) },
                   sent := p.sent ++ [toSend] }, none)

/-- A small concrete environment for the client of prifi-lib/client.go over
the integers modulo 11: the coder counts its calls and returns the content
padded with zeros to the payload length, the transport accepts every message. -/
def demoClientEnv : Env (ZMod 11) (ZMod 11) Nat Nat where
  suite := demoSchnorrSuite
  ScalarMarshalBinary := fun s => [s.val]
  Factory := 0
  ClientCellSize := fun _ n => n
  ClientEncode := fun c content n _ => (zeroPad n.toNat content, c + 1)
  SendToRelay := fun _ => true
  PickPrivateKey := fun name => (name.length : ZMod 11)
  PickEphemeral := 4
  DummyPacket := fun _ => [0, 0, 0, 0]
  MsTimeStamp := 1000

/-- A client of the demonstration: ID 1 of two clients and one trustee
(private scalar 3, public key 3 * 2 = 6), payload length 16, ephemeral scalar 4. -/
def demoClientState (state : Int) (MySlot RoundNo : Int) : ClientState (ZMod 11) (ZMod 11) Nat Nat :=
  { CellCoder := 0
    currentState := state
    DataForDCNet := []
    DataFromDCNet := []
    DataOutputEnabled := false
    ephemeralPrivateKey := some 4
    EphemeralPublicKey := some 8
    ID := 1
    LatencyTest := false
    MySlot := MySlot
    Name := "Client-1"
    nClients := 2
    nTrustees := 1
    PayloadLength := 16
    privateKey := some 8
    PublicKey := some 5
    sharedSecrets := [some 4]
    TrusteePublicKey := [some 6]
    UsablePayloadLength := 16
    UseSocksProxy := false
    UseUDP := false
    MessageHistory := none
    StartStopReceiveBroadcast := some []
    statistics := []
    RoundNo := RoundNo
    BufferedRoundData := [] }

end PrifiLib

/-! ## prifi-lib/client/client.go

The client of the later library version. Its state type and its state machine
are declared outside the embedded files; the fields are those the handlers use. -/

namespace Client

/-- The downstream frame of the `net` package as the handlers use it. -/
structure REL_CLI_DOWNSTREAM_DATA where
  RoundID : Int
  Data : List Nat
  FlagResync : Bool
  Hash : Option (List Nat)
  HashRoundID : Int
  deriving DecidableEq, Repr

/-- The result of the shuffle as the handler passes it on. -/
structure REL_CLI_TELL_EPH_PKS_AND_TRUSTEES_SIG (P : Type) where
  Base : P
  EphPks : List P
  Signatures : List (List Nat)
  deriving DecidableEq, Repr

/-- The messages a client hands to `messageSender.SendToRelayWithLog`. -/
inductive Sent (P : Type) where
  | CLI_REL_TELL_PK_AND_EPH_PK (ClientID : Int) (Pk EphPk : Option P)
  | CLI_REL_UPSTREAM_DATA (ClientID RoundID : Int) (Data : List Nat)
  | CLI_REL_QUERY (RoundID : Int) (Pk : P)
  deriving DecidableEq, Repr

/-- The non-nil errors the handlers return. -/
inductive ClientError where
  | noUdpHelper
  | noTrusteeKey
  | marshalFailed
  | badParameter
  deriving DecidableEq, Repr

/-- The mutable state of the client. `measuredLatency` is the list of values
passed to `timeStatistics["measured-latency"].AddTime`. -/
structure ClientState (S P C H : Type) where
  CellCoder : C
  DataForDCNet : List (Option (List Nat))
  DataFromDCNet : List (List Nat)
  DataOutputEnabled : Bool
  DataHistory : List (Int × Option (List Nat))
  BlameStarted : Bool
  CorruptedID : Int
  BlamePrivateKey : Option S
  ephemeralPrivateKey : Option S
  EphemeralPublicKey : Option P
  ID : Int
  LatencyTest : LatencyTests
  MySlot : Int
  Name : String
  nClients : Int
  nTrustees : Int
  PayloadLength : Int
  privateKey : Option S
  PublicKey : Option P
  sharedSecrets : List (Option P)
  TrusteePublicKey : List (Option P)
  UsablePayloadLength : Int
  UseUDP : Bool
  MessageHistory : Option H
  StartStopReceiveBroadcast : Option (List Bool)
  measuredLatency : List Int
  RoundNo : Int
  BufferedRoundData : List (Int × REL_CLI_DOWNSTREAM_DATA)
  deriving DecidableEq, Repr

/-- The client instance: the client state, the current state of its state
machine, the messages passed to the message sender so far, and (as a record
kept for the verification) the frames passed to `ProcessDownStreamData` so far. -/
structure PriFiLibClientInstance (S P C H : Type) where
  clientState : ClientState S P C H
  stateMachine : String
  sent : List (Sent P)
  processed : List REL_CLI_DOWNSTREAM_DATA
  deriving DecidableEq, Repr

/-- What the client takes from outside this file. Time, randomness and fresh
key pairs are given per round: `Now r`, `MsTimeStampNow r`, `Jitter r` and
`NewKeyPair r` are the values obtained while round `r` is being handled.
`ClientVerifySigAndRecognizeSlot` returns the slot and the error text, if any. -/
structure Env (S P C H : Type) where
  Sum256 : List Nat → List Nat
  ClientEncode : C → Option (List Nat) → Int → Option H → List Nat × C
  DummyPacket : Int → List Nat
  MsTimeStamp : Int → Int
  Now : Int → Int
  MsTimeStampNow : Int → Int
  Jitter : Int → Int
  NewKeyPair : Int → P × S
  ClientVerifySigAndRecognizeSlot :
    Option S → List (Option P) → P → List P → List (List Nat) → Int × Option String

/-- Modelled from the spec: `stateMachine.ChangeState(state)`, whose source is
not part of the embedded files, makes `state` the current state of the
client's finite-state machine. -/
def ChangeState {S P C H : Type} (p : PriFiLibClientInstance S P C H) (state : String) :
    PriFiLibClientInstance S P C H :=
  { p with stateMachine := state }

/-- Received_ALL_ALL_SHUTDOWN handles ALL_ALL_SHUTDOWN messages. -/
def Received_ALL_ALL_SHUTDOWN {S P C H : Type} (p : PriFiLibClientInstance S P C H) :
    Except Crash (PriFiLibClientInstance S P C H × Option ClientError) :=
  .ok (ChangeState p "SHUTDOWN", none)

/-- The hash processing of `ProcessDownStreamData` (lines 173-186): the entry of
`DataHistory` for the round the hash speaks about is dropped when the hash
matches, and starts the blame procedure when it does not. -/
def processHash {S P C H : Type} (env : Env S P C H) (cs : ClientState S P C H)
    (msg : REL_CLI_DOWNSTREAM_DATA) : ClientState S P C H :=
  match msg.Hash with
  | none => cs
  | some hash =>
    match mapLookup cs.DataHistory msg.HashRoundID with
    | none => cs
    | some data =>
      if hash = env.Sum256 (data.getD []) then
        { cs with DataHistory := mapDelete cs.DataHistory msg.HashRoundID }
      else { cs with BlameStarted := true, CorruptedID := msg.HashRoundID }

/-- The loop of lines 206-220 over the 14-byte latency records of the data,
from `posInBuffer` on: the latency of every record carrying this client's ID
is measured. `fuel` bounds the number of iterations. -/
def scanLatencyRecords (ID msNow : Int) (data : List Nat) : Nat → Nat → List Int → List Int
  | 0, _, measured => measured
  | fuel + 1, posInBuffer, measured =>
    if posInBuffer + 14 ≤ data.length then
      let clientID := beUint ((data.drop posInBuffer).take 2)
      let timestamp := wrapInt64 (beUint ((data.drop (posInBuffer + 2)).take 8))
      scanLatencyRecords ID msNow data fuel (posInBuffer + 14)
        (if (clientID : Int) = ID then measured ++ [wrapInt64 (msNow - timestamp)] else measured)
    else measured

/-- The data handling of `ProcessDownStreamData` (lines 191-223). -/
def handleDownstreamData {S P C H : Type} (env : Env S P C H) (cs : ClientState S P C H)
    (msg : REL_CLI_DOWNSTREAM_DATA) : ClientState S P C H :=
  if msg.Data.length > 1 then
    let cs1 :=
      if cs.DataOutputEnabled then { cs with DataFromDCNet := cs.DataFromDCNet ++ [msg.Data] }
      else cs
    if cs1.LatencyTest.DoLatencyTests && decide (msg.Data.length > 2) then
      if beUint (msg.Data.take 2) = 43690 then
        let measured := scanLatencyRecords cs1.ID (env.MsTimeStampNow cs1.RoundNo) msg.Data
          msg.Data.length 2 cs1.measuredLatency
        { cs1 with measuredLatency := measured }
      else cs1
    else cs1
  else cs

/-- SendUpstreamData determines if it's our round, embeds data (maybe
latency-test messages) in the payload if we can, creates the DC-net cipher and
sends it to the relay; `recv` is the handler called on the buffered frame of
the next round, if there is one. -/
def SendUpstreamData {S P C H : Type} (env : Env S P C H)
    (recv : PriFiLibClientInstance S P C H → REL_CLI_DOWNSTREAM_DATA →
      Except Crash (PriFiLibClientInstance S P C H × Option ClientError))
    (p : PriFiLibClientInstance S P C H) :
    Except Crash (PriFiLibClientInstance S P C H × Option ClientError) :=
  let cs := p.clientState
  match Client_upstreamCellContent (env.DummyPacket cs.PayloadLength) env.MsTimeStamp
      (env.Now cs.RoundNo) (env.Jitter cs.RoundNo) cs.ID cs.nClients cs.MySlot cs.PayloadLength
      cs.RoundNo cs.LatencyTest cs.DataForDCNet.head? with
  | .error c => .error c
  | .ok (mine, upstreamCellContent, lat1) =>
    let cs1 := { cs with
      LatencyTest := lat1
      DataForDCNet := if mine then cs.DataForDCNet.tail else cs.DataForDCNet
      DataHistory :=
        if mine && cs.DataForDCNet.head?.isSome then
          mapInsert cs.DataHistory cs.RoundNo upstreamCellContent
        else cs.DataHistory }
    let query : List (Sent P) :=
      if cs1.BlameStarted then [.CLI_REL_QUERY cs1.RoundNo (env.NewKeyPair cs1.RoundNo).1] else []
    let cs2 :=
      if cs1.BlameStarted then
        { cs1 with BlamePrivateKey := some (env.NewKeyPair cs1.RoundNo).2 }
      else cs1
    let enc := env.ClientEncode cs2.CellCoder upstreamCellContent cs2.PayloadLength cs2.MessageHistory
    let toSend : Sent P := .CLI_REL_UPSTREAM_DATA cs2.ID cs2.RoundNo enc.1
    let cs3 := { cs2 with
      CellCoder := enc.2
      BufferedRoundData := mapDelete cs2.BufferedRoundData (wrapInt32 (cs2.RoundNo - 1))
      RoundNo := wrapInt32 (cs2.RoundNo + 1) }
    let p3 := { p with clientState := cs3, sent := p.sent ++ query ++ [toSend] }
    match mapLookup cs3.BufferedRoundData cs3.RoundNo with
    | some msg =>
      match recv p3 msg with
      | .error c => .error c
      | .ok (p4, _) => .ok (p4, none)
    | none => .ok (p3, none)

/-- ProcessDownStreamData handles the downstream data; with the resync flag the
client goes back to INITIALIZING, otherwise it sends its upstream cell. -/
def ProcessDownStreamData {S P C H : Type} (env : Env S P C H)
    (recv : PriFiLibClientInstance S P C H → REL_CLI_DOWNSTREAM_DATA →
      Except Crash (PriFiLibClientInstance S P C H × Option ClientError))
    (p : PriFiLibClientInstance S P C H) (msg : REL_CLI_DOWNSTREAM_DATA) :
    Except Crash (PriFiLibClientInstance S P C H × Option ClientError) :=
  let p1 := { p with
    processed := p.processed ++ [msg]
    clientState := handleDownstreamData env (processHash env p.clientState msg) msg }
  if msg.FlagResync = true then .ok (ChangeState p1 "INITIALIZING", none)
  else SendUpstreamData env recv p1

/-- Received_REL_CLI_DOWNSTREAM_DATA handles REL_CLI_DOWNSTREAM_DATA messages:
the frame of the current round is processed, an older one discarded, a later
one buffered. `fuel` bounds the depth of the calls on buffered frames. -/
def Received_REL_CLI_DOWNSTREAM_DATA {S P C H : Type} (env : Env S P C H) :
    Nat → PriFiLibClientInstance S P C H → REL_CLI_DOWNSTREAM_DATA →
      Except Crash (PriFiLibClientInstance S P C H × Option ClientError)
  | 0, _, _ => .error .outOfFuel
  | fuel + 1, p, msg =>
    if msg.RoundID = p.clientState.RoundNo then
      ProcessDownStreamData env (Received_REL_CLI_DOWNSTREAM_DATA env fuel) p msg
    else if msg.RoundID < p.clientState.RoundNo then .ok (p, none)
    else if msg.RoundID > p.clientState.RoundNo then
      .ok ({ p with clientState := { p.clientState with
              BufferedRoundData := mapInsert p.clientState.BufferedRoundData msg.RoundID msg } },
           none)
    else .ok (p, none)

/-- Received_REL_CLI_UDP_DOWNSTREAM_DATA passes the wrapped frame on. -/
def Received_REL_CLI_UDP_DOWNSTREAM_DATA {S P C H : Type} (env : Env S P C H) (fuel : Nat)
    (p : PriFiLibClientInstance S P C H) (msg : REL_CLI_DOWNSTREAM_DATA) :
    Except Crash (PriFiLibClientInstance S P C H × Option ClientError) :=
  Received_REL_CLI_DOWNSTREAM_DATA env fuel p msg

/-- Received_REL_CLI_TELL_EPH_PKS_AND_TRUSTEES_SIG handles the result of the
shuffle: the outcome of `ClientVerifySigAndRecognizeSlot` is logged, the slot
stored, the round state reset, the state changed to READY and a first blank
cell sent. -/
def Received_REL_CLI_TELL_EPH_PKS_AND_TRUSTEES_SIG {S P C H : Type} (env : Env S P C H)
    (p : PriFiLibClientInstance S P C H) (msg : REL_CLI_TELL_EPH_PKS_AND_TRUSTEES_SIG P) :
    Except Crash (PriFiLibClientInstance S P C H × Option ClientError) :=
  let r := env.ClientVerifySigAndRecognizeSlot p.clientState.ephemeralPrivateKey
    p.clientState.TrusteePublicKey msg.Base msg.EphPks msg.Signatures
  let cs1 : ClientState S P C H :=
    { p.clientState with MySlot := r.1, RoundNo := 0, BufferedRoundData := [] }
  if cs1.UseUDP = true ∧ cs1.StartStopReceiveBroadcast = none then
    .ok ({ p with clientState := cs1 }, some .noUdpHelper)
  else
    let cs2 : ClientState S P C H := { cs1 with
      StartStopReceiveBroadcast :=
        if cs1.UseUDP then cs1.StartStopReceiveBroadcast.map (fun l => l ++ [true])
        else cs1.StartStopReceiveBroadcast }
    let enc := env.ClientEncode cs2.CellCoder none cs2.PayloadLength cs2.MessageHistory
    let toSend : Sent P := .CLI_REL_UPSTREAM_DATA cs2.ID cs2.RoundNo enc.1
    let cs3 := { cs2 with CellCoder := enc.2, RoundNo := wrapInt32 (cs2.RoundNo + 1) }
    .ok ({ ChangeState p "READY" with clientState := cs3, sent := p.sent ++ [toSend] }, none)

/-- A small concrete environment for the client of prifi-lib/client/client.go:
the coder counts its calls and pads the content with zeros, the verification
of the shuffle fails whenever there is no signature. -/
def demoEnv : Env (ZMod 11) (ZMod 11) Nat Nat where
  Sum256 := fun data => [data.sum % 256]
  ClientEncode := fun c content n _ => (zeroPad n.toNat content, c + 1)
  DummyPacket := fun _ => [0, 0, 0, 0]
  MsTimeStamp := fun t => t
  Now := fun r => 1000 + r
  MsTimeStampNow := fun r => 1000 + r
  Jitter := fun _ => 0
  NewKeyPair := fun _ => (8, 4)
  ClientVerifySigAndRecognizeSlot := fun _ _ _ _ sigs =>
    if sigs = [] then (-1, some "invalid signature") else (0, none)

/-- Client 1 of two clients and one trustee, payload length 16, in round `RoundNo`. -/
def demoClientState (MySlot RoundNo : Int) : ClientState (ZMod 11) (ZMod 11) Nat Nat :=
  { CellCoder := 0
    DataForDCNet := []
    DataFromDCNet := []
    DataOutputEnabled := false
    DataHistory := []
    BlameStarted := false
    CorruptedID := 0
    BlamePrivateKey := none
    ephemeralPrivateKey := some 4
    EphemeralPublicKey := some 8
    ID := 1
    LatencyTest := ⟨false, 0, 0, []⟩
    MySlot := MySlot
    Name := "Client-1"
    nClients := 2
    nTrustees := 1
    PayloadLength := 16
    privateKey := some 8
    PublicKey := some 5
    sharedSecrets := [some 4]
    TrusteePublicKey := [some 6]
    UsablePayloadLength := 16
    UseUDP := false
    MessageHistory := none
    StartStopReceiveBroadcast := some []
    measuredLatency := []
    RoundNo := RoundNo
    BufferedRoundData := [] }

end Client

/-- A ready client of prifi-lib/client.go in round 5 with slot 1 and a frame
for round 7 in its reorder buffer. -/
def PrifiLib.demoReadyClient : PrifiLib.ClientState (ZMod 11) (ZMod 11) Nat Nat :=
  { PrifiLib.demoClientState PrifiLib.CLIENT_STATE_READY 1 5 with
    BufferedRoundData := [(7, ⟨7, [1, 2], [], false⟩)] }

/-- A client of prifi-lib/client/client.go in round 5 with slot 1 and a frame
for round 7 in its reorder buffer. -/
def Client.demoReadyClient : Client.ClientState (ZMod 11) (ZMod 11) Nat Nat :=
  { Client.demoClientState 1 5 with
    BufferedRoundData := [(7, ⟨7, [1, 2], false, none, 0⟩)] }

/-- The shuffle result of the demonstration: base scalar 3, shuffled keys
[7, 2] (the second is client 1's re-based key 4 * (3 * 2)), signed by the
trustee with private scalar 3. -/
def PrifiLib.demoShuffle : PrifiLib.REL_CLI_TELL_EPH_PKS_AND_TRUSTEES_SIG (ZMod 11) (ZMod 11) :=
  { Base := 3
    EphPks := [7, 2]
    TrusteesSigs :=
      [SchnorrSign demoSchnorrSuite 7 (PrifiLib.shuffleMessage PrifiLib.demoClientEnv 3 [7, 2]) 3] }

/-! ## Specification-side vocabulary for the downstream order of the client -/

namespace Client

/-- The frames are delivered to `Received_REL_CLI_DOWNSTREAM_DATA` one after
the other, in the order of the list; a crash ends the run. -/
def deliver {S P C H : Type} (env : Env S P C H) (fuel : Nat) :
    PriFiLibClientInstance S P C H → List REL_CLI_DOWNSTREAM_DATA →
      Except Crash (PriFiLibClientInstance S P C H)
  | p, [] => .ok p
  | p, msg :: rest =>
    match Received_REL_CLI_DOWNSTREAM_DATA env fuel p msg with
    | .error c => .error c
    | .ok (p1, _) => deliver env fuel p1 rest

/-- The round a client in round `r` is in after the frames of the list, each
being of the round the client is in when its turn comes: a frame without the
resync flag moves the `int32` round counter on by one, a frame with the flag
leaves it. `none` when some frame is of another round than the client's. -/
def roundAfter : Int → List REL_CLI_DOWNSTREAM_DATA → Option Int
  | r, [] => some r
  | r, msg :: rest =>
    if msg.RoundID = r then roundAfter (if msg.FlagResync then r else wrapInt32 (r + 1)) rest
    else none

end Client

/-! ## prifi-lib/client/client.go: the parameters message -/

namespace Client

/-- What `Received_ALL_ALL_PARAMETERS` takes from outside the file: the
accessors of the message type `net.ALL_ALL_PARAMETERS_NEW` (here `M`), the two
coder factories of the `dcnet` package, `ClientCellSize` and the initial
message history `config.CryptoSuite.Cipher([]byte("init"))`. -/
structure ParametersEnv (M C H : Type) where
  IntValueOrElse : M → String → Int → Int
  BoolValueOrElse : M → String → Bool → Bool
  StringValueOrElse : M → String → String → String
  SimpleCoderFactory : C
  OwnedCoderFactory : C
  ClientCellSize : C → Int → Int
  initialHistory : H

/-- Received_ALL_ALL_PARAMETERS handles ALL_ALL_PARAMETERS messages. It uses
the message's parameters to initialize the client. -/
def Received_ALL_ALL_PARAMETERS {S P C H M : Type} (penv : ParametersEnv M C H)
    (p : PriFiLibClientInstance S P C H) (msg : M) :
    Except Crash (PriFiLibClientInstance S P C H × Option ClientError) :=
  let clientID := penv.IntValueOrElse msg "NextFreeClientID" (-1)
  let nTrustees := penv.IntValueOrElse msg "NTrustees" p.clientState.nTrustees
  let nClients := penv.IntValueOrElse msg "NClients" p.clientState.nClients
  let upCellSize := penv.IntValueOrElse msg "UpstreamCellSize" p.clientState.PayloadLength
  let useUDP := penv.BoolValueOrElse msg "UseUDP" p.clientState.UseUDP
  let dcNetType := penv.StringValueOrElse msg "DCNetType" "not initialized"
  if clientID < -1 then .ok (p, some .badParameter)
  else if nTrustees < 1 then .ok (p, some .badParameter)
  else if nClients < 1 then .ok (p, some .badParameter)
  else if upCellSize < 1 then .ok (p, some .badParameter)
  else
    let coder : Except Crash C :=
      if dcNetType = "Simple" then .ok penv.SimpleCoderFactory
      else if dcNetType = "Verifiable" then .ok penv.OwnedCoderFactory
      else .error .fatal
    match coder with
    | .error c => .error c
    | .ok cellCoder =>
      let cs : ClientState S P C H := { p.clientState with
        CellCoder := cellCoder
        ID := clientID
        Name := "Client-" ++ toString clientID
        MySlot := -1
        nClients := nClients
        nTrustees := nTrustees
        PayloadLength := upCellSize
        UsablePayloadLength := penv.ClientCellSize cellCoder upCellSize
        UseUDP := useUDP
        TrusteePublicKey := List.replicate nTrustees.toNat none
        sharedSecrets := List.replicate nTrustees.toNat none
        RoundNo := 0
        BufferedRoundData := []
        MessageHistory := some penv.initialHistory
        StartStopReceiveBroadcast := some [] }
      .ok (ChangeState { p with clientState := cs } "INITIALIZING", none)

/-- A parameters message for the demonstrations: the values it carries, by name. -/
structure DemoParameters where
  ints : List (String × Int)
  bools : List (String × Bool)
  strings : List (String × String)
  deriving DecidableEq, Repr

/-- The accessors on `DemoParameters` return the value stored under the name,
or else the default; the coders are numbers. -/
def demoParametersEnv : ParametersEnv DemoParameters Nat Nat where
  IntValueOrElse := fun m k d => (m.ints.lookup k).getD d
  BoolValueOrElse := fun m k d => (m.bools.lookup k).getD d
  StringValueOrElse := fun m k d => (m.strings.lookup k).getD d
  SimpleCoderFactory := 0
  OwnedCoderFactory := 100
  ClientCellSize := fun _ n => n
  initialHistory := 7

end Client

/-! ## net/helpers.go -/

namespace Net

/-- Modelled from the spec: the constant `MESSAGE_TYPE_PUBLICKEYS` of the `net`
package, whose declaration is not part of the embedded files, is the message
type 2 (the value `UnMarshalPublicKeyArrayFromByteArray` tests for). -/
def MESSAGE_TYPE_PUBLICKEYS : Nat := 2

/-- The loop of `MarshalPublicKeyArrayToByteArray` (lines 233-245): for every
key its length on four bytes and its marshalled form are appended; a key that
cannot be marshalled is a panic. -/
def marshalKeysLoop {P : Type} (MarshalBinary : P → Option (List Nat)) :
    List P → List Nat → Except Crash (List Nat)
  | [], byteArray => .ok byteArray
  | key :: rest, byteArray =>
    match MarshalBinary key with
    | none => .error .marshalFailed
    | some publicKeysBytes =>
      let publicKeyLength := copyAt (makeBytes 4) 0 (bigEndian 4 (publicKeysBytes.length % 4294967296))
      marshalKeysLoop MarshalBinary rest (byteArray ++ publicKeyLength ++ publicKeysBytes)

/-- MarshalPublicKeyArrayToByteArray: the message type, then the keys. -/
def MarshalPublicKeyArrayToByteArray {P : Type} (MarshalBinary : P → Option (List Nat))
    (publicKeys : List P) : Except Crash (List Nat) :=
  let msgType := copyAt (makeBytes 4) 0 (bigEndian 4 (MESSAGE_TYPE_PUBLICKEYS % 4294967296))
  marshalKeysLoop MarshalBinary publicKeys ([] ++ msgType)

/-- The key-list wire format in the words of the specification:
`u32 msg_type(=2) || repeat { u32 key_len || key_len bytes }`, for the
marshalled forms of the keys in list order. -/
def keyListWireFormat (forms : List (List Nat)) : List Nat :=
  bigEndian 4 2 ++ (forms.map (fun form => bigEndian 4 form.length ++ form)).flatten

end Net

/-! ## dissent/relay.go: the round loop of `startRelay`

The loop of lines 233-349. The crypto coder `me.Coder`, the connections and the
clock are outside the file: what they return in one iteration is the input of
that iteration. In `startRelay` the loop stands behind `for { time.Sleep(...) }`
(lines 215-217), a loop without exit; the definitions describe the round loop
from the state in which it is entered. -/

namespace Relay

/-- The downstream buffer `dataWithConnectionId` (declared elsewhere in
package main): a connection id, a Go `int`, and the data. -/
structure dataWithConnectionId where
  connectionId : Int
  data : List Nat
  deriving DecidableEq, Repr

/-- The parameters of `startRelay` the loop uses, with the two cell sizes the
coder reports. -/
structure Config where
  payloadLength : Int
  nClients : Int
  nTrustees : Int
  clientPayloadLength : Int
  trusteePayloadLength : Int
  deriving DecidableEq, Repr

/-- What one iteration receives from outside: the result of
`reportStatistics`, what the `select` finds on the downstream channel, the
byte counts returned by each client's `Write` and by `io.ReadFull` on each
trustee and client connection, and the result of `DecodeCell`. -/
structure RoundInput where
  report : Bool
  downbuffer : Option dataWithConnectionId
  written : Nat → Int
  trusteeRead : Nat → Int
  clientRead : Nat → Int
  upstreamPlaintext : Option (List Nat)

/-- The state of the loop: the map `conns` (for every connection id the slices
sent on its channel so far), `inflight`, the frames written to the client
connections, the four total counters, and (as records kept for the
verification) every value `inflight` took and its value at each `DecodeStart`. -/
structure RoundLoop where
  conns : List (Int × List (List Nat))
  inflight : Int
  broadcast : List (Nat × List Nat)
  totupcells : Int
  totupbytes : Int
  totdowncells : Int
  totdownbytes : Int
  inflightTrace : List Int
  decodedAt : List Int
  deriving DecidableEq, Repr

/-- `window := 2`: maximum cells in-flight. -/
def window : Int := 2

/-- The state in which the loop is entered: `conns` empty, `inflight := 0`. -/
def initial : RoundLoop := ⟨[], 0, [], 0, 0, 0, 0, [], []⟩

/-- Lines 251-255: the downstream frame built from the downstream buffer. -/
def downstreamFrame (downbuffer : dataWithConnectionId) : List Nat :=
  let downstreamDataPayloadLength := downbuffer.data.length
  let downstreamData := makeBytes (6 + downstreamDataPayloadLength)
  let withId :=
    copyAt downstreamData 0 (bigEndian 4 (downbuffer.connectionId % 4294967296).toNat)
  let withLength := copyAt withId 4 (bigEndian 2 (downstreamDataPayloadLength % 65536))
  copyAt withLength 6 downbuffer.data

/-- Lines 258-264: the frame is written to the connections of clients `i`,
`i + 1`, ...; a write that returns another count than the frame's length is a panic. -/
def broadcastLoop (frame : List Nat) (written : Nat → Int) :
    Nat → Nat → List (Nat × List Nat) → Except Crash (List (Nat × List Nat))
  | 0, _, log => .ok log
  | remaining + 1, i, log =>
    if written i ≠ (frame.length : Int) then .error .ioFailed
    else broadcastLoop frame written remaining (i + 1) (log ++ [(i, frame)])

/-- Lines 278-300: one ciphertext is read from each connection `i`,
`i + 1`, ...; a short read is a panic. -/
def readLoop (expected : Int) (read : Nat → Int) : Nat → Nat → Except Crash Unit
  | 0, _ => .ok ()
  | remaining + 1, i =>
    if read i < expected then .error .ioFailed else readLoop expected read remaining (i + 1)

/-- Lines 311-348: the decoded cell is checked and handed to the consumer of
its connection. The plaintext is taken to have no spare capacity. -/
def dispatchUpstream (payloadLength : Int) (conns : List (Int × List (List Nat)))
    (upstreamPlaintext : List Nat) : Except Crash (List (Int × List (List Nat))) :=
  if (upstreamPlaintext.length : Int) ≠ payloadLength then .error .wrongSize
  else
    match sliceBytes upstreamPlaintext [] 0 4, sliceBytes upstreamPlaintext [] 4 6 with
    | .error c, _ => .error c
    | .ok _, .error c => .error c
    | .ok idBytes, .ok lengthBytes =>
      let upstreamPlainTextConnId : Int := beUint idBytes
      let upstreamPlainTextDataLength : Int := beUint lengthBytes
      if upstreamPlainTextConnId = 0 then .ok conns
      else
        let conn := mapLookup conns upstreamPlainTextConnId
        let conns1 :=
          match conn with
          | none => mapInsert conns upstreamPlainTextConnId []
          | some _ => conns
        if 6 + upstreamPlainTextDataLength > payloadLength then .ok conns1
        else
          match sliceBytes upstreamPlaintext [] 6 (6 + upstreamPlainTextDataLength.toNat) with
          | .error c => .error c
          | .ok chunk =>
            .ok (mapInsert conns1 upstreamPlainTextConnId ((conn.getD []) ++ [chunk]))

/-- One iteration of the loop. The result says whether the loop goes on
(`continue` or the end of the body) or is left (`break`). -/
def iteration (cfg : Config) (inp : RoundInput) (st : RoundLoop) :
    Except Crash (RoundLoop × Bool) :=
  if !inp.report then .ok (st, false)
  else
    let downbuffer := inp.downbuffer.getD ⟨0, []⟩
    let downstreamDataPayloadLength : Int := downbuffer.data.length
    match broadcastLoop (downstreamFrame downbuffer) inp.written cfg.nClients.toNat 0
        st.broadcast with
    | .error c => .error c
    | .ok log =>
      let inflight1 := wrapInt64 (st.inflight + 1)
      let st1 : RoundLoop := { st with
        broadcast := log
        totdowncells := wrapInt64 (st.totdowncells + 1)
        totdownbytes := wrapInt64 (st.totdownbytes + wrapInt64 downstreamDataPayloadLength)
        inflight := inflight1
        inflightTrace := st.inflightTrace ++ [inflight1] }
      if inflight1 < window then .ok (st1, true)
      else
        match readLoop cfg.trusteePayloadLength inp.trusteeRead cfg.nTrustees.toNat 0 with
        | .error c => .error c
        | .ok _ =>
          match readLoop cfg.clientPayloadLength inp.clientRead cfg.nClients.toNat 0 with
          | .error c => .error c
          | .ok _ =>
            let inflight2 := wrapInt64 (inflight1 - 1)
            let st2 : RoundLoop := { st1 with
              decodedAt := st1.decodedAt ++ [inflight1]
              inflight := inflight2
              inflightTrace := st1.inflightTrace ++ [inflight2]
              totupcells := wrapInt64 (st1.totupcells + 1)
              totupbytes := wrapInt64 (st1.totupbytes + wrapInt64 cfg.payloadLength) }
            match inp.upstreamPlaintext with
            | none => .ok (st2, true)
            | some upstreamPlaintext =>
              match dispatchUpstream cfg.payloadLength st2.conns upstreamPlaintext with
              | .error c => .error c
              | .ok conns => .ok ({ st2 with conns := conns }, true)

/-- The loop over the inputs of its successive iterations, until it is left or
the inputs are used up. -/
def roundLoop (cfg : Config) : List RoundInput → RoundLoop → Except Crash RoundLoop
  | [], st => .ok st
  | inp :: rest, st =>
    match iteration cfg inp st with
    | .error c => .error c
    | .ok (st1, goesOn) => if goesOn then roundLoop cfg rest st1 else .ok st1

/-- An input for the demonstrations: every write and read is complete. -/
def demoInput (cfg : Config) (downbuffer : Option dataWithConnectionId)
    (upstreamPlaintext : Option (List Nat)) : RoundInput where
  report := true
  downbuffer := downbuffer
  written := fun _ => 6 + ((downbuffer.getD ⟨0, []⟩).data.length : Int)
  trusteeRead := fun _ => cfg.trusteePayloadLength
  clientRead := fun _ => cfg.clientPayloadLength
  upstreamPlaintext := upstreamPlaintext

/-- Two clients, one trustee, cells of 16 bytes. -/
def demoConfig : Config := ⟨16, 2, 1, 16, 16⟩

end Relay

/-! ## prifi-lib/scheduler/slotscheduler.go -/

namespace Scheduler

/-- BitMaskScheduler_Client holds the info necessary for a client to compute
his "contribution", or part of the bitmask. -/
structure BitMaskSlotScheduler_Client where
  NClients : Int
  beginningOfRoundSlotID : Int
  ClientWantsToSend : Bool
  MySlotInNextRound : Int
  deriving DecidableEq, Repr

/-- BitMaskScheduler_Relay holds the current slot ID (a `uint32`). -/
structure BitMaskSlotScheduler_Relay where
  latestDownstreamSlotSent : Nat
  deriving DecidableEq, Repr

/-- Client_ReceivedScheduleRequest instantiates the fields of BitMaskScheduler_Client. -/
def Client_ReceivedScheduleRequest (_bmc : BitMaskSlotScheduler_Client)
    (beginningOfRoundSlotID : Int) (nClients : Int) : BitMaskSlotScheduler_Client :=
  ⟨nClients, beginningOfRoundSlotID, false, -1⟩

/-- Client_ReserveRound indicates to reserve a slot in the next round; the
difference of the two slot ids is an `int32`. -/
def Client_ReserveSlot (bmc : BitMaskSlotScheduler_Client) (slotID : Int) :
    Except Crash BitMaskSlotScheduler_Client :=
  if slotID < bmc.beginningOfRoundSlotID then .error .illegalSlot
  else
    let slotIDInNextRound := wrapInt32 (slotID - bmc.beginningOfRoundSlotID)
    .ok { bmc with MySlotInNextRound := slotIDInNextRound, ClientWantsToSend := true }

/-- Client_GetOpenScheduleContribution computes their contribution as a bit
array. `math.Ceil(float64(n) / 8)` and `math.Floor(float64(n) / 8)` are taken
at their exact values, which is what the `float64` arithmetic gives for
numbers up to 2^53 in absolute value. -/
def Client_GetOpenScheduleContribution (bmc : BitMaskSlotScheduler_Client) :
    Except Crash (List Nat) :=
  let nBytes : Int := -((-bmc.NClients) / 8)
  if nBytes < 0 then .error .negativeLength
  else
    let payload := makeBytes nBytes.toNat
    if !bmc.ClientWantsToSend then .ok payload
    else
      let whichByte : Int := bmc.MySlotInNextRound / 8
      let whichBit : Nat := (Int.tmod bmc.MySlotInNextRound 8 % 18446744073709551616).toNat
      if whichByte < 0 ∨ whichByte ≥ nBytes then .error .indexOutOfRange
      else .ok (payload.set whichByte.toNat (if whichBit < 8 then 2 ^ whichBit else 0))

/-- NextDownStreamRoundToSent returns the next downstream round to send. -/
def NextDownStreamRoundToSent (bmr : BitMaskSlotScheduler_Relay) : Nat :=
  (bmr.latestDownstreamSlotSent + 1) % 4294967296

/-- DownStreamRoundSent helps keeping track of the next round to send. -/
def DownStreamRoundSent (bmr : BitMaskSlotScheduler_Relay) (roundID : Nat) :
    Except Crash BitMaskSlotScheduler_Relay :=
  if bmr.latestDownstreamSlotSent ≠ roundID then .error .fatal
  else .ok { bmr with latestDownstreamSlotSent := (bmr.latestDownstreamSlotSent + 1) % 4294967296 }

end Scheduler

/-- A client entity with equivocation protection, payload size 48 and one
shared key, as `NewDCNetEntity` creates it in `demoEnv`. -/
def demoOwner : DCNetEntity Nat :=
  { EntityID := 0
    Entity := .DCNET_CLIENT
    EquivocationProtectionEnabled := true
    DCNetPayloadSize := 48
    sharedKeys := [5]
    sharedPRNGs := [⟨[5], 0⟩]
    currentRound := 0
    DCNetRoundDecoder := none
    equivocationProtection := some []
    equivocationContribLength := 32 }

/-- The bit of a pad at position `bitPosition`, bits numbered from the most
significant bit of byte 0 (the numbering the claim on `GetBitsOfRound` uses). -/
def bitAt (pad : List Nat) (bitPosition : Nat) : Nat :=
  (pad.getD (bitPosition / 8) 0 / 2 ^ (7 - bitPosition % 8)) % 2

/-- The entity `demoOwner` after its round 0. -/
def demoOwnerAfterRound : DCNetEntity Nat :=
  { demoOwner with sharedPRNGs := [⟨[5], 48⟩], currentRound := 1 }

/-! ## prifi-lib/log/statistics.go -/

namespace Log

/-- The number of latencies kept. -/
def MAX_LATENCY_STORED : Nat := 100

/-- Of `Statistics`, the list of latencies; the time stamps and the byte and
cell counters of the type are not touched by `AddLatency`. -/
structure Statistics where
  latencies : List Int
  deriving DecidableEq, Repr

/-- AddLatency appends the latency and removes the first items. -/
def AddLatency (stats : Statistics) (latency : Int) : Statistics :=
  let latencies := stats.latencies ++ [latency]
  if latencies.length > MAX_LATENCY_STORED then
    let start := latencies.length - MAX_LATENCY_STORED
    { stats with latencies := latencies.drop start }
  else { stats with latencies := latencies }

end Log

/-! ## net/helpers.go: reading a key list -/

namespace Net

/-- The parsing loop of `UnMarshalPublicKeyArrayFromByteArray` (lines 279-301)
from `currentByte` on. `spare` is the part of the backing array behind the
buffer; `fuel` bounds the number of iterations. -/
def unmarshalKeysLoop {P : Type} (UnmarshalBinary : List Nat → Option P)
    (buffer spare : List Nat) : Nat → Nat → List P → Except Crash (List P)
  | 0, _, _ => .error .outOfFuel
  | fuel + 1, currentByte, publicKeys =>
    if currentByte + 4 > buffer.length then .ok publicKeys
    else
      match sliceBytes buffer spare currentByte (currentByte + 4) with
      | .error c => .error c
      | .ok lengthBytes =>
        let keyLength := beUint lengthBytes
        if keyLength = 0 then .ok publicKeys
        else
          match sliceBytes buffer spare (currentByte + 4) (currentByte + 4 + keyLength) with
          | .error c => .error c
          | .ok keyBytes =>
            match UnmarshalBinary keyBytes with
            | none => .error .marshalFailed
            | some publicKey =>
              unmarshalKeysLoop UnmarshalBinary buffer spare fuel (currentByte + 4 + keyLength)
                (publicKeys ++ [publicKey])

/-- UnMarshalPublicKeyArrayFromByteArray: the safety check on the message
type, then the keys. Every iteration moves at least five bytes on, so the
length of the buffer is more than enough fuel. -/
def UnMarshalPublicKeyArrayFromByteArray {P : Type} (UnmarshalBinary : List Nat → Option P)
    (buffer spare : List Nat) : Except Crash (List P) :=
  match sliceBytes buffer spare 0 4 with
  | .error c => .error c
  | .ok typeBytes =>
    let messageType := beUint typeBytes
    if messageType ≠ 2 then .error .badMessageType
    else unmarshalKeysLoop UnmarshalBinary buffer spare (buffer.length + 1) 4 []

/-- UnMarshalPublicKeyArrayFromConnection: `received` is what `conn.Read`
puts at the start of the fresh buffer of 1024 bytes (`none`: a read error). -/
def UnMarshalPublicKeyArrayFromConnection {P : Type} (UnmarshalBinary : List Nat → Option P)
    (received : Option (List Nat)) : Except Crash (List P) :=
  match received with
  | none => .error .ioFailed
  | some bytes =>
    UnMarshalPublicKeyArrayFromByteArray UnmarshalBinary (copyInto (makeBytes 1024) bytes) []

end Net

namespace Relay

/-- The loop of `startRelay` that builds `messageForTrustees` (lines 186-198)
and, with the trustees' keys, `messageForClient` (lines 159-171): for every
key its length on four bytes and its marshalled form. -/
def keysMessageLoop {P : Type} (MarshalBinary : P → Option (List Nat)) :
    List P → List Nat → Except Crash (List Nat)
  | [], message => .ok message
  | key :: rest, message =>
    match MarshalBinary key with
    | none => .error .marshalFailed
    | some publicKeysBytes =>
      let publicKeyLength := copyAt (makeBytes 4) 0 (bigEndian 4 (publicKeysBytes.length % 4294967296))
      keysMessageLoop MarshalBinary rest (message ++ publicKeyLength ++ publicKeysBytes)

/-- The message `messageForTrustees` for the clients' public keys. -/
def messageForTrustees {P : Type} (MarshalBinary : P → Option (List Nat))
    (clientPublicKeys : List P) : Except Crash (List Nat) :=
  keysMessageLoop MarshalBinary clientPublicKeys []

end Relay

/-! ## prifi-lib/scheduler/slotscheduler.go: the relay side -/

namespace Scheduler

/-- The loop `for j := range contributions { for i := range contributions[j] { out[i] ^= contributions[j][i] } }`. -/
def combineLoop : List (List Nat) → List Nat → Except Crash (List Nat)
  | [], out => .ok out
  | contribution :: rest, out =>
    match xorInto out contribution with
    | .error c => .error c
    | .ok out1 => combineLoop rest out1

/-- Relay_CombineContributions combines (XOR) the received contributions from
each clients; `contributions[0]` of an empty list is a runtime error. -/
def Relay_CombineContributions (contributions : List (List Nat)) : Except Crash (List Nat) :=
  match contributions with
  | [] => .error .indexOutOfRange
  | first :: _ => combineLoop contributions (makeBytes first.length)

/-- The inner loop of `Relay_ComputeFinalSchedule` over the bit positions of
the byte `b` at `byteIndex`, from `bitPos` on (`remaining` positions are left):
the map, and whether the function has returned. -/
def finalScheduleByte (baseRoundID maxSlots : Int) (byteIndex b : Nat) :
    Nat → Nat → List (Int × Bool) → List (Int × Bool) × Bool
  | 0, _, res => (res, false)
  | remaining + 1, bitPos, res =>
    let roundID := wrapInt32 (baseRoundID + wrapInt32 ((byteIndex * 8 + bitPos : Nat) : Int))
    let val := b &&& (2 ^ bitPos % 256)
    let res1 := mapInsert res roundID (decide (val > 0))
    if bitPos = ((maxSlots % 18446744073709551616).toNat + 18446744073709551616 - 1) %
        18446744073709551616 then (res1, true)
    else finalScheduleByte baseRoundID maxSlots byteIndex b remaining (bitPos + 1) res1

/-- The outer loop of `Relay_ComputeFinalSchedule` over the bytes, from `byteIndex` on. -/
def finalScheduleLoop (baseRoundID maxSlots : Int) :
    List Nat → Nat → List (Int × Bool) → List (Int × Bool)
  | [], _, res => res
  | b :: rest, byteIndex, res =>
    let r := finalScheduleByte baseRoundID maxSlots byteIndex b 8 0 res
    if r.2 then r.1 else finalScheduleLoop baseRoundID maxSlots rest (byteIndex + 1) r.1

/-- Relay_ComputeFinalSchedule computes the map[int32]bool of open slots in
the next round given the stored contributions. -/
def Relay_ComputeFinalSchedule (allContributions : List Nat) (baseRoundID : Int) (maxSlots : Int) :
    List (Int × Bool) :=
  finalScheduleLoop baseRoundID maxSlots allContributions 0 []

/-- The contribution of one client for the round of `N` clients that starts at
slot `b`: the client receives the schedule request, reserves the slot it wants,
if any, and computes its contribution. -/
def clientContribution (b N : Int) (reservation : Option Int) : Except Crash (List Nat) :=
  let bmc := Client_ReceivedScheduleRequest ⟨0, 0, false, 0⟩ b N
  match reservation with
  | none => Client_GetOpenScheduleContribution bmc
  | some slotID =>
    match Client_ReserveSlot bmc slotID with
    | .error c => .error c
    | .ok bmc1 => Client_GetOpenScheduleContribution bmc1

/-- The contributions of the clients, in order. -/
def clientContributions (b N : Int) : List (Option Int) → Except Crash (List (List Nat))
  | [] => .ok []
  | reservation :: rest =>
    match clientContribution b N reservation with
    | .error c => .error c
    | .ok contribution =>
      match clientContributions b N rest with
      | .error c => .error c
      | .ok contributions => .ok (contribution :: contributions)

/-- One scheduling round: the clients' contributions are combined by the
relay, which computes the final schedule from them. -/
def scheduleRound (b N : Int) (reservations : List (Option Int)) :
    Except Crash (List (Int × Bool)) :=
  match clientContributions b N reservations with
  | .error c => .error c
  | .ok contributions =>
    match Relay_CombineContributions contributions with
    | .error c => .error c
    | .ok combined => .ok (Relay_ComputeFinalSchedule combined b N)

end Scheduler

/-- A contribution of `n` bytes in which no bit is set, or only bit `j % 8`
of byte `j / 8` for the offset `j` of the reserved slot. -/
def Scheduler.offsetContribution (n : Nat) (offset : Option Nat) : List Nat :=
  match offset with
  | none => makeBytes n
  | some j => (makeBytes n).set (j / 8) (2 ^ (j % 8))

namespace Client

/-- Client `ID` of two clients with payload length 30 in round 5 (its slot),
with `DoLatencyTests` as given, one latency test created at time 100 pending
and the next one not due. -/
def demoProbeClient (ID : Int) (DoLatencyTests : Bool) :
    ClientState (ZMod 11) (ZMod 11) Nat Nat :=
  { demoClientState 1 5 with
    ID := ID
    PayloadLength := 30
    LatencyTest := ⟨DoLatencyTests, 2000, 0, [100]⟩ }

/-- The state of `demoProbeClient` when the probe sent in round 5 comes back
in round 6: no test is pending any more. -/
def demoProbeClientAfter (ID : Int) (DoLatencyTests : Bool) :
    ClientState (ZMod 11) (ZMod 11) Nat Nat :=
  { demoProbeClient ID DoLatencyTests with
    RoundNo := 6
    LatencyTest := ⟨DoLatencyTests, 2000, 0, []⟩ }

/-- The probe of client `ID` sent in round 5, with the one record of the test
created at time 100, as downstream data of round 6. -/
def demoEcho (ID : Nat) : REL_CLI_DOWNSTREAM_DATA :=
  { RoundID := 6
    Data := [170, 170, 0, ID, 0, 0, 0, 0, 0, 0, 0, 100, 0, 0, 0, 5,
      0, 0, 0, 0, 0, 0, 0, 0, 0, 0, 0, 0, 0, 0]
    FlagResync := false
    Hash := none
    HashRoundID := 0 }

end Client

/-- The relay feeds the ciphers of a round in the order given, each to
`DecodeClient` (flag `true`) or to `DecodeTrustee` (flag `false`). -/
def decodeFeed {Pt : Type} (env : Env Pt) (roundID : Int) :
    DCNetEntity Pt → List (Bool × List Nat) → Except Crash (DCNetEntity Pt)
  | e, [] => .ok e
  | e, (fromClient, slice) :: rest =>
    match (if fromClient then DecodeClient env e roundID slice
      else DecodeTrustee env e roundID slice) with
    | .error c => .error c
    | .ok e1 => decodeFeed env roundID e1 rest

/-- The relay's side of one round with the ciphers in the order given:
`DecodeStart`, the ciphers, then `DecodeCell`. -/
def decodeInOrder {Pt : Type} (env : Env Pt) (relay : DCNetEntity Pt) (roundID : Int)
    (ciphers : List (Bool × List Nat)) (isOpenClosedSlot : Bool) :
    Except Crash (List Nat × List Nat) :=
  match decodeFeed env roundID (DecodeStart relay roundID) ciphers with
  | .error c => .error c
  | .ok e1 => DecodeCell env e1 isOpenClosedSlot

/-- A finite sequence of `EncodeForRound` calls (round, slot-owner flag,
payload) on an entity, one after the other; the entity after the last call. -/
def encodeSequence {Pt : Type} (env : Env Pt) :
    DCNetEntity Pt → List (Int × Bool × Option (List Nat)) → Except Crash (DCNetEntity Pt)
  | e, [] => .ok e
  | e, (roundID, slotOwner, payload) :: rest =>
    match EncodeForRound env e roundID slotOwner payload with
    | .error c => .error c
    | .ok (e1, _, _) => encodeSequence env e1 rest

/-- The concrete environment `demoEnv` with a key stream that changes every
2^32 bytes. -/
def wideEnv : Env Nat :=
  { demoEnv with keystream := fun seed k => (seed.sum + k / 4294967296) % 256 }

/-! ## Theorems -/

theorem xorStream_zeros (ks : Nat → Nat) (n pos : Nat) :
    xorStream ks pos (makeBytes n) = (List.range n).map (fun k => ks (pos + k)) := by
  induction n generalizing pos with
  | zero => simp [makeBytes, xorStream]
  | succ n ih =>
    have h := ih (pos + 1)
    simp only [makeBytes] at h ⊢
    rw [List.replicate_succ, xorStream, h, List.range_succ_eq_map]
    simp [Nat.add_assoc, Nat.add_comm 1]

theorem seedPRNGs_eq {Pt : Type} (env : Env Pt) (keys : List Pt) :
    seedPRNGs env keys =
      match marshalAll env keys with
      | none => .error .marshalFailed
      | some seeds => .ok (streamsAt seeds 0) := by
  induction keys with
  | nil => simp [seedPRNGs, marshalAll, streamsAt]
  | cons k ks ih =>
    simp only [seedPRNGs, marshalAll]
    cases hk : env.MarshalBinary k with
    | none => simp
    | some s =>
      rw [ih]
      cases hks : marshalAll env ks with
      | none => simp
      | some ss => simp [streamsAt, Env.XOF]

theorem consumeFirst_streamsAt {Pt : Type} (env : Env Pt) (L : Nat) (seeds : List (List Nat)) (pos : Nat) :
    consumeFirst env L seeds.length (streamsAt seeds pos) = .ok (streamsAt seeds (pos + L)) := by
  induction seeds with
  | nil => simp [consumeFirst, streamsAt]
  | cons s ss ih =>
    simp only [streamsAt, List.map_cons, List.length_cons, consumeFirst] at ih ⊢
    rw [ih]
    simp [XOF.XORKeyStream, makeBytes]

theorem discardCopyRounds_streamsAt {Pt : Type} (env : Env Pt) (L : Nat) (seeds : List (List Nat))
    (rounds pos : Nat) :
    discardCopyRounds env L seeds.length rounds (streamsAt seeds pos) =
      .ok (streamsAt seeds (pos + rounds * L)) := by
  induction rounds generalizing pos with
  | zero => simp [discardCopyRounds]
  | succ n ih =>
    simp only [discardCopyRounds, consumeFirst_streamsAt]
    rw [ih]
    congr 2
    ring

theorem streamsAt_length (seeds : List (List Nat)) (pos : Nat) :
    (streamsAt seeds pos).length = seeds.length := by
  simp [streamsAt]

theorem map_skip_streamsAt {Pt : Type} (env : Env Pt) (L : Nat) (seeds : List (List Nat)) (pos : Nat) :
    (streamsAt seeds pos).map (fun x => (x.XORKeyStream env (makeBytes L)).2) =
      streamsAt seeds (pos + L) := by
  simp [streamsAt, XOF.XORKeyStream, makeBytes]

theorem preparePads_streamsAt {Pt : Type} (env : Env Pt) (L : Nat) (seeds : List (List Nat)) (r : Nat) :
    preparePads env L (streamsAt seeds (r * L)) =
      (seeds.map (padOfRound env L r), streamsAt seeds ((r + 1) * L)) := by
  induction seeds with
  | nil => simp [preparePads, streamsAt]
  | cons s ss ih =>
    simp only [streamsAt, List.map_cons, preparePads] at ih ⊢
    rw [ih]
    have h := xorStream_zeros (env.keystream s) L (r * L)
    simp only [makeBytes] at h
    simp [XOF.XORKeyStream, h, padOfRound, makeBytes, Nat.add_mul]

theorem wrapInt32_of_isInt32 (i : Int) (h : IsInt32 i) : wrapInt32 i = i := by
  unfold IsInt32 at h
  unfold wrapInt32
  omega

theorem reseedAtRound_eq {Pt : Type} (env : Env Pt) (e : DCNetEntity Pt) (roundID : Int)
    (seeds : List (List Nat)) (hm : marshalAll env e.sharedKeys = some seeds)
    (hlen : e.sharedPRNGs.length = seeds.length) :
    reseedAtRound env e roundID =
      .ok { e with sharedPRNGs := streamsAt seeds (roundID.toNat * e.DCNetPayloadSize),
                   currentRound := roundID } := by
  unfold reseedAtRound
  rw [seedPRNGs_eq, hm]
  simp only [hlen, discardCopyRounds_streamsAt]
  simp

theorem discardRounds_eq {Pt : Type} (env : Env Pt) (roundID : Int) (seeds : List (List Nat))
    (fuel : Nat) (e : DCNetEntity Pt) (pos : Nat)
    (hs : e.sharedPRNGs = streamsAt seeds pos) (hlo : -2147483648 ≤ e.currentRound)
    (hhi : roundID < 2147483648) (hfuel : fuel = (roundID - e.currentRound).toNat)
    (hle : e.currentRound ≤ roundID) :
    discardRounds env roundID fuel e =
      { e with sharedPRNGs := streamsAt seeds (pos + fuel * e.DCNetPayloadSize),
               currentRound := roundID } := by
  induction fuel generalizing e pos with
  | zero =>
    have hc : e.currentRound = roundID := by omega
    cases e
    simp only [discardRounds]
    simp only at hs hc
    subst hs hc
    simp
  | succ n ih =>
    have hlt : e.currentRound < roundID := by omega
    have hw : wrapInt32 (e.currentRound + 1) = e.currentRound + 1 :=
      wrapInt32_of_isInt32 _ ⟨by omega, by omega⟩
    simp only [discardRounds, hlt, if_true, hw]
    rw [ih _ (pos + e.DCNetPayloadSize)]
    · simp only
      congr 2
      ring
    · simp only [hs, map_skip_streamsAt]
    · simp only; omega
    · simp only; omega
    · simp only; omega

theorem xorPad_eq (buf pad : List Nat) (h : buf.length ≤ pad.length) :
    xorPad buf pad = .ok (xorBytes buf pad) := by
  induction buf generalizing pad with
  | nil => cases pad <;> simp [xorPad, xorBytes]
  | cons b bs ih =>
    cases pad with
    | nil => simp at h
    | cons p ps =>
      simp only [List.length_cons, Nat.add_le_add_iff_right] at h
      simp [xorPad, ih ps h, xorBytes]

theorem xorBytes_length (a b : List Nat) (h : a.length = b.length) :
    (xorBytes a b).length = a.length := by
  simp [xorBytes, h]

theorem xorAll_length (init : List Nat) (xs : List (List Nat))
    (h : ∀ x ∈ xs, x.length = init.length) : (xorAll init xs).length = init.length := by
  induction xs generalizing init with
  | nil => simp [xorAll]
  | cons x xs ih =>
    have hx : x.length = init.length := h x (List.mem_cons_self _ _)
    have hl : (xorBytes init x).length = init.length := xorBytes_length _ _ hx.symm
    simp only [xorAll, List.foldl_cons] at ih ⊢
    rw [ih (xorBytes init x)]
    · exact hl
    · intro y hy
      rw [hl]
      exact h y (List.mem_cons_of_mem _ hy)

theorem xorPads_eq (buf : List Nat) (pads : List (List Nat))
    (h : ∀ p ∈ pads, p.length = buf.length) : xorPads buf pads = .ok (xorAll buf pads) := by
  induction pads generalizing buf with
  | nil => simp [xorPads, xorAll]
  | cons p ps ih =>
    have hp : p.length = buf.length := h p (List.mem_cons_self _ _)
    have hl : (xorBytes buf p).length = buf.length := xorBytes_length _ _ hp.symm
    simp only [xorPads, xorPad_eq buf p (by omega)]
    rw [ih (xorBytes buf p)]
    · simp [xorAll]
    · intro q hq
      rw [hl]
      exact h q (List.mem_cons_of_mem _ hq)

theorem padOfRound_length {Pt : Type} (env : Env Pt) (L r : Nat) (seed : List Nat) :
    (padOfRound env L r seed).length = L := by
  simp [padOfRound]

theorem preparePads_lengths {Pt : Type} (env : Env Pt) (L : Nat) (xs : List XOF) :
    ∀ p ∈ (preparePads env L xs).1, p.length = L := by
  induction xs with
  | nil => simp [preparePads]
  | cons x xs ih =>
    intro p hp
    simp only [preparePads, List.mem_cons] at hp
    rcases hp with rfl | hp
    · have h := xorStream_zeros (env.keystream x.seed) L x.consumed
      simp [XOF.XORKeyStream, h]
    · exact ih p hp

theorem copyInto_zeros (L : Nat) (p : List Nat) (h : p.length ≤ L) :
    copyInto (makeBytes L) p = zeroPad L (some p) := by
  simp [copyInto, makeBytes, zeroPad, List.take_of_length_le h]

theorem zeroPad_length (L : Nat) (payload : Option (List Nat)) (h : goLen payload ≤ L) :
    (zeroPad L payload).length = L := by
  cases payload with
  | none => simp [zeroPad]
  | some p =>
    simp only [goLen] at h
    simp only [zeroPad, List.length_append, List.length_replicate]
    omega

theorem clientEncode_plain {Pt : Type} (env : Env Pt) (e : DCNetEntity Pt) (slotOwner : Bool)
    (payload : Option (List Nat)) (seeds : List (List Nat)) (r : Nat)
    (hs : e.sharedPRNGs = streamsAt seeds (r * e.DCNetPayloadSize))
    (hne : e.EquivocationProtectionEnabled = false) (hp : goLen payload ≤ e.DCNetPayloadSize) :
    clientEncode env e slotOwner payload =
      .ok ({ e with sharedPRNGs := streamsAt seeds ((r + 1) * e.DCNetPayloadSize) },
           ⟨xorAll (zeroPad e.DCNetPayloadSize payload)
              (seeds.map (padOfRound env e.DCNetPayloadSize r)), []⟩,
           makeBytes e.DCNetPayloadSize) := by
  have hx : xorPads (zeroPad e.DCNetPayloadSize payload)
      (seeds.map (padOfRound env e.DCNetPayloadSize r)) =
      .ok (xorAll (zeroPad e.DCNetPayloadSize payload)
        (seeds.map (padOfRound env e.DCNetPayloadSize r))) := by
    apply xorPads_eq
    intro q hq
    rw [zeroPad_length _ _ hp]
    rcases List.mem_map.1 hq with ⟨s, _, rfl⟩
    exact padOfRound_length env _ _ s
  unfold clientEncode
  cases payload with
  | none =>
    simp only [hne, hs, preparePads_streamsAt, Bool.false_eq_true, if_false]
    have hz : makeBytes e.DCNetPayloadSize = zeroPad e.DCNetPayloadSize none := by
      simp [makeBytes, zeroPad]
    rw [hz, hx]
  | some p =>
    simp only [goLen] at hp
    have h1 : ¬ ((e.DCNetPayloadSize : Int) < 0) := by omega
    have h2 : ¬ ((p.length : Int) > (e.DCNetPayloadSize : Int)) := by omega
    simp only [hne, hs, preparePads_streamsAt, Bool.false_and, Bool.false_eq_true, if_false, h1, h2,
      Int.toNat_ofNat, copyInto_zeros _ _ hp]
    rw [hx]

theorem trusteeEncode_plain {Pt : Type} (env : Env Pt) (e : DCNetEntity Pt)
    (seeds : List (List Nat)) (r : Nat)
    (hs : e.sharedPRNGs = streamsAt seeds (r * e.DCNetPayloadSize))
    (hne : e.EquivocationProtectionEnabled = false) :
    trusteeEncode env e =
      .ok ({ e with sharedPRNGs := streamsAt seeds ((r + 1) * e.DCNetPayloadSize) },
           ⟨xorAll (makeBytes e.DCNetPayloadSize)
              (seeds.map (padOfRound env e.DCNetPayloadSize r)), []⟩) := by
  have hx : xorPads (makeBytes e.DCNetPayloadSize)
      (seeds.map (padOfRound env e.DCNetPayloadSize r)) =
      .ok (xorAll (makeBytes e.DCNetPayloadSize)
        (seeds.map (padOfRound env e.DCNetPayloadSize r))) := by
    apply xorPads_eq
    intro q hq
    rcases List.mem_map.1 hq with ⟨s, _, rfl⟩
    simp [padOfRound_length, makeBytes]
  unfold trusteeEncode
  simp only [hne, hs, preparePads_streamsAt, Bool.false_eq_true, if_false]
  rw [hx]

/-- The state in which the encoder of `EncodeForRound` runs: whatever the
entity's round was, an entity in lockstep reaches round `roundID` with its
streams at offset `roundID * L`. -/
theorem fastForward_lockstep {Pt : Type} (env : Env Pt) (e : DCNetEntity Pt) (roundID : Int)
    (seeds : List (List Nat)) (hc : 0 ≤ e.currentRound)
    (hm : marshalAll env e.sharedKeys = some seeds)
    (hs : e.sharedPRNGs = streamsAt seeds (e.currentRound.toNat * e.DCNetPayloadSize))
    (hr0 : 0 ≤ roundID) (hr1 : roundID < 2147483648) :
    ∃ e1, (if roundID < e.currentRound then reseedAtRound env e roundID else .ok e) = .ok e1 ∧
      discardRounds env roundID (roundID - e1.currentRound).toNat e1 =
        { e with sharedPRNGs := streamsAt seeds (roundID.toNat * e.DCNetPayloadSize),
                 currentRound := roundID } := by
  by_cases hlt : roundID < e.currentRound
  · refine ⟨{ e with sharedPRNGs := streamsAt seeds (roundID.toNat * e.DCNetPayloadSize),
                     currentRound := roundID }, ?_, ?_⟩
    · rw [if_pos hlt]
      exact reseedAtRound_eq env e roundID seeds hm (by rw [hs, streamsAt_length])
    · simp [discardRounds]
  · refine ⟨e, by rw [if_neg hlt], ?_⟩
    rw [discardRounds_eq env roundID seeds _ e _ hs (by omega) hr1 rfl (by omega)]
    congr 2
    have : (roundID - e.currentRound).toNat + e.currentRound.toNat = roundID.toNat := by omega
    rw [← this]
    ring

/-- What `EncodeForRound` does on an entity in lockstep, equivocation
protection disabled: the cipher of round `roundID` is the (padded) payload
XORed with the round's pad of every peer stream. -/
theorem EncodeForRound_lockstep {Pt : Type} (env : Env Pt) (e : DCNetEntity Pt) (roundID : Int)
    (slotOwner : Bool) (payload : Option (List Nat)) (seeds : List (List Nat))
    (hc : 0 ≤ e.currentRound) (hm : marshalAll env e.sharedKeys = some seeds)
    (hs : e.sharedPRNGs = streamsAt seeds (e.currentRound.toNat * e.DCNetPayloadSize))
    (hne : e.EquivocationProtectionEnabled = false)
    (hr0 : 0 ≤ roundID) (hr1 : roundID < 2147483648)
    (hp : goLen payload ≤ e.DCNetPayloadSize) :
    EncodeForRound env e roundID slotOwner payload =
      .ok ({ e with sharedPRNGs := streamsAt seeds ((roundID.toNat + 1) * e.DCNetPayloadSize),
                    currentRound := wrapInt32 (roundID + 1) },
           env.ToBytes ⟨xorAll
              (if e.Entity = .DCNET_CLIENT then zeroPad e.DCNetPayloadSize payload
               else makeBytes e.DCNetPayloadSize)
              (seeds.map (padOfRound env e.DCNetPayloadSize roundID.toNat)), []⟩,
           if e.Entity = .DCNET_CLIENT then makeBytes e.DCNetPayloadSize else []) := by
  obtain ⟨e1, h1, h2⟩ := fastForward_lockstep env e roundID seeds hc hm hs hr0 hr1
  unfold EncodeForRound
  rw [if_neg (by omega), h1]
  simp only [h2]
  by_cases hk : e.Entity = .DCNET_CLIENT
  · have h3 := clientEncode_plain env
      { e with sharedPRNGs := streamsAt seeds (roundID.toNat * e.DCNetPayloadSize),
               currentRound := roundID } slotOwner payload seeds roundID.toNat rfl hne hp
    simp only at h3
    simp only [hk, if_true] at h3 ⊢
    rw [h3]
  · have h3 := trusteeEncode_plain env
      { e with sharedPRNGs := streamsAt seeds (roundID.toNat * e.DCNetPayloadSize),
               currentRound := roundID } seeds roundID.toNat rfl hne
    simp only at h3
    simp only [hk, if_false]
    rw [h3]

theorem foldl_xor_eq (a : Nat) (l : List Nat) :
    l.foldl (fun x y => x ^^^ y) a = a ^^^ xsum l := by
  induction l generalizing a with
  | nil => simp [xsum]
  | cons b bs ih =>
    simp only [xsum, List.foldl_cons, Nat.zero_xor]
    rw [ih (a ^^^ b), ih b, Nat.xor_assoc]

theorem xsum_cons (a : Nat) (l : List Nat) : xsum (a :: l) = a ^^^ xsum l := by
  simp only [xsum, List.foldl_cons, Nat.zero_xor]
  exact foldl_xor_eq a l

theorem xsum_nil : xsum [] = 0 := rfl

theorem xsum_append (l1 l2 : List Nat) : xsum (l1 ++ l2) = xsum l1 ^^^ xsum l2 := by
  induction l1 with
  | nil => simp [xsum_nil]
  | cons a l ih => simp [xsum_cons, ih, Nat.xor_assoc]

theorem xsum_map_xor {α : Type} (f g : α → Nat) (l : List α) :
    xsum (l.map (fun a => f a ^^^ g a)) = xsum (l.map f) ^^^ xsum (l.map g) := by
  induction l with
  | nil => simp [xsum_nil]
  | cons a l ih =>
    simp only [List.map_cons, xsum_cons, ih]
    rw [Nat.xor_assoc, Nat.xor_assoc]
    congr 1
    rw [← Nat.xor_assoc, ← Nat.xor_assoc, Nat.xor_comm (g a)]

theorem xsum_map_zero {α : Type} (l : List α) : xsum (l.map (fun _ => 0)) = 0 := by
  induction l with
  | nil => exact xsum_nil
  | cons a l ih =>
    rw [List.map_cons, xsum_cons, ih]
    rfl

theorem xsum_swap {α β : Type} (g : α → β → Nat) (cs : List α) (ts : List β) :
    xsum (cs.map (fun c => xsum (ts.map (fun t => g c t)))) =
      xsum (ts.map (fun t => xsum (cs.map (fun c => g c t)))) := by
  induction cs with
  | nil =>
    simp only [List.map_nil, xsum_nil]
    exact (xsum_map_zero ts).symm
  | cons c cs ih =>
    simp only [List.map_cons, xsum_cons, ih]
    rw [xsum_map_xor]

theorem xorBytes_getD (a b : List Nat) (h : a.length = b.length) (k : Nat) :
    (xorBytes a b).getD k 0 = a.getD k 0 ^^^ b.getD k 0 := by
  induction a generalizing b k with
  | nil =>
    cases b with
    | nil => simp [xorBytes]
    | cons _ _ => simp at h
  | cons x xs ih =>
    cases b with
    | nil => simp at h
    | cons y ys =>
      simp only [List.length_cons, Nat.add_right_cancel_iff] at h
      cases k with
      | zero => simp [xorBytes]
      | succ k =>
        have := ih ys h k
        simpa [xorBytes] using this

theorem xorAll_getD (init : List Nat) (xs : List (List Nat))
    (h : ∀ x ∈ xs, x.length = init.length) (k : Nat) :
    (xorAll init xs).getD k 0 = init.getD k 0 ^^^ xsum (xs.map (fun x => x.getD k 0)) := by
  induction xs generalizing init with
  | nil => simp [xorAll, xsum_nil]
  | cons x xs ih =>
    have hx : x.length = init.length := h x (List.mem_cons_self _ _)
    have hl : (xorBytes init x).length = init.length := xorBytes_length _ _ hx.symm
    have h2 := ih (xorBytes init x) (by
      intro y hy
      rw [hl]
      exact h y (List.mem_cons_of_mem _ hy))
    simp only [xorAll, List.foldl_cons, List.map_cons, xsum_cons] at h2 ⊢
    rw [h2, xorBytes_getD _ _ hx.symm, Nat.xor_assoc]

theorem list_eq_of_getD (a b : List Nat) (hl : a.length = b.length)
    (h : ∀ k, a.getD k 0 = b.getD k 0) : a = b := by
  apply List.ext_getElem hl
  intro k h1 h2
  have := h k
  rw [List.getD_eq_getElem _ _ h1, List.getD_eq_getElem _ _ h2] at this
  exact this

theorem marshalAll_some_eq {Pt : Type} (env : Env Pt) (keys : List Pt) (seeds : List (List Nat))
    (h : marshalAll env keys = some seeds) : seeds = keys.map (seedOf env) := by
  induction keys generalizing seeds with
  | nil =>
    simp only [marshalAll, Option.some.injEq] at h
    simp [← h]
  | cons k ks ih =>
    simp only [marshalAll] at h
    cases hk : env.MarshalBinary k with
    | none => simp [hk] at h
    | some s =>
      cases hks : marshalAll env ks with
      | none => simp [hk, hks] at h
      | some ss =>
        simp only [hk, hks, Option.some.injEq] at h
        rw [← h, ih ss hks]
        simp [seedOf, hk]

theorem xorInto_eq (buf src : List Nat) (h : src.length = buf.length) :
    xorInto buf src = .ok (xorBytes buf src) := by
  induction buf generalizing src with
  | nil =>
    cases src with
    | nil => simp [xorInto, xorBytes]
    | cons _ _ => simp at h
  | cons b bs ih =>
    cases src with
    | nil => simp at h
    | cons x xs =>
      simp only [List.length_cons, Nat.add_right_cancel_iff] at h
      simp [xorInto, ih xs h, xorBytes]

theorem decodeClients_eq {Pt : Type} (env : Env Pt) (roundID : Int) (e : DCNetEntity Pt)
    (d : DCNetRoundDecoder) (xs : List (List Nat))
    (hd : e.DCNetRoundDecoder = some d) (hr : d.currentRoundBeingDecoded = roundID)
    (hne : e.EquivocationProtectionEnabled = false)
    (hlen : ∀ x ∈ xs, (env.DCNetCipherFromBytes x).Payload.length = d.xorBuffer.length) :
    decodeClients env roundID e xs =
      .ok { e with
            DCNetRoundDecoder := some ⟨d.currentRoundBeingDecoded,
              xorAll d.xorBuffer (xs.map (fun x => (env.DCNetCipherFromBytes x).Payload)),
              d.equivTrusteeContribs, d.equivClientContribs⟩ } := by
  induction xs generalizing e d with
  | nil =>
    cases e
    simp only at hd
    simp [decodeClients, xorAll, hd]
  | cons x xs ih =>
    have hx := hlen x (List.mem_cons_self _ _)
    obtain ⟨i1, i2, i3, i4, i5, i6, i7, i8, i9, i10⟩ := e
    obtain ⟨d1, d2, d3, d4⟩ := d
    simp only at hd hr hne hx
    subst hd hr hne
    simp only [decodeClients, DecodeClient, ne_eq, not_true_eq_false, if_false,
      xorInto_eq _ _ hx, Bool.false_eq_true]
    rw [ih _ _ rfl rfl rfl]
    · simp [xorAll]
    · intro y hy
      simp only
      rw [xorBytes_length _ _ hx.symm]
      exact hlen y (List.mem_cons_of_mem _ hy)

theorem decodeTrustees_eq {Pt : Type} (env : Env Pt) (roundID : Int) (e : DCNetEntity Pt)
    (d : DCNetRoundDecoder) (ys : List (List Nat))
    (hd : e.DCNetRoundDecoder = some d) (hr : d.currentRoundBeingDecoded = roundID)
    (hne : e.EquivocationProtectionEnabled = false)
    (hlen : ∀ y ∈ ys, (env.DCNetCipherFromBytes y).Payload.length = d.xorBuffer.length) :
    decodeTrustees env roundID e ys =
      .ok { e with
            DCNetRoundDecoder := some ⟨d.currentRoundBeingDecoded,
              xorAll d.xorBuffer (ys.map (fun y => (env.DCNetCipherFromBytes y).Payload)),
              d.equivTrusteeContribs, d.equivClientContribs⟩ } := by
  induction ys generalizing e d with
  | nil =>
    cases e
    simp only at hd
    simp [decodeTrustees, xorAll, hd]
  | cons y ys ih =>
    have hy := hlen y (List.mem_cons_self _ _)
    obtain ⟨i1, i2, i3, i4, i5, i6, i7, i8, i9, i10⟩ := e
    obtain ⟨d1, d2, d3, d4⟩ := d
    simp only at hd hr hne hy
    subst hd hr hne
    simp only [decodeTrustees, DecodeTrustee, ne_eq, not_true_eq_false, if_false,
      xorInto_eq _ _ hy, Bool.false_eq_true]
    rw [ih _ _ rfl rfl rfl]
    · simp [xorAll]
    · intro z hz
      simp only
      rw [xorBytes_length _ _ hy.symm]
      exact hlen z (List.mem_cons_of_mem _ hz)

theorem relayDecodeRound_eq {Pt : Type} (env : Env Pt) (relay : DCNetEntity Pt) (roundID : Int)
    (xs ys : List (List Nat)) (isOpenClosedSlot : Bool)
    (hne : relay.EquivocationProtectionEnabled = false)
    (hx : ∀ x ∈ xs, (env.DCNetCipherFromBytes x).Payload.length = relay.DCNetPayloadSize)
    (hy : ∀ y ∈ ys, (env.DCNetCipherFromBytes y).Payload.length = relay.DCNetPayloadSize) :
    relayDecodeRound env relay roundID xs ys isOpenClosedSlot =
      .ok (xorAll (makeBytes relay.DCNetPayloadSize)
             (xs.map (fun x => (env.DCNetCipherFromBytes x).Payload) ++
              ys.map (fun y => (env.DCNetCipherFromBytes y).Payload)),
           xorAll (makeBytes relay.DCNetPayloadSize)
             (xs.map (fun x => (env.DCNetCipherFromBytes x).Payload) ++
              ys.map (fun y => (env.DCNetCipherFromBytes y).Payload))) := by
  obtain ⟨i1, i2, i3, i4, i5, i6, i7, i8, i9, i10⟩ := relay
  simp only at hne hx hy
  subst hne
  have h1 := decodeClients_eq env roundID
    (DecodeStart ⟨i1, i2, false, i4, i5, i6, i7, i8, i9, i10⟩ roundID)
    ⟨roundID, makeBytes i4, [], []⟩ xs rfl rfl rfl
    (by intro x hx'; simpa [makeBytes] using hx x hx')
  simp only [DecodeStart] at h1
  have hl : (xorAll (makeBytes i4) (xs.map (fun x => (env.DCNetCipherFromBytes x).Payload))).length
      = i4 := by
    rw [xorAll_length]
    · simp [makeBytes]
    · intro q hq
      rcases List.mem_map.1 hq with ⟨x, hx', rfl⟩
      simpa [makeBytes] using hx x hx'
  have h2 := decodeTrustees_eq env roundID
    ⟨i1, i2, false, i4, i5, i6, i7, some ⟨roundID,
      xorAll (makeBytes i4) (xs.map (fun x => (env.DCNetCipherFromBytes x).Payload)), [], []⟩, i9, i10⟩
    ⟨roundID, xorAll (makeBytes i4) (xs.map (fun x => (env.DCNetCipherFromBytes x).Payload)), [], []⟩
    ys rfl rfl rfl
    (by intro y hy'; simp only; rw [hl]; exact hy y hy')
  simp only at h2
  simp only [relayDecodeRound, DecodeStart, h1, h2, DecodeCell, Bool.false_and, Bool.false_eq_true,
    if_false]
  simp only [xorAll, List.foldl_append]

theorem clientCiphers_eq {Pt : Type} (env : Env Pt) (roundID : Int)
    (l : List (DCNetEntity Pt × Bool × Option (List Nat)))
    (x : DCNetEntity Pt × Bool × Option (List Nat) → List Nat)
    (h : ∀ a ∈ l, ∃ e1 pl, EncodeForRound env a.1 roundID a.2.1 a.2.2 = .ok (e1, x a, pl)) :
    clientCiphers env roundID l = .ok (l.map x) := by
  induction l with
  | nil => simp [clientCiphers]
  | cons a l ih =>
    obtain ⟨e1, pl, ha⟩ := h a (List.mem_cons_self _ _)
    obtain ⟨e, so, p⟩ := a
    simp only at ha
    simp only [clientCiphers, ha, ih (fun b hb => h b (List.mem_cons_of_mem _ hb)), List.map_cons]

theorem trusteeCiphers_eq {Pt : Type} (env : Env Pt) (roundID : Int)
    (l : List (DCNetEntity Pt)) (y : DCNetEntity Pt → List Nat)
    (h : ∀ a ∈ l, ∃ e1 pl, EncodeForRound env a roundID false none = .ok (e1, y a, pl)) :
    trusteeCiphers env roundID l = .ok (l.map y) := by
  induction l with
  | nil => simp [trusteeCiphers]
  | cons a l ih =>
    obtain ⟨e1, pl, ha⟩ := h a (List.mem_cons_self _ _)
    simp only [trusteeCiphers, TrusteeEncodeForRound, ha,
      ih (fun b hb => h b (List.mem_cons_of_mem _ hb)), List.map_cons]

theorem makeBytes_getD (n k : Nat) : (makeBytes n).getD k 0 = 0 := by
  induction n generalizing k with
  | zero => simp [makeBytes]
  | succ n ih =>
    cases k with
    | zero => simp [makeBytes, List.replicate_succ]
    | succ k =>
      have := ih k
      simp only [makeBytes] at this
      simp [makeBytes, List.replicate_succ, this]

theorem makeBytes_length (n : Nat) : (makeBytes n).length = n := by
  simp [makeBytes]

/-- The algebra behind the DC-net: every pad `G c t` occurs once in a client
cipher and once in a trustee cipher, so the pads cancel and the XOR of all
ciphers is the XOR of the clients' padded payloads. -/
theorem pads_cancel (L : Nat) (P : Nat → List Nat) (G : Nat → Nat → List Nat) (cs ts : List Nat)
    (hP : ∀ c ∈ cs, (P c).length = L) (hG : ∀ c t, (G c t).length = L) :
    xorAll (makeBytes L)
        (cs.map (fun c => xorAll (P c) (ts.map (fun t => G c t))) ++
         ts.map (fun t => xorAll (makeBytes L) (cs.map (fun c => G c t)))) =
      xorAll (makeBytes L) (cs.map P) := by
  have hXlen : ∀ c ∈ cs, (xorAll (P c) (ts.map (fun t => G c t))).length = L := by
    intro c hc
    rw [xorAll_length, hP c hc]
    intro q hq
    rcases List.mem_map.1 hq with ⟨t, _, rfl⟩
    rw [hG, hP c hc]
  have hYlen : ∀ t, (xorAll (makeBytes L) (cs.map (fun c => G c t))).length = L := by
    intro t
    rw [xorAll_length, makeBytes_length]
    intro q hq
    rcases List.mem_map.1 hq with ⟨c, _, rfl⟩
    rw [hG, makeBytes_length]
  have hall : ∀ q ∈ cs.map (fun c => xorAll (P c) (ts.map (fun t => G c t))) ++
      ts.map (fun t => xorAll (makeBytes L) (cs.map (fun c => G c t))),
      q.length = (makeBytes L).length := by
    intro q hq
    rw [makeBytes_length]
    rcases List.mem_append.1 hq with h | h
    · rcases List.mem_map.1 h with ⟨c, hc, rfl⟩
      exact hXlen c hc
    · rcases List.mem_map.1 h with ⟨t, _, rfl⟩
      exact hYlen t
  have hPall : ∀ q ∈ cs.map P, q.length = (makeBytes L).length := by
    intro q hq
    rw [makeBytes_length]
    rcases List.mem_map.1 hq with ⟨c, hc, rfl⟩
    exact hP c hc
  apply list_eq_of_getD
  · rw [xorAll_length _ _ hall, xorAll_length _ _ hPall]
  · intro k
    rw [xorAll_getD _ _ hall, xorAll_getD _ _ hPall]
    congr 1
    rw [List.map_append, xsum_append, List.map_map, List.map_map]
    have h1 : cs.map ((fun x => x.getD k 0) ∘ fun c => xorAll (P c) (ts.map (fun t => G c t))) =
        cs.map (fun c => (P c).getD k 0 ^^^ xsum (ts.map (fun t => (G c t).getD k 0))) := by
      apply List.map_congr_left
      intro c hc
      simp only [Function.comp]
      rw [xorAll_getD, List.map_map]
      · rfl
      · intro q hq
        rcases List.mem_map.1 hq with ⟨t, _, rfl⟩
        rw [hG, hP c hc]
    have h2 : ts.map ((fun x => x.getD k 0) ∘ fun t => xorAll (makeBytes L) (cs.map (fun c => G c t))) =
        ts.map (fun t => xsum (cs.map (fun c => (G c t).getD k 0))) := by
      apply List.map_congr_left
      intro t _
      simp only [Function.comp]
      rw [xorAll_getD, List.map_map, makeBytes_getD, Nat.zero_xor]
      · rfl
      · intro q hq
        rcases List.mem_map.1 hq with ⟨c, _, rfl⟩
        rw [hG, makeBytes_length]
    rw [h1, h2, xsum_map_xor, List.map_map]
    rw [xsum_swap (fun c t => (G c t).getD k 0) cs ts, Nat.xor_assoc, Nat.xor_self, Nat.xor_zero]
    rfl

theorem xsum_range_single (f : Nat → Nat) (o n : Nat) (h : ∀ c, c < n → c ≠ o → f c = 0) :
    xsum ((List.range n).map f) = if o < n then f o else 0 := by
  induction n with
  | zero => simp [xsum_nil]
  | succ n ih =>
    rw [List.range_succ, List.map_append, xsum_append, ih (fun c hc hne => h c (by omega) hne)]
    simp only [List.map_cons, List.map_nil, xsum_cons, xsum_nil, Nat.xor_zero]
    by_cases hon : o < n
    · have : f n = 0 := h n (by omega) (by omega)
      simp [hon, this, Nat.lt_succ_of_lt hon]
    · by_cases hoe : o = n
      · subst hoe
        simp
      · have : f n = 0 := h n (by omega) (fun h => hoe h.symm)
        have h3 : ¬ o < n + 1 := by omega
        simp [hon, this, h3]

/-- When every payload but the owner's is nil, the XOR of the padded payloads
is the owner's padded payload. -/
theorem xorAll_single_owner (L N o : Nat) (p : Nat → Option (List Nat)) (ho : o < N)
    (hlen : ∀ c, c < N → goLen (p c) ≤ L)
    (h : ∀ c, c < N → c ≠ o → p c = none) :
    xorAll (makeBytes L) ((List.range N).map (fun c => zeroPad L (p c))) = zeroPad L (p o) := by
  have hall : ∀ q ∈ (List.range N).map (fun c => zeroPad L (p c)),
      q.length = (makeBytes L).length := by
    intro q hq
    rcases List.mem_map.1 hq with ⟨c, hc, rfl⟩
    rw [makeBytes_length, zeroPad_length _ _ (hlen c (List.mem_range.1 hc))]
  apply list_eq_of_getD
  · rw [xorAll_length _ _ hall, makeBytes_length, zeroPad_length _ _ (hlen o ho)]
  · intro k
    rw [xorAll_getD _ _ hall, makeBytes_getD, Nat.zero_xor, List.map_map]
    have := xsum_range_single (fun c => (zeroPad L (p c)).getD k 0) o N (by
      intro c hc hne
      simp only [h c hc hne, zeroPad]
      exact makeBytes_getD L k)
    simp only [ho, if_true] at this
    exact this

/-- When every payload is nil, the XOR of the padded payloads is all zero. -/
theorem xorAll_no_payload (L N : Nat) (p : Nat → Option (List Nat))
    (h : ∀ c, c < N → p c = none) :
    xorAll (makeBytes L) ((List.range N).map (fun c => zeroPad L (p c))) = makeBytes L := by
  have hall : ∀ q ∈ (List.range N).map (fun c => zeroPad L (p c)),
      q.length = (makeBytes L).length := by
    intro q hq
    rcases List.mem_map.1 hq with ⟨c, hc, rfl⟩
    rw [makeBytes_length, h c (List.mem_range.1 hc)]
    simp [zeroPad]
  apply list_eq_of_getD
  · rw [xorAll_length _ _ hall]
  · intro k
    rw [xorAll_getD _ _ hall, makeBytes_getD, Nat.zero_xor, List.map_map]
    have := xsum_range_single (fun c => (zeroPad L (p c)).getD k 0) N N (by
      intro c hc _
      simp only [h c hc, zeroPad]
      exact makeBytes_getD L k)
    simp only [Nat.lt_irrefl, if_false] at this
    exact this

theorem EncodeForRound_of_inLockstep {Pt : Type} (env : Env Pt) (e : DCNetEntity Pt) (roundID : Int)
    (slotOwner : Bool) (payload : Option (List Nat)) (h : InLockstep env e)
    (hne : e.EquivocationProtectionEnabled = false)
    (hr0 : 0 ≤ roundID) (hr1 : roundID < 2147483648)
    (hp : goLen payload ≤ e.DCNetPayloadSize) :
    EncodeForRound env e roundID slotOwner payload =
      .ok ({ e with
              sharedPRNGs := streamsAt (e.sharedKeys.map (seedOf env))
                ((roundID.toNat + 1) * e.DCNetPayloadSize),
              currentRound := wrapInt32 (roundID + 1) },
           env.ToBytes ⟨xorAll
              (if e.Entity = .DCNET_CLIENT then zeroPad e.DCNetPayloadSize payload
               else makeBytes e.DCNetPayloadSize)
              ((e.sharedKeys.map (seedOf env)).map (padOfRound env e.DCNetPayloadSize roundID.toNat)),
              []⟩,
           if e.Entity = .DCNET_CLIENT then makeBytes e.DCNetPayloadSize else []) := by
  obtain ⟨hc, seeds, hm, hs⟩ := h
  have hseeds := marshalAll_some_eq env _ _ hm
  subst hseeds
  exact EncodeForRound_lockstep env e roundID slotOwner payload _ hc hm hs hne hr0 hr1 hp

/-- C1. DC-net correctness without equivocation protection. `N` clients and
`T` trustees, all with payload size `L`, share the keys `K c t` (client `c`
holds `K c 0 .. K c (T-1)`, trustee `t` holds `K 0 t .. K (N-1) t`) and are in
lockstep; the wire form of a cipher returns its payload. Then the round in
which every client encodes its payload for round `r`, every trustee encodes
round `r`, and the relay runs `DecodeStart`, `DecodeClient` on every client
cipher, `DecodeTrustee` on every trustee cipher and `DecodeCell`, returns the
XOR of the clients' payloads zero-padded to `L` bytes (as decoded bytes and as
raw XOR); this is the owner's padded payload when only the owner passes a
non-nil payload, and `L` zero bytes when nobody passes one. -/
theorem dcnet_correctness_without_equivocation {Pt : Type} (env : Env Pt) (N T L : Nat) (r : Int)
    (K : Nat → Nat → Pt) (client trustee : Nat → DCNetEntity Pt) (relay : DCNetEntity Pt)
    (slotOwner : Nat → Bool) (payload : Nat → Option (List Nat)) (isOpenClosedSlot : Bool)
    (hr0 : 0 ≤ r) (hr1 : r < 2147483648)
    (hwire : ∀ p, (env.DCNetCipherFromBytes (env.ToBytes ⟨p, []⟩)).Payload = p)
    (hclient : ∀ c, c < N →
      (client c).Entity = .DCNET_CLIENT ∧ (client c).DCNetPayloadSize = L ∧
      (client c).EquivocationProtectionEnabled = false ∧
      (client c).sharedKeys = (List.range T).map (fun t => K c t) ∧ InLockstep env (client c))
    (htrustee : ∀ t, t < T →
      (trustee t).Entity = .DCNET_TRUSTEE ∧ (trustee t).DCNetPayloadSize = L ∧
      (trustee t).EquivocationProtectionEnabled = false ∧
      (trustee t).sharedKeys = (List.range N).map (fun c => K c t) ∧ InLockstep env (trustee t))
    (hrelay : relay.DCNetPayloadSize = L ∧ relay.EquivocationProtectionEnabled = false)
    (hp : ∀ c, c < N → goLen (payload c) ≤ L) :
    dcnetRound env relay r
        ((List.range N).map (fun c => (client c, slotOwner c, payload c)))
        ((List.range T).map trustee) isOpenClosedSlot =
      .ok (xorAll (makeBytes L) ((List.range N).map (fun c => zeroPad L (payload c))),
           xorAll (makeBytes L) ((List.range N).map (fun c => zeroPad L (payload c)))) ∧
    (∀ o, o < N → (∀ c, c < N → c ≠ o → payload c = none) →
      dcnetRound env relay r
        ((List.range N).map (fun c => (client c, slotOwner c, payload c)))
        ((List.range T).map trustee) isOpenClosedSlot =
      .ok (zeroPad L (payload o), zeroPad L (payload o))) ∧
    ((∀ c, c < N → payload c = none) →
      dcnetRound env relay r
        ((List.range N).map (fun c => (client c, slotOwner c, payload c)))
        ((List.range T).map trustee) isOpenClosedSlot =
      .ok (makeBytes L, makeBytes L)) := by
  have hC := clientCiphers_eq env r
    ((List.range N).map (fun c => (client c, slotOwner c, payload c)))
    (fun a => env.ToBytes ⟨xorAll (zeroPad a.1.DCNetPayloadSize a.2.2)
      ((a.1.sharedKeys.map (seedOf env)).map (padOfRound env a.1.DCNetPayloadSize r.toNat)), []⟩)
    (by
      intro a ha
      rcases List.mem_map.1 ha with ⟨c, hc, rfl⟩
      obtain ⟨h1, h2, h3, _, h5⟩ := hclient c (List.mem_range.1 hc)
      have := EncodeForRound_of_inLockstep env (client c) r (slotOwner c) (payload c) h5 h3 hr0 hr1
        (by rw [h2]; exact hp c (List.mem_range.1 hc))
      simp only [h1, if_true] at this
      exact ⟨_, _, this⟩)
  have hT := trusteeCiphers_eq env r ((List.range T).map trustee)
    (fun a => env.ToBytes ⟨xorAll (makeBytes a.DCNetPayloadSize)
      ((a.sharedKeys.map (seedOf env)).map (padOfRound env a.DCNetPayloadSize r.toNat)), []⟩)
    (by
      intro a ha
      rcases List.mem_map.1 ha with ⟨t, ht, rfl⟩
      obtain ⟨h1, _, h3, _, h5⟩ := htrustee t (List.mem_range.1 ht)
      have := EncodeForRound_of_inLockstep env (trustee t) r false none h5 h3 hr0 hr1
        (by simp [goLen])
      have hk : (trustee t).Entity ≠ .DCNET_CLIENT := by rw [h1]; decide
      simp only [hk, if_false] at this
      exact ⟨_, _, this⟩)
  have hXs : ((List.range N).map (fun c => (client c, slotOwner c, payload c))).map
      (fun a => env.ToBytes ⟨xorAll (zeroPad a.1.DCNetPayloadSize a.2.2)
        ((a.1.sharedKeys.map (seedOf env)).map (padOfRound env a.1.DCNetPayloadSize r.toNat)), []⟩) =
      (List.range N).map (fun c => env.ToBytes ⟨xorAll (zeroPad L (payload c))
        ((List.range T).map (fun t => padOfRound env L r.toNat (seedOf env (K c t)))), []⟩) := by
    rw [List.map_map]
    apply List.map_congr_left
    intro c hc
    obtain ⟨_, h2, _, h4, _⟩ := hclient c (List.mem_range.1 hc)
    simp only [Function.comp, h2, h4, List.map_map]
    rfl
  have hYs : ((List.range T).map trustee).map
      (fun a => env.ToBytes ⟨xorAll (makeBytes a.DCNetPayloadSize)
        ((a.sharedKeys.map (seedOf env)).map (padOfRound env a.DCNetPayloadSize r.toNat)), []⟩) =
      (List.range T).map (fun t => env.ToBytes ⟨xorAll (makeBytes L)
        ((List.range N).map (fun c => padOfRound env L r.toNat (seedOf env (K c t)))), []⟩) := by
    rw [List.map_map]
    apply List.map_congr_left
    intro t ht
    obtain ⟨_, h2, _, h4, _⟩ := htrustee t (List.mem_range.1 ht)
    simp only [Function.comp, h2, h4, List.map_map]
    rfl
  rw [hXs] at hC
  rw [hYs] at hT
  have hmain : dcnetRound env relay r
      ((List.range N).map (fun c => (client c, slotOwner c, payload c)))
      ((List.range T).map trustee) isOpenClosedSlot =
      .ok (xorAll (makeBytes L) ((List.range N).map (fun c => zeroPad L (payload c))),
           xorAll (makeBytes L) ((List.range N).map (fun c => zeroPad L (payload c)))) := by
    unfold dcnetRound
    rw [hC, hT]
    simp only
    rw [relayDecodeRound_eq env relay r _ _ isOpenClosedSlot hrelay.2]
    · rw [hrelay.1]
      simp only [List.map_map, Function.comp_def, hwire]
      rw [pads_cancel L (fun c => zeroPad L (payload c))
        (fun c t => padOfRound env L r.toNat (seedOf env (K c t)))]
      · intro c hc
        exact zeroPad_length _ _ (hp c (List.mem_range.1 hc))
      · intro c t
        exact padOfRound_length _ _ _ _
    · intro x hx
      rcases List.mem_map.1 hx with ⟨c, hc, rfl⟩
      rw [hwire, hrelay.1, xorAll_length, zeroPad_length _ _ (hp c (List.mem_range.1 hc))]
      intro q hq
      rcases List.mem_map.1 hq with ⟨t, _, rfl⟩
      rw [padOfRound_length, zeroPad_length _ _ (hp c (List.mem_range.1 hc))]
    · intro y hy
      rcases List.mem_map.1 hy with ⟨t, _, rfl⟩
      rw [hwire, hrelay.1, xorAll_length, makeBytes_length]
      intro q hq
      rcases List.mem_map.1 hq with ⟨c, _, rfl⟩
      rw [padOfRound_length, makeBytes_length]
  refine ⟨hmain, ?_, ?_⟩
  · intro o ho hothers
    rw [hmain, xorAll_single_owner L N o payload ho hp hothers]
  · intro hnone
    rw [hmain, xorAll_no_payload L N payload hnone]

theorem demoClient_inLockstep (round c : Nat) : InLockstep demoEnv (demoClient round c) :=
  ⟨by simp [demoClient], [[demoKey c 0 % 256]], rfl, by simp [demoClient, streamsAt]⟩

theorem demoTrustee_inLockstep (round t : Nat) : InLockstep demoEnv (demoTrustee round t) :=
  ⟨by simp [demoTrustee], [[demoKey 0 t % 256], [demoKey 1 t % 256]], rfl,
    by simp [demoTrustee, streamsAt]⟩

/-- C1, the seed scenario: N = 2, T = 1, L = 32. The entities are those
`NewDCNetEntity` builds; in round 0 client 0 owns the slot and sends "hi" and
the relay decodes "hi" padded with zeros; the encoders leave the entities at
round 1, and in round 1 nobody sends and the relay decodes 32 zero bytes. -/
theorem dcnet_correctness_witness :
    NewDCNetEntity demoEnv 0 .DCNET_CLIENT 32 false [5] = .ok (demoClient 0 0) ∧
    NewDCNetEntity demoEnv 1 .DCNET_CLIENT 32 false [9] = .ok (demoClient 0 1) ∧
    NewDCNetEntity demoEnv 0 .DCNET_TRUSTEE 32 false [5, 9] = .ok (demoTrustee 0 0) ∧
    NewDCNetEntity demoEnv 0 .DCNET_RELAY 32 false [] = .ok demoRelay ∧
    stateOf (EncodeForRound demoEnv (demoClient 0 0) 0 true (some [104, 105])) =
      some ((demoClient 1 0).currentRound, (demoClient 1 0).sharedPRNGs) ∧
    stateOf (EncodeForRound demoEnv (demoClient 0 1) 0 false none) =
      some ((demoClient 1 1).currentRound, (demoClient 1 1).sharedPRNGs) ∧
    stateOf (TrusteeEncodeForRound demoEnv (demoTrustee 0 0) 0) =
      some ((demoTrustee 1 0).currentRound, (demoTrustee 1 0).sharedPRNGs) ∧
    dcnetRound demoEnv demoRelay 0
        [(demoClient 0 0, true, some [104, 105]), (demoClient 0 1, false, none)]
        [demoTrustee 0 0] false =
      .ok (104 :: 105 :: List.replicate 30 0, 104 :: 105 :: List.replicate 30 0) ∧
    dcnetRound demoEnv demoRelay 1
        [(demoClient 1 0, false, none), (demoClient 1 1, true, none)]
        [demoTrustee 1 0] false =
      .ok (List.replicate 32 0, List.replicate 32 0) :=
  ⟨rfl, rfl, rfl, rfl, by decide, by decide, by decide,
   (dcnet_correctness_without_equivocation demoEnv 2 1 32 0 demoKey (demoClient 0) (demoTrustee 0)
      demoRelay (fun c => decide (c = 0)) demoPayload false (by decide) (by decide)
      (fun p => by simp [demoEnv, wireToBytes, wireFromBytes])
      (fun c _ => ⟨rfl, rfl, rfl, rfl, demoClient_inLockstep 0 c⟩)
      (fun t _ => ⟨rfl, rfl, rfl, rfl, demoTrustee_inLockstep 0 t⟩)
      ⟨rfl, rfl⟩
      (fun c _ => by unfold demoPayload; split <;> simp [goLen])).2.1 0 (by decide)
      (fun c _ hne => by simp [demoPayload, hne]),
   (dcnet_correctness_without_equivocation demoEnv 2 1 32 1 demoKey (demoClient 1) (demoTrustee 1)
      demoRelay (fun c => decide (c = 1)) (fun _ => none) false (by decide) (by decide)
      (fun p => by simp [demoEnv, wireToBytes, wireFromBytes])
      (fun c _ => ⟨rfl, rfl, rfl, rfl, demoClient_inLockstep 1 c⟩)
      (fun t _ => ⟨rfl, rfl, rfl, rfl, demoTrustee_inLockstep 1 t⟩)
      ⟨rfl, rfl⟩
      (fun c _ => by simp [goLen])).2.2 (fun _ _ => rfl)⟩

theorem NewDCNetEntity_fresh {Pt : Type} (env : Env Pt) (entityID : Int) (entity : DCNET_ENTITY)
    (PayloadSize : Int) (equivocationProtection : Bool) (sharedKeys : List Pt) (e : DCNetEntity Pt)
    (h : NewDCNetEntity env entityID entity PayloadSize equivocationProtection sharedKeys = .ok e) :
    InLockstep env e ∧ e.currentRound = 0 ∧
      e.EquivocationProtectionEnabled = equivocationProtection ∧
      (e.DCNetPayloadSize : Int) = PayloadSize ∧ 0 < PayloadSize ∧ e.Entity = entity := by
  unfold NewDCNetEntity at h
  by_cases hk : entity = .DCNET_RELAY
  · subst hk
    by_cases hP : PayloadSize ≤ 0
    · simp [hP] at h
    · simp only [ne_eq, not_true_eq_false, if_false, hP, Except.ok.injEq] at h
      subst h
      refine ⟨⟨le_refl _, [], rfl, rfl⟩, rfl, rfl, ?_, by omega, rfl⟩
      simp only
      omega
  · simp only [ne_eq, hk, not_false_eq_true, if_true] at h
    rw [seedPRNGs_eq] at h
    cases hm : marshalAll env sharedKeys with
    | none => simp [hm] at h
    | some seeds =>
      by_cases hP : PayloadSize ≤ 0
      · simp [hm, hP] at h
      · simp only [hm, hP, if_false, Except.ok.injEq] at h
        subst h
        refine ⟨⟨le_refl _, seeds, hm, ?_⟩, rfl, rfl, ?_, by omega, rfl⟩
        · simp
        · simp only
          omega

theorem EncodeForRound_ok_payload {Pt : Type} (env : Env Pt) (e : DCNetEntity Pt) (roundID : Int)
    (slotOwner : Bool) (payload : Option (List Nat)) (out : DCNetEntity Pt × List Nat × List Nat)
    (h : EncodeForRound env e roundID slotOwner payload = .ok out) :
    goLen payload ≤ e.DCNetPayloadSize := by
  by_contra hgt
  unfold EncodeForRound at h
  rw [if_pos (by omega)] at h
  cases h

/-- C2. Pad lockstep. A freshly constructed entity (equivocation protection
disabled) that first encodes round `r` and then round `r + 1` returns, for
round `r + 1`, the same bytes (and ends in the same state) as a freshly
constructed entity with the same shared keys that encodes round `r + 1`
directly, fast-forwarding over rounds `0 .. r`; both calls return. -/
theorem pad_lockstep {Pt : Type} (env : Env Pt) (entityID : Int) (entity : DCNET_ENTITY)
    (PayloadSize : Int) (sharedKeys : List Pt) (fresh e1 : DCNetEntity Pt) (r : Int)
    (slotOwner0 : Bool) (payload0 : Option (List Nat)) (bytes0 plain0 : List Nat)
    (slotOwner : Bool) (payload : Option (List Nat))
    (hnew : NewDCNetEntity env entityID entity PayloadSize false sharedKeys = .ok fresh)
    (hr0 : 0 ≤ r) (hr1 : r + 1 < 2147483648)
    (hp : (goLen payload : Int) ≤ PayloadSize)
    (hfirst : EncodeForRound env fresh r slotOwner0 payload0 = .ok (e1, bytes0, plain0)) :
    ∃ e2 bytes plain,
      EncodeForRound env e1 (r + 1) slotOwner payload = .ok (e2, bytes, plain) ∧
      EncodeForRound env fresh (r + 1) slotOwner payload = .ok (e2, bytes, plain) := by
  obtain ⟨hlock, hcur, hne, hL, _, _⟩ := NewDCNetEntity_fresh env _ _ _ _ _ _ hnew
  have hp0 := EncodeForRound_ok_payload env _ _ _ _ _ hfirst
  have hp' : goLen payload ≤ fresh.DCNetPayloadSize := by omega
  rw [EncodeForRound_of_inLockstep env fresh r slotOwner0 payload0 hlock hne hr0 (by omega) hp0]
    at hfirst
  simp only [Except.ok.injEq, Prod.mk.injEq] at hfirst
  obtain ⟨he1, _, _⟩ := hfirst
  have hw : wrapInt32 (r + 1) = r + 1 := wrapInt32_of_isInt32 _ ⟨by omega, by omega⟩
  have hlock1 : InLockstep env e1 := by
    obtain ⟨_, seeds, hm, _⟩ := hlock
    have hseeds := marshalAll_some_eq env _ _ hm
    subst he1
    refine ⟨by simp only [hw]; omega, fresh.sharedKeys.map (seedOf env), ?_, ?_⟩
    · rw [← hseeds]; exact hm
    · simp only [hw]
      congr 2
      omega
  have h1 := EncodeForRound_of_inLockstep env e1 (r + 1) slotOwner payload hlock1
    (by subst he1; exact hne) (by omega) hr1 (by subst he1; exact hp')
  have h2 := EncodeForRound_of_inLockstep env fresh (r + 1) slotOwner payload hlock hne
    (by omega) hr1 hp'
  refine ⟨_, _, _, h1, ?_⟩
  rw [h2]
  subst he1
  rfl

/-- C2, an instance: a fresh client (payload size 32) encodes round 2 and then
round 3; a fresh client with the same key encodes round 3 directly; both
return the same bytes. -/
theorem pad_lockstep_witness :
    ∃ e2 bytes plain,
      EncodeForRound demoEnv (demoClient 3 0) 3 true (some [1, 2, 3]) = .ok (e2, bytes, plain) ∧
      EncodeForRound demoEnv (demoClient 0 0) 3 true (some [1, 2, 3]) = .ok (e2, bytes, plain) :=
  pad_lockstep demoEnv 0 .DCNET_CLIENT 32 [5] (demoClient 0 0) (demoClient 3 0) 2
    true (some [104, 105])
    [54, 12, 108, 115, 122, 129, 136, 143, 150, 157, 164, 171, 178, 185, 192, 199, 206, 213, 220,
      227, 234, 241, 248, 255, 6, 13, 20, 27, 34, 41, 48, 55]
    (makeBytes 32) true (some [1, 2, 3]) rfl (by decide) (by decide) (by decide) rfl

/-- C3, the failing run. A client with one peer and payload size 32 encodes
rounds 0 and 1 (two rounds, 64 pad bytes consumed), then `GetBitsOfRound(0, 8)`
is called: it returns with `currentRound = 0` while the peer stream has
consumed 32 bytes, not `0 * 32`; the entity is no longer in lockstep, and its
next cipher for round 2 differs from the one a fresh entity produces. -/
theorem getBitsOfRound_desynchronises_pads :
    stateOf (EncodeForRound demoEnv (demoClient 0 0) 0 true (some [104, 105])) =
      some (1, [⟨[5], 32⟩]) ∧
    stateOf (EncodeForRound demoEnv (demoClient 1 0) 1 false none) = some (2, [⟨[5], 64⟩]) ∧
    (∃ e out, GetBitsOfRound demoEnv (demoClient 2 0) 0 8 = .ok (e, out) ∧
      e.currentRound = 0 ∧ e.DCNetPayloadSize = 32 ∧ e.sharedPRNGs = [⟨[5], 32⟩] ∧
      ¬ InLockstep demoEnv e ∧
      bytesOf (EncodeForRound demoEnv e 2 false none) ≠
        bytesOf (EncodeForRound demoEnv (demoClient 0 0) 2 false none)) := by
  refine ⟨by decide, by decide,
    { demoClient 0 0 with sharedPRNGs := [⟨[5], 32⟩] },
    some ([(0, 0)], [padOfRound demoEnv 32 0 [5]]), rfl, rfl, rfl, rfl, ?_, by decide⟩
  rintro ⟨_, seeds, hm, hs⟩
  have hseeds := marshalAll_some_eq demoEnv _ _ hm
  subst hseeds
  revert hs
  decide

/-- C4, the failing run. On a client whose `currentRound` is 2 (rounds 0 and 1
encoded), `GetBitsOfRound(0, 8)` returns with `currentRound = 0` and with the
canonical pad streams replaced (offset 32 instead of 64); `EncodeForRound` for
the past round 0 likewise leaves `currentRound = 1`, below 2. -/
theorem round_state_moves_backwards :
    (demoClient 2 0).currentRound = 2 ∧ (demoClient 2 0).sharedPRNGs = [⟨[5], 64⟩] ∧
    stateOf (GetBitsOfRound demoEnv (demoClient 2 0) 0 8) = some (0, [⟨[5], 32⟩]) ∧
    stateOf (EncodeForRound demoEnv (demoClient 2 0) 0 false none) = some (1, [⟨[5], 32⟩]) := by
  decide

/-- C5, the failing run. On a client whose `currentRound` is 2,
`EncodeForRound(0, false, nil)` does not crash: it rebuilds the streams and
returns the cipher of round 0, the one a fresh entity returns. -/
theorem encode_past_round_returns :
    (demoClient 2 0).currentRound = 2 ∧
    bytesOf (EncodeForRound demoEnv (demoClient 2 0) 0 false none) =
      some (padOfRound demoEnv 32 0 [5]) ∧
    bytesOf (EncodeForRound demoEnv (demoClient 2 0) 0 false none) =
      bytesOf (EncodeForRound demoEnv (demoClient 0 0) 0 false none) := by
  decide

theorem discardRounds_fields {Pt : Type} (env : Env Pt) (roundID : Int) (fuel : Nat)
    (e : DCNetEntity Pt) :
    (discardRounds env roundID fuel e).Entity = e.Entity ∧
    (discardRounds env roundID fuel e).EquivocationProtectionEnabled =
      e.EquivocationProtectionEnabled ∧
    (discardRounds env roundID fuel e).DCNetPayloadSize = e.DCNetPayloadSize := by
  induction fuel generalizing e with
  | zero => simp [discardRounds]
  | succ n ih =>
    simp only [discardRounds]
    split
    · have := ih { e with
        sharedPRNGs := e.sharedPRNGs.map (fun x => (x.XORKeyStream env (makeBytes e.DCNetPayloadSize)).2)
        currentRound := wrapInt32 (e.currentRound + 1) }
      simpa using this
    · simp

/-- The fast-forward loop runs to completion: with the fuel `EncodeForRound`
gives it, it stops because `currentRound` has reached `roundID`. -/
theorem discardRounds_round {Pt : Type} (env : Env Pt) (roundID : Int) (fuel : Nat)
    (e : DCNetEntity Pt) (hlo : -2147483648 ≤ e.currentRound) (hhi : roundID < 2147483648)
    (hfuel : fuel = (roundID - e.currentRound).toNat) (hle : e.currentRound ≤ roundID) :
    (discardRounds env roundID fuel e).currentRound = roundID := by
  induction fuel generalizing e with
  | zero =>
    simp only [discardRounds]
    omega
  | succ n ih =>
    have hlt : e.currentRound < roundID := by omega
    have hw : wrapInt32 (e.currentRound + 1) = e.currentRound + 1 :=
      wrapInt32_of_isInt32 _ ⟨by omega, by omega⟩
    simp only [discardRounds, hlt, if_true, hw]
    apply ih
    · simp only; omega
    · simp only; omega
    · simp only; omega

theorem clientEncode_general {Pt : Type} (env : Env Pt) (e : DCNetEntity Pt) (slotOwner : Bool)
    (payload : Option (List Nat))
    (hne : e.EquivocationProtectionEnabled = false) (hp : goLen payload ≤ e.DCNetPayloadSize) :
    clientEncode env e slotOwner payload =
      .ok ({ e with sharedPRNGs := (preparePads env e.DCNetPayloadSize e.sharedPRNGs).2 },
           ⟨xorAll (zeroPad e.DCNetPayloadSize payload)
              (preparePads env e.DCNetPayloadSize e.sharedPRNGs).1, []⟩,
           makeBytes e.DCNetPayloadSize) := by
  have hx : xorPads (zeroPad e.DCNetPayloadSize payload)
      (preparePads env e.DCNetPayloadSize e.sharedPRNGs).1 =
      .ok (xorAll (zeroPad e.DCNetPayloadSize payload)
        (preparePads env e.DCNetPayloadSize e.sharedPRNGs).1) := by
    apply xorPads_eq
    intro q hq
    rw [zeroPad_length _ _ hp]
    exact preparePads_lengths env _ _ q hq
  unfold clientEncode
  cases payload with
  | none =>
    simp only [hne, Bool.false_eq_true, if_false]
    have hz : makeBytes e.DCNetPayloadSize = zeroPad e.DCNetPayloadSize none := by
      simp [makeBytes, zeroPad]
    rw [hz, hx]
  | some p =>
    simp only [goLen] at hp
    have h1 : ¬ ((e.DCNetPayloadSize : Int) < 0) := by omega
    have h2 : ¬ ((p.length : Int) > (e.DCNetPayloadSize : Int)) := by omega
    simp only [hne, Bool.false_and, Bool.false_eq_true, if_false, h1, h2,
      Int.toNat_ofNat, copyInto_zeros _ _ hp]
    rw [hx]

/-- C6. Payload size enforcement. On a client entity with equivocation
protection disabled and for a round not before `currentRound` (both `int32`
values), `EncodeForRound` crashes exactly when the payload is longer than
`DCNetPayloadSize`; when it returns, the fast-forward loop has run to the end
(`currentRound` is `roundID + 1` as an `int32`), and the bytes are the wire
form of a cipher whose payload has exactly `DCNetPayloadSize` bytes and whose
tag is nil. A nil or empty payload is accepted. -/
theorem payload_size_enforcement {Pt : Type} (env : Env Pt) (e : DCNetEntity Pt) (roundID : Int)
    (slotOwner : Bool) (payload : Option (List Nat))
    (hclient : e.Entity = .DCNET_CLIENT) (hne : e.EquivocationProtectionEnabled = false)
    (hcur : IsInt32 e.currentRound) (hr : IsInt32 roundID) (hround : e.currentRound ≤ roundID) :
    ((∃ c, EncodeForRound env e roundID slotOwner payload = .error c) ↔
      goLen payload > e.DCNetPayloadSize) ∧
    (goLen payload ≤ e.DCNetPayloadSize →
      ∃ e1 cipherPayload plain,
        EncodeForRound env e roundID slotOwner payload =
          .ok (e1, env.ToBytes ⟨cipherPayload, []⟩, plain) ∧
        cipherPayload.length = e.DCNetPayloadSize ∧
        e1.currentRound = wrapInt32 (roundID + 1)) := by
  obtain ⟨hf1, hf2, hf3⟩ := discardRounds_fields env roundID (roundID - e.currentRound).toNat e
  have hrd := discardRounds_round env roundID (roundID - e.currentRound).toNat e hcur.1 hr.2 rfl hround
  have hok : goLen payload ≤ e.DCNetPayloadSize →
      ∃ e1 cipherPayload plain,
        EncodeForRound env e roundID slotOwner payload =
          .ok (e1, env.ToBytes ⟨cipherPayload, []⟩, plain) ∧
        cipherPayload.length = e.DCNetPayloadSize ∧
        e1.currentRound = wrapInt32 (roundID + 1) := by
    intro hle
    have hce := clientEncode_general env
      (discardRounds env roundID (roundID - e.currentRound).toNat e) slotOwner payload
      (by rw [hf2]; exact hne) (by rw [hf3]; exact hle)
    have hE : EncodeForRound env e roundID slotOwner payload =
        .ok ({ discardRounds env roundID (roundID - e.currentRound).toNat e with
                sharedPRNGs := (preparePads env
                  (discardRounds env roundID (roundID - e.currentRound).toNat e).DCNetPayloadSize
                  (discardRounds env roundID (roundID - e.currentRound).toNat e).sharedPRNGs).2
                currentRound := wrapInt32
                  ((discardRounds env roundID (roundID - e.currentRound).toNat e).currentRound + 1) },
          env.ToBytes ⟨xorAll
            (zeroPad (discardRounds env roundID (roundID - e.currentRound).toNat e).DCNetPayloadSize
              payload)
            (preparePads env
              (discardRounds env roundID (roundID - e.currentRound).toNat e).DCNetPayloadSize
              (discardRounds env roundID (roundID - e.currentRound).toNat e).sharedPRNGs).1, []⟩,
          makeBytes (discardRounds env roundID (roundID - e.currentRound).toNat e).DCNetPayloadSize) := by
      unfold EncodeForRound
      rw [if_neg (by omega), if_neg (by omega)]
      simp only [hf1, hclient, if_true, hce]
    refine ⟨_, _, _, hE, ?_, ?_⟩
    · rw [xorAll_length]
      · rw [hf3]; exact zeroPad_length _ _ hle
      · intro q hq
        rw [zeroPad_length _ _ (by rw [hf3]; exact hle)]
        exact preparePads_lengths env _ _ q hq
    · simp only [hrd]
  refine ⟨⟨?_, ?_⟩, hok⟩
  · rintro ⟨c, hc⟩
    by_contra hle
    obtain ⟨_, _, _, h, _⟩ := hok (by omega)
    rw [h] at hc
    cases hc
  · intro hgt
    refine ⟨.payloadTooLong, ?_⟩
    unfold EncodeForRound
    rw [if_pos hgt]

/-- C6, an instance: a fresh client with payload size 32 accepts a 3-byte
payload for round 1 and produces a 32-byte cipher payload; a 33-byte payload
makes it crash. -/
theorem payload_size_enforcement_witness :
    ((∃ c, EncodeForRound demoEnv (demoClient 0 0) 1 true (some [1, 2, 3]) = .error c) ↔
      goLen (some [1, 2, 3]) > (demoClient 0 0).DCNetPayloadSize) ∧
    (goLen (some [1, 2, 3]) ≤ (demoClient 0 0).DCNetPayloadSize →
      ∃ e1 cipherPayload plain,
        EncodeForRound demoEnv (demoClient 0 0) 1 true (some [1, 2, 3]) =
          .ok (e1, demoEnv.ToBytes ⟨cipherPayload, []⟩, plain) ∧
        cipherPayload.length = (demoClient 0 0).DCNetPayloadSize ∧
        e1.currentRound = wrapInt32 (1 + 1)) :=
  payload_size_enforcement demoEnv (demoClient 0 0) 1 true (some [1, 2, 3]) rfl rfl
    (by decide) (by decide) (by decide)

theorem sharedSecretsLoop_full {S P : Type} [SMul S P] (Pks : List P) (privateKey : S) :
    sharedSecretsLoop Pks.length Pks privateKey =
      .ok (Pks.map (fun pk => some (PointMul pk privateKey))) := by
  simp [sharedSecretsLoop]

/-- C7. Shared-secret symmetry. With public keys `x * B`, the point client `c`
derives from trustee `t`'s public key equals the point trustee `t` derives
from client `c`'s public key; the derivation loops of the client and of the
trustee store this point at index `t` and index `c` respectively; the streams
`NewDCNetEntity` seeds from the two points are the same, so every
`XORKeyStream` on them yields the same bytes. -/
theorem shared_secret_symmetry {S P : Type} [CommRing S] [AddCommGroup P] [Module S P]
    (env : Env P) (B : P) (N T : Nat) (clientPriv trusteePriv : Nat → S) (c t : Nat)
    (hc : c < N) (ht : t < T) :
    PointMul (PointMul B (trusteePriv t)) (clientPriv c) =
      PointMul (PointMul B (clientPriv c)) (trusteePriv t) ∧
    (∃ secretsC secretsT,
      clientSharedSecrets T ((List.range T).map (fun j => PointMul B (trusteePriv j)))
        (clientPriv c) = .ok secretsC ∧
      trusteeSharedSecrets N ((List.range N).map (fun i => PointMul B (clientPriv i)))
        (trusteePriv t) = .ok secretsT ∧
      secretsC[t]? = some (some (PointMul (PointMul B (trusteePriv t)) (clientPriv c))) ∧
      secretsT[c]? = secretsC[t]?) ∧
    seedPRNGs env [PointMul (PointMul B (trusteePriv t)) (clientPriv c)] =
      seedPRNGs env [PointMul (PointMul B (clientPriv c)) (trusteePriv t)] ∧
    (∀ xc xt : XOF,
      seedPRNGs env [PointMul (PointMul B (trusteePriv t)) (clientPriv c)] = .ok [xc] →
      seedPRNGs env [PointMul (PointMul B (clientPriv c)) (trusteePriv t)] = .ok [xt] →
      ∀ src, (xc.XORKeyStream env src).1 = (xt.XORKeyStream env src).1) := by
  have hsym : PointMul (PointMul B (trusteePriv t)) (clientPriv c) =
      PointMul (PointMul B (clientPriv c)) (trusteePriv t) := by
    simp only [PointMul]
    exact smul_comm _ _ _
  refine ⟨hsym, ?_, by rw [hsym], ?_⟩
  · have h1 := sharedSecretsLoop_full ((List.range T).map (fun j => PointMul B (trusteePriv j)))
      (clientPriv c)
    have h2 := sharedSecretsLoop_full ((List.range N).map (fun i => PointMul B (clientPriv i)))
      (trusteePriv t)
    simp only [List.length_map, List.length_range] at h1 h2
    refine ⟨_, _, h1, h2, ?_, ?_⟩
    · simp [List.getElem?_map, List.getElem?_range ht]
    · simp [List.getElem?_map, List.getElem?_range ht, List.getElem?_range hc, hsym]
  · intro xc xt h1 h2 src
    rw [hsym, h2] at h1
    simp only [Except.ok.injEq, List.cons.injEq, and_true] at h1
    rw [h1]

/-- C7, an instance: two clients and one trustee over the integers modulo 11
with base point 2; client 1 (private scalar 5) and trustee 0 (private scalar 3)
derive the same point. -/
theorem shared_secret_symmetry_witness :
    PointMul (PointMul (2 : ZMod 11) (3 : ZMod 11)) (5 : ZMod 11) =
      PointMul (PointMul (2 : ZMod 11) (5 : ZMod 11)) (3 : ZMod 11) ∧
    PointMul (PointMul (2 : ZMod 11) (3 : ZMod 11)) (5 : ZMod 11) = 8 :=
  ⟨(shared_secret_symmetry demoPointEnv (2 : ZMod 11) 2 1
      (fun i => if i = 0 then (4 : ZMod 11) else 5) (fun _ => (3 : ZMod 11)) 1 0
      (by decide) (by decide)).1, by decide⟩

/-- C8. Schnorr sign/verify round trip. When `suite.Read` inverts
`suite.Write`, verifying a signature made with the private scalar `x` under
the public key `x * Base` returns nil; the verifier's commitment
`r * Base + c * (x * Base)` with `r = v - x * c` is the signer's `v * Base`. -/
theorem schnorr_sign_verify {S P Stream : Type} [CommRing S] [DecidableEq S] [AddCommGroup P]
    [Module S P] (suite : SchnorrSuite S P Stream) (random : Stream) (message : List Nat) (x : S)
    (hrw : ∀ sig, suite.Read (suite.Write sig) = some sig) :
    SchnorrVerify suite message (PointMul suite.Base x) (SchnorrSign suite random message x) = none ∧
    PointMul suite.Base
        (suite.Pick random -
          x * hashSchnorr suite message (PointMul suite.Base (suite.Pick random))) +
      PointMul (PointMul suite.Base x)
        (hashSchnorr suite message (PointMul suite.Base (suite.Pick random))) =
      PointMul suite.Base (suite.Pick random) := by
  have hT : ∀ v c : S, PointMul suite.Base (v - x * c) + PointMul (PointMul suite.Base x) c =
      PointMul suite.Base v := by
    intro v c
    simp only [PointMul]
    rw [smul_smul, ← add_smul]
    congr 1
    ring
  refine ⟨?_, hT _ _⟩
  simp only [SchnorrVerify, SchnorrSign, hrw, hT]
  simp

/-- C8, an instance over the integers modulo 11: message [1, 2, 3], private
scalar 4, random stream 7. -/
theorem schnorr_sign_verify_witness :
    SchnorrVerify demoSchnorrSuite [1, 2, 3] (PointMul demoSchnorrSuite.Base (4 : ZMod 11))
      (SchnorrSign demoSchnorrSuite 7 [1, 2, 3] (4 : ZMod 11)) = none :=
  (schnorr_sign_verify demoSchnorrSuite 7 [1, 2, 3] (4 : ZMod 11) (by
    intro sig
    obtain ⟨a, b⟩ := sig
    simp [demoSchnorrSuite])).1

theorem isMySlot_eq (RoundNo nClients MySlot : Int) (hN : 1 ≤ nClients)
    (hN' : nClients < 2147483648) (hj : IsInt32 MySlot) (hr : 0 ≤ RoundNo) :
    isMySlot RoundNo nClients MySlot = .ok (decide (RoundNo % nClients = MySlot)) := by
  have h1 : wrapInt32 nClients = nClients := wrapInt32_of_isInt32 _ ⟨by omega, hN'⟩
  have h2 : wrapInt32 MySlot = MySlot := wrapInt32_of_isInt32 _ hj
  have h3 : Int.tmod RoundNo nClients = RoundNo % nClients :=
    Int.tmod_eq_emod hr (by omega)
  have h4 : 0 ≤ RoundNo % nClients := Int.emod_nonneg _ (by omega)
  have h5 : RoundNo % nClients < nClients := Int.emod_lt_of_pos _ (by omega)
  have h6 : wrapInt32 (RoundNo % nClients) = RoundNo % nClients :=
    wrapInt32_of_isInt32 _ ⟨by omega, by omega⟩
  unfold isMySlot
  rw [h1, if_neg (by omega), h3, h6, h2]

/-- C9, as stated, fails: with `nClients = 2^32 + 1` the conversion
`int32(nClients)` is 1, so in round 1 a client with `MySlot = 0` treats the
round as its own slot and sends the dummy payload, although `1 mod (2^32 + 1)`
is 1 and not 0. -/
theorem slot_ownership_counterexample :
    isMySlot 1 4294967297 0 = .ok true ∧
    PrifiLib_upstreamCellContent [9, 9] 0 0 4294967297 0 16 1 false none = .ok (true, some [9, 9]) ∧
    Client_upstreamCellContent [9, 9] (fun t => t) 0 0 0 4294967297 0 16 1 ⟨false, 0, 0, []⟩ none =
      .ok (true, some [9, 9], ⟨false, 0, 0, []⟩) ∧
    ¬ ((1 : Int) % 4294967297 = 0) := by
  decide

/-- C9, amended. For `1 ≤ nClients < 2^31`, `MySlot` in the `int32` range
and a round `RoundNo ≥ 0`, `SendUpstreamData` (both versions) treats
the round as the client's own slot exactly when `RoundNo mod nClients = MySlot`:
the slot test returns that truth value; in every other round the call returns
with the content for the cell coder nil; in an own round the content is the
data received from `DataForDCNet` when there is some. -/
theorem slot_ownership (dummy : List Nat) (MsTimeStamp : Int → Int) (currTime now jitter : Int)
    (ID nClients MySlot PayloadLength RoundNo : Int) (LatencyTest : Bool) (lat : LatencyTests)
    (dataForDCNet : Option (Option (List Nat)))
    (hN : 1 ≤ nClients) (hN' : nClients < 2147483648) (hj : IsInt32 MySlot)
    (hr : 0 ≤ RoundNo) :
    isMySlot RoundNo nClients MySlot = .ok (decide (RoundNo % nClients = MySlot)) ∧
    (∀ out, PrifiLib_upstreamCellContent dummy currTime ID nClients MySlot PayloadLength RoundNo
        LatencyTest dataForDCNet = .ok out → (out.1 = true ↔ RoundNo % nClients = MySlot)) ∧
    (∀ out, Client_upstreamCellContent dummy MsTimeStamp now jitter ID nClients MySlot
        PayloadLength RoundNo lat dataForDCNet = .ok out →
        (out.1 = true ↔ RoundNo % nClients = MySlot)) ∧
    (RoundNo % nClients ≠ MySlot →
      PrifiLib_upstreamCellContent dummy currTime ID nClients MySlot PayloadLength RoundNo
        LatencyTest dataForDCNet = .ok (false, none) ∧
      ∃ lat1, Client_upstreamCellContent dummy MsTimeStamp now jitter ID nClients MySlot
        PayloadLength RoundNo lat dataForDCNet = .ok (false, none, lat1)) ∧
    (RoundNo % nClients = MySlot → ∀ myData, dataForDCNet = some myData →
      PrifiLib_upstreamCellContent dummy currTime ID nClients MySlot PayloadLength RoundNo
        LatencyTest dataForDCNet = .ok (true, myData) ∧
      ∃ lat1, Client_upstreamCellContent dummy MsTimeStamp now jitter ID nClients MySlot
        PayloadLength RoundNo lat dataForDCNet = .ok (true, myData, lat1)) := by
  have hs := isMySlot_eq RoundNo nClients MySlot hN hN' hj hr
  by_cases hm : RoundNo % nClients = MySlot
  · simp only [hm, decide_True] at hs
    refine ⟨by simp [hs, hm], ?_, ?_, fun h => absurd hm h, ?_⟩
    · intro out hout
      simp only [PrifiLib_upstreamCellContent, hs] at hout
      have : out.1 = true := by
        cases dataForDCNet with
        | some d =>
          simp only [Except.ok.injEq] at hout
          rw [← hout]
        | none =>
          simp only at hout
          split at hout
          · split at hout
            · cases hout
            · simp only [Except.ok.injEq] at hout
              rw [← hout]
          · simp only [Except.ok.injEq] at hout
            rw [← hout]
      simp [this, hm]
    · intro out hout
      simp only [Client_upstreamCellContent, hs, if_true] at hout
      have : out.1 = true := by
        cases dataForDCNet with
        | some d =>
          simp only [Except.ok.injEq] at hout
          rw [← hout]
        | none =>
          simp only at hout
          split at hout
          · split at hout
            · cases hout
            · simp only [Except.ok.injEq] at hout
              rw [← hout]
          · simp only [Except.ok.injEq] at hout
            rw [← hout]
      simp [this, hm]
    · intro _ myData hd
      subst hd
      refine ⟨by simp [PrifiLib_upstreamCellContent, hs], ?_⟩
      simp only [Client_upstreamCellContent, hs, if_true]
      exact ⟨_, rfl⟩
  · simp only [hm, decide_False] at hs
    have h1 : PrifiLib_upstreamCellContent dummy currTime ID nClients MySlot PayloadLength RoundNo
        LatencyTest dataForDCNet = .ok (false, none) := by
      simp [PrifiLib_upstreamCellContent, hs]
    have h2 : ∃ lat1, Client_upstreamCellContent dummy MsTimeStamp now jitter ID nClients MySlot
        PayloadLength RoundNo lat dataForDCNet = .ok (false, none, lat1) := by
      simp only [Client_upstreamCellContent, hs, Bool.false_eq_true, if_false]
      exact ⟨_, rfl⟩
    refine ⟨by simp [hs, hm], ?_, ?_, fun _ => ⟨h1, h2⟩, fun h => absurd h hm⟩
    · intro out hout
      rw [h1] at hout
      simp only [Except.ok.injEq] at hout
      simp [← hout, hm]
    · intro out hout
      obtain ⟨lat1, h2⟩ := h2
      rw [h2] at hout
      simp only [Except.ok.injEq] at hout
      simp [← hout, hm]

/-- C9 amended, an instance: three clients, the client of slot 1; round 4 is
its own (4 mod 3 = 1), and the data queued for the DC-net is the content. -/
theorem slot_ownership_witness :
    isMySlot 4 3 1 = .ok (decide ((4 : Int) % 3 = 1)) ∧
    PrifiLib_upstreamCellContent [9, 9] 0 1 3 1 16 4 false (some (some [7])) = .ok (true, some [7]) :=
  have h := slot_ownership [9, 9] (fun t => t) 0 0 0 1 3 1 16 4 false ⟨false, 0, 0, []⟩
    (some (some [7])) (by decide) (by decide) (by decide) (by decide)
  ⟨h.1, (h.2.2.2.2 (by decide) (some [7]) rfl).1⟩

theorem recognizeSlotFrom_not_mem {P : Type} [DecidableEq P] (target : P) (l : List P)
    (j mySlot : Int) (h : target ∉ l) : recognizeSlotFrom target l j mySlot = mySlot := by
  induction l generalizing j mySlot with
  | nil => rfl
  | cons k ks ih =>
    have hk : k ≠ target := fun hk => h (by simp [hk])
    have hks : target ∉ ks := fun hm => h (List.mem_cons_of_mem _ hm)
    simp only [recognizeSlotFrom, hk, if_false]
    exact ih _ _ hks

theorem recognizeSlotFrom_mem {P : Type} [DecidableEq P] (target : P) (l : List P)
    (j mySlot : Int) (hnd : l.Nodup) (h : target ∈ l) :
    ∃ i : Nat, i < l.length ∧ l[i]? = some target ∧
      recognizeSlotFrom target l j mySlot = j + i := by
  induction l generalizing j mySlot with
  | nil => simp at h
  | cons k ks ih =>
    rw [List.nodup_cons] at hnd
    by_cases hk : k = target
    · subst hk
      refine ⟨0, by simp, by simp, ?_⟩
      simp only [recognizeSlotFrom, if_true]
      rw [recognizeSlotFrom_not_mem _ _ _ _ hnd.1]
      simp
    · have hks : target ∈ ks := by
        rcases List.mem_cons.1 h with h1 | h1
        · exact absurd h1.symm hk
        · exact h1
      obtain ⟨i, hi, hget, hres⟩ := ih (j + 1) mySlot hnd.2 hks
      refine ⟨i + 1, by simp [hi], by simpa using hget, ?_⟩
      simp only [recognizeSlotFrom, hk, if_false, hres]
      push_cast
      ring

/-- C10. Slot uniqueness. When the shuffled list `EphPks` has pairwise
distinct entries and is a permutation of the `N` clients' re-based ephemeral
keys `eph_c * (G * base)`, the slot-recognition loop gives every client `c` a
slot in `[0, N)` at which `EphPks` holds that client's key, the fallback to the
client's ID is not taken, and two different clients get different slots. -/
theorem slot_uniqueness {S P : Type} [CommRing S] [AddCommGroup P] [Module S P] [DecidableEq P]
    (base : P) (G : S) (N : Nat) (ephPriv : Nat → S) (ID : Nat → Int) (EphPks : List P)
    (hnodup : EphPks.Nodup)
    (hperm : EphPks.Perm
      ((List.range N).map (fun c => PointMul (PointMul base G) (ephPriv c)))) :
    EphPks.length = N ∧
    (∀ c, c < N →
      0 ≤ recognizeSlot base G (ephPriv c) EphPks ∧
      recognizeSlot base G (ephPriv c) EphPks < N ∧
      EphPks[(recognizeSlot base G (ephPriv c) EphPks).toNat]? =
        some (PointMul (PointMul base G) (ephPriv c)) ∧
      assignedSlot (ID c) base G (ephPriv c) EphPks = recognizeSlot base G (ephPriv c) EphPks) ∧
    (∀ c c', c < N → c' < N → c ≠ c' →
      assignedSlot (ID c) base G (ephPriv c) EphPks ≠
        assignedSlot (ID c') base G (ephPriv c') EphPks) := by
  have hlen : EphPks.length = N := by
    rw [hperm.length_eq]
    simp
  have hkey : ∀ c, c < N →
      ∃ i : Nat, i < N ∧ EphPks[i]? = some (PointMul (PointMul base G) (ephPriv c)) ∧
        recognizeSlot base G (ephPriv c) EphPks = i := by
    intro c hc
    have hmem : PointMul (PointMul base G) (ephPriv c) ∈ EphPks := by
      rw [hperm.mem_iff]
      exact List.mem_map.2 ⟨c, List.mem_range.2 hc, rfl⟩
    obtain ⟨i, hi, hget, hres⟩ := recognizeSlotFrom_mem _ EphPks 0 (-1) hnodup hmem
    refine ⟨i, by omega, hget, ?_⟩
    simp only [recognizeSlot, hres]
    simp
  have hslot : ∀ c, c < N →
      assignedSlot (ID c) base G (ephPriv c) EphPks = recognizeSlot base G (ephPriv c) EphPks := by
    intro c hc
    obtain ⟨i, _, _, hres⟩ := hkey c hc
    simp only [assignedSlot, hres]
    rw [if_neg (by omega)]
  have hinj : (List.range N).map (fun c => PointMul (PointMul base G) (ephPriv c)) |>.Nodup :=
    hperm.nodup_iff.1 hnodup
  refine ⟨hlen, ?_, ?_⟩
  · intro c hc
    obtain ⟨i, hi, hget, hres⟩ := hkey c hc
    refine ⟨by omega, by omega, ?_, hslot c hc⟩
    rw [hres]
    simpa using hget
  · intro c c' hc hc' hne heq
    rw [hslot c hc, hslot c' hc'] at heq
    obtain ⟨i, _, hget, hres⟩ := hkey c hc
    obtain ⟨i', _, hget', hres'⟩ := hkey c' hc'
    rw [hres, hres'] at heq
    have hii : i = i' := by omega
    subst hii
    rw [hget] at hget'
    simp only [Option.some.injEq] at hget'
    have := List.inj_on_of_nodup_map hinj (List.mem_range.2 hc) (List.mem_range.2 hc') hget'
    exact hne this

/-- C10, an instance over the integers modulo 11 (base 2, new base 3 * 2):
three clients with ephemeral scalars 1, 4, 5 and the shuffled list
[key 1, key 2, key 0]; the clients find the slots 2, 0, 1. -/
theorem slot_uniqueness_witness :
    recognizeSlot (2 : ZMod 11) (3 : ZMod 11) (demoEphPriv 0) [2, 8, 6] = 2 ∧
    recognizeSlot (2 : ZMod 11) (3 : ZMod 11) (demoEphPriv 1) [2, 8, 6] = 0 ∧
    recognizeSlot (2 : ZMod 11) (3 : ZMod 11) (demoEphPriv 2) [2, 8, 6] = 1 ∧
    (∀ c c' : Nat, c < 3 → c' < 3 → c ≠ c' →
      assignedSlot (c : Int) (2 : ZMod 11) (3 : ZMod 11) (demoEphPriv c) [2, 8, 6] ≠
        assignedSlot (c' : Int) (2 : ZMod 11) (3 : ZMod 11) (demoEphPriv c') [2, 8, 6]) :=
  ⟨by decide, by decide, by decide,
   (slot_uniqueness (2 : ZMod 11) (3 : ZMod 11) 3 demoEphPriv (fun c => (c : Int))
      [2, 8, 6] (by decide) (by decide)).2.2⟩

/-- C13. Wrong-state rejection in prifi-lib/client.go. In any state other than
READY the two downstream handlers, in any state other than INITIALIZING the
handler of the trustees' keys, and in any state other than EPH_KEYS_SENT the
handler of the shuffle result return the wrong-state error and leave the
instance (every field of the client state and the list of messages sent) as it was. -/
theorem wrong_state_rejection {S P C H : Type} [DecidableEq S] [DecidableEq P] [SMul S P] [Add P]
    (env : PrifiLib.Env S P C H) (p : PrifiLib.PriFiLibInstance S P C H)
    (down : PrifiLib.REL_CLI_DOWNSTREAM_DATA) (pks : PrifiLib.REL_CLI_TELL_TRUSTEES_PK P)
    (shuffle : PrifiLib.REL_CLI_TELL_EPH_PKS_AND_TRUSTEES_SIG S P) :
    (p.clientState.currentState ≠ PrifiLib.CLIENT_STATE_READY →
      PrifiLib.Received_REL_CLI_DOWNSTREAM_DATA env p down = .ok (p, some .wrongState) ∧
      PrifiLib.Received_REL_CLI_UDP_DOWNSTREAM_DATA env p down = .ok (p, some .wrongState)) ∧
    (p.clientState.currentState ≠ PrifiLib.CLIENT_STATE_INITIALIZING →
      PrifiLib.Received_REL_CLI_TELL_TRUSTEES_PK env p pks = .ok (p, some .wrongState)) ∧
    (p.clientState.currentState ≠ PrifiLib.CLIENT_STATE_EPH_KEYS_SENT →
      PrifiLib.Received_REL_CLI_TELL_EPH_PKS_AND_TRUSTEES_SIG env p shuffle =
        .ok (p, some .wrongState)) := by
  refine ⟨fun h => ⟨?_, ?_⟩, fun h => ?_, fun h => ?_⟩
  · simp [PrifiLib.Received_REL_CLI_DOWNSTREAM_DATA, h]
  · simp [PrifiLib.Received_REL_CLI_UDP_DOWNSTREAM_DATA, h]
  · simp [PrifiLib.Received_REL_CLI_TELL_TRUSTEES_PK, h]
  · simp [PrifiLib.Received_REL_CLI_TELL_EPH_PKS_AND_TRUSTEES_SIG, h]

/-- C13, an instance: a client that has shut down rejects a downstream frame,
the trustees' keys and a shuffle result, and stays as it was. -/
theorem wrong_state_rejection_witness :
    PrifiLib.Received_REL_CLI_DOWNSTREAM_DATA PrifiLib.demoClientEnv
        ⟨PrifiLib.demoClientState PrifiLib.CLIENT_STATE_SHUTDOWN 1 5, []⟩ ⟨5, [1, 2], [], false⟩ =
      .ok (⟨PrifiLib.demoClientState PrifiLib.CLIENT_STATE_SHUTDOWN 1 5, []⟩, some .wrongState) ∧
    PrifiLib.Received_REL_CLI_TELL_TRUSTEES_PK PrifiLib.demoClientEnv
        ⟨PrifiLib.demoClientState PrifiLib.CLIENT_STATE_SHUTDOWN 1 5, []⟩ ⟨[6]⟩ =
      .ok (⟨PrifiLib.demoClientState PrifiLib.CLIENT_STATE_SHUTDOWN 1 5, []⟩, some .wrongState) ∧
    PrifiLib.Received_REL_CLI_TELL_EPH_PKS_AND_TRUSTEES_SIG PrifiLib.demoClientEnv
        ⟨PrifiLib.demoClientState PrifiLib.CLIENT_STATE_SHUTDOWN 1 5, []⟩ ⟨3, [7, 2], []⟩ =
      .ok (⟨PrifiLib.demoClientState PrifiLib.CLIENT_STATE_SHUTDOWN 1 5, []⟩, some .wrongState) :=
  have h := wrong_state_rejection PrifiLib.demoClientEnv
    ⟨PrifiLib.demoClientState PrifiLib.CLIENT_STATE_SHUTDOWN 1 5, []⟩ ⟨5, [1, 2], [], false⟩ ⟨[6]⟩
    ⟨3, [7, 2], []⟩
  ⟨(h.1 (by decide)).1, h.2.1 (by decide), h.2.2 (by decide)⟩

/-- C14, as stated, fails: a client in state INITIALIZING that receives
parameters without the force flag keeps its state, but the handler returns nil,
not an error. -/
theorem unforced_parameters_counterexample :
    PrifiLib.Received_ALL_CLI_PARAMETERS PrifiLib.demoClientEnv
        ⟨PrifiLib.demoClientState PrifiLib.CLIENT_STATE_INITIALIZING (-1) 0, []⟩
        ⟨false, 0, 1, 2, 16, false, false, false⟩ =
      .ok (⟨PrifiLib.demoClientState PrifiLib.CLIENT_STATE_INITIALIZING (-1) 0, []⟩, none) := by
  decide

/-- C14, amended. A client whose state is not BEFORE_INIT ignores a parameters
message without the force flag: the handler returns nil and leaves the
instance as it was. -/
theorem unforced_parameters_ignored {S P C H : Type} [SMul S P] (env : PrifiLib.Env S P C H)
    (p : PrifiLib.PriFiLibInstance S P C H) (msg : PrifiLib.ALL_ALL_PARAMETERS)
    (hstate : p.clientState.currentState ≠ PrifiLib.CLIENT_STATE_BEFORE_INIT)
    (hforce : msg.ForceParams = false) :
    PrifiLib.Received_ALL_CLI_PARAMETERS env p msg = .ok (p, none) := by
  simp [PrifiLib.Received_ALL_CLI_PARAMETERS, hstate, hforce]

/-- C14 amended, an instance: a ready client ignores un-forced parameters. -/
theorem unforced_parameters_ignored_witness :
    PrifiLib.Received_ALL_CLI_PARAMETERS PrifiLib.demoClientEnv
        ⟨PrifiLib.demoClientState PrifiLib.CLIENT_STATE_READY 1 5, []⟩
        ⟨false, 0, 1, 2, 16, false, false, false⟩ =
      .ok (⟨PrifiLib.demoClientState PrifiLib.CLIENT_STATE_READY 1 5, []⟩, none) :=
  unforced_parameters_ignored PrifiLib.demoClientEnv
    ⟨PrifiLib.demoClientState PrifiLib.CLIENT_STATE_READY 1 5, []⟩
    ⟨false, 0, 1, 2, 16, false, false, false⟩ (by decide) rfl

/-- C15, as stated, fails: a forced parameters message with `NTrustees = -1`
makes `NewClientState` allocate slices of negative length, and the handler
crashes instead of leaving the client in state INITIALIZING. -/
theorem forced_parameters_counterexample :
    PrifiLib.Received_ALL_CLI_PARAMETERS PrifiLib.demoClientEnv
        ⟨PrifiLib.demoClientState PrifiLib.CLIENT_STATE_READY 1 5, []⟩
        ⟨true, 0, -1, 2, 16, false, false, false⟩ = .error .negativeLength := by
  decide

/-- C15, amended. For a parameters message with `NTrustees ≥ 0` that carries
the force flag, or that arrives in state BEFORE_INIT, the handler returns nil
and leaves the client in state INITIALIZING with the ID, the numbers of
clients and trustees, the payload length and the UDP flag of the message,
`RoundNo = 0`, `MySlot = -1` and an empty reorder buffer. -/
theorem forced_parameters_reinitialise {S P C H : Type} [SMul S P] (env : PrifiLib.Env S P C H)
    (p : PrifiLib.PriFiLibInstance S P C H) (msg : PrifiLib.ALL_ALL_PARAMETERS)
    (hforce : msg.ForceParams = true ∨
      p.clientState.currentState = PrifiLib.CLIENT_STATE_BEFORE_INIT)
    (hT : 0 ≤ msg.NTrustees) :
    ∃ p1, PrifiLib.Received_ALL_CLI_PARAMETERS env p msg = .ok (p1, none) ∧
      p1.clientState.currentState = PrifiLib.CLIENT_STATE_INITIALIZING ∧
      p1.clientState.ID = msg.NextFreeClientID ∧
      p1.clientState.nClients = msg.NClients ∧
      p1.clientState.nTrustees = msg.NTrustees ∧
      p1.clientState.PayloadLength = msg.UpCellSize ∧
      p1.clientState.UseUDP = msg.UseUDP ∧
      p1.clientState.RoundNo = 0 ∧
      p1.clientState.MySlot = -1 ∧
      p1.clientState.BufferedRoundData = [] ∧
      p1.sent = p.sent := by
  have hcond : ¬ (p.clientState.currentState ≠ PrifiLib.CLIENT_STATE_BEFORE_INIT ∧
      msg.ForceParams = false) := by
    rintro ⟨h1, h2⟩
    rcases hforce with h | h
    · rw [h] at h2; cases h2
    · exact h1 h
  have hneg : ¬ msg.NTrustees < 0 := by omega
  unfold PrifiLib.Received_ALL_CLI_PARAMETERS
  rw [if_neg hcond]
  simp only [PrifiLib.NewClientState, hneg, if_false]
  exact ⟨_, rfl, rfl, rfl, rfl, rfl, rfl, rfl, rfl, rfl, rfl, rfl⟩

/-- C15 amended, an instance: a ready client (round 5, slot 1) is re-seated by
a forced parameters message for client 0 of 3 clients and 2 trustees. -/
theorem forced_parameters_reinitialise_witness :
    ∃ p1, PrifiLib.Received_ALL_CLI_PARAMETERS PrifiLib.demoClientEnv
        ⟨PrifiLib.demoClientState PrifiLib.CLIENT_STATE_READY 1 5, []⟩
        ⟨true, 0, 2, 3, 32, false, true, false⟩ = .ok (p1, none) ∧
      p1.clientState.currentState = PrifiLib.CLIENT_STATE_INITIALIZING ∧
      p1.clientState.ID = 0 ∧ p1.clientState.nClients = 3 ∧ p1.clientState.nTrustees = 2 ∧
      p1.clientState.PayloadLength = 32 ∧ p1.clientState.UseUDP = true ∧
      p1.clientState.RoundNo = 0 ∧ p1.clientState.MySlot = -1 ∧
      p1.clientState.BufferedRoundData = [] ∧ p1.sent = [] :=
  forced_parameters_reinitialise PrifiLib.demoClientEnv
    ⟨PrifiLib.demoClientState PrifiLib.CLIENT_STATE_READY 1 5, []⟩
    ⟨true, 0, 2, 3, 32, false, true, false⟩ (Or.inl rfl) (by decide)

/-- C16. Unconditional, idempotent shutdown. In both client files the shutdown
handler returns nil from every state and leaves the client in state SHUTDOWN;
handling the message a second time returns nil again and changes nothing. -/
theorem shutdown_unconditional_idempotent {S P C H : Type}
    (p : PrifiLib.PriFiLibInstance S P C H) (q : Client.PriFiLibClientInstance S P C H) :
    (∃ p1, PrifiLib.Received_ALL_CLI_SHUTDOWN p = .ok (p1, none) ∧
      p1.clientState.currentState = PrifiLib.CLIENT_STATE_SHUTDOWN ∧
      PrifiLib.Received_ALL_CLI_SHUTDOWN p1 = .ok (p1, none)) ∧
    (∃ q1, Client.Received_ALL_ALL_SHUTDOWN q = .ok (q1, none) ∧
      q1.stateMachine = "SHUTDOWN" ∧
      Client.Received_ALL_ALL_SHUTDOWN q1 = .ok (q1, none)) :=
  ⟨⟨_, rfl, rfl, rfl⟩, ⟨_, rfl, rfl, rfl⟩⟩

/-- C12, the failing run. The client of prifi-lib/client/client.go has sent
its ephemeral keys; the shuffle result arrives without any signature and
`ClientVerifySigAndRecognizeSlot` reports an error. The handler nevertheless
returns nil, changes the state to READY, stores the slot it was given and
sends the blank upstream cell of round 0 to the relay. -/
theorem signature_failure_accepted :
    Client.demoEnv.ClientVerifySigAndRecognizeSlot (some 4) [some 6] 6 [7, 2] [] =
      (-1, some "invalid signature") ∧
    (∃ p1, Client.Received_REL_CLI_TELL_EPH_PKS_AND_TRUSTEES_SIG Client.demoEnv
        ⟨Client.demoClientState (-1) 3, "EPH_KEYS_SENT", [], []⟩ ⟨6, [7, 2], []⟩ = .ok (p1, none) ∧
      p1.stateMachine = "READY" ∧
      p1.sent = [.CLI_REL_UPSTREAM_DATA 1 0 (List.replicate 16 0)] ∧
      p1.clientState.MySlot = -1 ∧ p1.clientState.RoundNo = 1) :=
  ⟨by decide, _, rfl, by decide, by decide, by decide, by decide⟩

/-- Whatever `ClientVerifySigAndRecognizeSlot` reports, the handler of the
shuffle result in prifi-lib/client/client.go changes the state to READY and
sends an upstream cell (when UDP is not in use). -/
theorem shuffle_result_always_accepted {S P C H : Type} (env : Client.Env S P C H)
    (p : Client.PriFiLibClientInstance S P C H)
    (msg : Client.REL_CLI_TELL_EPH_PKS_AND_TRUSTEES_SIG P) (hudp : p.clientState.UseUDP = false) :
    ∃ p1 cell, Client.Received_REL_CLI_TELL_EPH_PKS_AND_TRUSTEES_SIG env p msg = .ok (p1, none) ∧
      p1.stateMachine = "READY" ∧
      p1.sent = p.sent ++ [.CLI_REL_UPSTREAM_DATA p.clientState.ID 0 cell] := by
  unfold Client.Received_REL_CLI_TELL_EPH_PKS_AND_TRUSTEES_SIG
  simp only [hudp, Bool.false_eq_true, false_and, if_false]
  exact ⟨_, _, rfl, rfl, rfl⟩

/-- C17, the failing runs. After the shutdown handler, and after an in-order
frame with the resync flag, the client still holds its ephemeral key pair, its
shared secrets, its slot, its round counter and its reorder buffer: in both
client files only the state changes. -/
theorem session_material_survives :
    PrifiLib.Received_ALL_CLI_SHUTDOWN ⟨PrifiLib.demoReadyClient, []⟩ =
      .ok (⟨{ PrifiLib.demoReadyClient with currentState := PrifiLib.CLIENT_STATE_SHUTDOWN }, []⟩,
        none) ∧
    PrifiLib.Received_REL_CLI_DOWNSTREAM_DATA PrifiLib.demoClientEnv
        ⟨PrifiLib.demoReadyClient, []⟩ ⟨5, [], [], true⟩ =
      .ok (⟨{ PrifiLib.demoReadyClient with currentState := PrifiLib.CLIENT_STATE_INITIALIZING },
        []⟩, none) ∧
    Client.Received_ALL_ALL_SHUTDOWN ⟨Client.demoReadyClient, "READY", [], []⟩ =
      .ok (⟨Client.demoReadyClient, "SHUTDOWN", [], []⟩, none) ∧
    Client.Received_REL_CLI_DOWNSTREAM_DATA Client.demoEnv 1
        ⟨Client.demoReadyClient, "READY", [], []⟩ ⟨5, [], true, none, 0⟩ =
      .ok (⟨Client.demoReadyClient, "INITIALIZING", [], [⟨5, [], true, none, 0⟩]⟩, none) ∧
    PrifiLib.demoReadyClient.ephemeralPrivateKey = some 4 ∧
    PrifiLib.demoReadyClient.sharedSecrets = [some 4] ∧
    PrifiLib.demoReadyClient.MySlot = 1 ∧ PrifiLib.demoReadyClient.RoundNo = 5 ∧
    PrifiLib.demoReadyClient.BufferedRoundData = [(7, ⟨7, [1, 2], [], false⟩)] := by
  decide

/-- C18, the failing run. A ready client of prifi-lib/client.go with latency
tests on receives the resync frame of its current round 4 whose data is the
three bytes AA AA 01 (capacity 3): the latency test reads `msg.Data[2:4]`
without checking the length and the handler crashes instead of going to
INITIALIZING. With empty data the same frame is handled as the claim says, and
so is it by the client of prifi-lib/client/client.go, which checks the length. -/
theorem resync_crashes_on_short_probe :
    PrifiLib.Received_REL_CLI_DOWNSTREAM_DATA PrifiLib.demoClientEnv
        ⟨{ PrifiLib.demoClientState PrifiLib.CLIENT_STATE_READY 1 4 with LatencyTest := true }, []⟩
        ⟨4, [170, 170, 1], [], true⟩ = .error .indexOutOfRange ∧
    PrifiLib.Received_REL_CLI_DOWNSTREAM_DATA PrifiLib.demoClientEnv
        ⟨{ PrifiLib.demoClientState PrifiLib.CLIENT_STATE_READY 1 4 with LatencyTest := true }, []⟩
        ⟨4, [], [], true⟩ =
      .ok (⟨{ PrifiLib.demoClientState PrifiLib.CLIENT_STATE_INITIALIZING 1 4 with
              LatencyTest := true }, []⟩, none) ∧
    Client.Received_REL_CLI_DOWNSTREAM_DATA Client.demoEnv 1
        ⟨{ Client.demoClientState 1 4 with LatencyTest := ⟨true, 0, 0, []⟩ }, "READY", [], []⟩
        ⟨4, [170, 170, 1], true, none, 0⟩ =
      .ok (⟨{ Client.demoClientState 1 4 with LatencyTest := ⟨true, 0, 0, []⟩ }, "INITIALIZING",
        [], [⟨4, [170, 170, 1], true, none, 0⟩]⟩, none) := by
  decide

/-- C20, the failing run. A ready client of prifi-lib/client.go in round 5
receives the frame of round 7: the test of the buffering branch repeats
`RoundID < RoundNo`, so the frame is neither discarded as old nor stored; the
handlers return nil with the reorder buffer still empty. -/
theorem future_frame_not_buffered :
    PrifiLib.Received_REL_CLI_DOWNSTREAM_DATA PrifiLib.demoClientEnv
        ⟨PrifiLib.demoClientState PrifiLib.CLIENT_STATE_READY 1 5, []⟩ ⟨7, [1, 2], [], false⟩ =
      .ok (⟨PrifiLib.demoClientState PrifiLib.CLIENT_STATE_READY 1 5, []⟩, none) ∧
    PrifiLib.Received_REL_CLI_UDP_DOWNSTREAM_DATA PrifiLib.demoClientEnv
        ⟨PrifiLib.demoClientState PrifiLib.CLIENT_STATE_READY 1 5, []⟩ ⟨7, [1, 2], [], false⟩ =
      .ok (⟨PrifiLib.demoClientState PrifiLib.CLIENT_STATE_READY 1 5, []⟩, none) ∧
    mapLookup (PrifiLib.demoClientState PrifiLib.CLIENT_STATE_READY 1 5).BufferedRoundData 7 = none := by
  decide

/-- In prifi-lib/client.go a frame of a later round is never stored, whatever
the client state: the handlers leave the instance as it was. -/
theorem future_frame_dropped {S P C H : Type} (env : PrifiLib.Env S P C H)
    (p : PrifiLib.PriFiLibInstance S P C H) (msg : PrifiLib.REL_CLI_DOWNSTREAM_DATA)
    (hstate : p.clientState.currentState = PrifiLib.CLIENT_STATE_READY)
    (hlater : p.clientState.RoundNo < msg.RoundID) :
    PrifiLib.Received_REL_CLI_DOWNSTREAM_DATA env p msg = .ok (p, none) ∧
    PrifiLib.Received_REL_CLI_UDP_DOWNSTREAM_DATA env p msg = .ok (p, none) := by
  have h1 : ¬ msg.RoundID = p.clientState.RoundNo := by omega
  have h2 : ¬ msg.RoundID < p.clientState.RoundNo := by omega
  constructor
  · simp [PrifiLib.Received_REL_CLI_DOWNSTREAM_DATA, hstate, h1, h2]
  · simp [PrifiLib.Received_REL_CLI_UDP_DOWNSTREAM_DATA, hstate, h1, h2]

theorem verifyTrusteeSignatures_ok {S P : Type} [DecidableEq S] [SMul S P] [Add P]
    (suite : SchnorrSuite S P Nat) (M : List Nat) (keys : List (Option P))
    (sigs : List (List Nat)) (count j0 : Nat)
    (h : ∀ i, i < count → ∃ pk sig, keys[j0 + i]? = some pk ∧ sigs[j0 + i]? = some sig ∧
      SchnorrVerify suite M (pk.getD suite.Base) sig = none) :
    PrifiLib.verifyTrusteeSignatures suite M keys sigs count j0 = .ok none := by
  induction count generalizing j0 with
  | zero => rfl
  | succ n ih =>
    obtain ⟨pk, sig, hk, hs, hv⟩ := h 0 (by omega)
    simp only [Nat.add_zero] at hk hs
    simp only [PrifiLib.verifyTrusteeSignatures, hk, hs, hv]
    apply ih
    intro i hi
    have := h (i + 1) (by omega)
    rw [show j0 + (i + 1) = j0 + 1 + i by omega] at this
    exact this

theorem recognizeSlotFrom_unique {P : Type} [DecidableEq P] (target : P) (l : List P)
    (j0 mySlot : Int) (j : Nat) (hj : l[j]? = some target)
    (huniq : ∀ i : Nat, l[i]? = some target → i = j) :
    recognizeSlotFrom target l j0 mySlot = j0 + j := by
  induction l generalizing j0 mySlot j with
  | nil => simp at hj
  | cons k ks ih =>
    cases j with
    | zero =>
      simp only [List.getElem?_cons_zero, Option.some.injEq] at hj
      subst hj
      have hnot : k ∉ ks := by
        intro hm
        obtain ⟨i, hi, hget⟩ := List.getElem_of_mem hm
        have := huniq (i + 1) (by simp [List.getElem?_eq_getElem hi, hget])
        omega
      simp only [recognizeSlotFrom, if_true]
      rw [recognizeSlotFrom_not_mem _ _ _ _ hnot]
      simp
    | succ j =>
      have hk : k ≠ target := by
        intro hk
        have := huniq 0 (by simp [hk])
        omega
      simp only [List.getElem?_cons_succ] at hj
      simp only [recognizeSlotFrom, hk, if_false]
      rw [ih (j0 + 1) mySlot j hj (by
        intro i hi
        have := huniq (i + 1) (by simpa using hi)
        omega)]
      push_cast
      ring

/-- C11, as stated, fails. First run: the client's key is at index 1 of the
shuffled list and the trustee's signature verifies; the handler returns nil
with `MySlot = 1` and state READY, but `RoundNo` is 1, not 0: the blank cell of
round 0 has been sent. Second run: the same client uses UDP and has no
broadcast helper; the handler returns an error and the state stays
EPH_KEYS_SENT. -/
theorem degraded_slot_assignment_counterexample :
    (∃ p1, PrifiLib.Received_REL_CLI_TELL_EPH_PKS_AND_TRUSTEES_SIG PrifiLib.demoClientEnv
        ⟨PrifiLib.demoClientState PrifiLib.CLIENT_STATE_EPH_KEYS_SENT (-1) 7, []⟩
        PrifiLib.demoShuffle = .ok (p1, none) ∧
      p1.clientState.MySlot = 1 ∧
      p1.clientState.currentState = PrifiLib.CLIENT_STATE_READY ∧
      p1.clientState.RoundNo = 1 ∧
      p1.sent = [.CLI_REL_UPSTREAM_DATA 1 0 (List.replicate 16 0)]) ∧
    (∃ p1, PrifiLib.Received_REL_CLI_TELL_EPH_PKS_AND_TRUSTEES_SIG PrifiLib.demoClientEnv
        ⟨{ PrifiLib.demoClientState PrifiLib.CLIENT_STATE_EPH_KEYS_SENT (-1) 7 with
            UseUDP := true, StartStopReceiveBroadcast := none }, []⟩
        PrifiLib.demoShuffle = .ok (p1, some .noUdpHelper) ∧
      p1.clientState.currentState = PrifiLib.CLIENT_STATE_EPH_KEYS_SENT ∧
      p1.sent = []) :=
  ⟨⟨_, rfl, by decide, by decide, by decide, by decide⟩,
   ⟨_, rfl, by decide, by decide⟩⟩

/-- C11, amended. A client of prifi-lib/client.go in state EPH_KEYS_SENT that
holds an ephemeral private key, whose trustees' signatures all verify, and
that does not use UDP without a broadcast helper: the handler returns; if
exactly one index `j` of the shuffled list holds the client's re-based
ephemeral key then `MySlot = j`, if no index does then `MySlot` is the
client's ID; the reorder buffer is empty and the state is READY; `RoundNo` has
been reset to 0 and the blank cell of round 0 handed to the relay, after which
`RoundNo` is 1 when the send succeeded (nil is returned) and still 0 when it
failed (an error is returned). -/
theorem degraded_slot_assignment {S P C H : Type} [DecidableEq S] [DecidableEq P] [SMul S P]
    [Add P] (env : PrifiLib.Env S P C H) (p : PrifiLib.PriFiLibInstance S P C H)
    (msg : PrifiLib.REL_CLI_TELL_EPH_PKS_AND_TRUSTEES_SIG S P) (myPrivKey : S)
    (hstate : p.clientState.currentState = PrifiLib.CLIENT_STATE_EPH_KEYS_SENT)
    (hkey : p.clientState.ephemeralPrivateKey = some myPrivKey)
    (hsig : ∀ j : Nat, (j : Int) < p.clientState.nTrustees →
      ∃ pk sig, p.clientState.TrusteePublicKey[j]? = some pk ∧ msg.TrusteesSigs[j]? = some sig ∧
        SchnorrVerify env.suite (PrifiLib.shuffleMessage env msg.Base msg.EphPks)
          (pk.getD env.suite.Base) sig = none)
    (hudp : p.clientState.UseUDP = true → p.clientState.StartStopReceiveBroadcast ≠ none) :
    ∃ p1 err cell,
      PrifiLib.Received_REL_CLI_TELL_EPH_PKS_AND_TRUSTEES_SIG env p msg = .ok (p1, err) ∧
      (∀ j : Nat,
        msg.EphPks[j]? = some (PointMul (PointMul env.suite.Base msg.Base) myPrivKey) →
        (∀ i : Nat,
          msg.EphPks[i]? = some (PointMul (PointMul env.suite.Base msg.Base) myPrivKey) → i = j) →
        p1.clientState.MySlot = j) ∧
      (PointMul (PointMul env.suite.Base msg.Base) myPrivKey ∉ msg.EphPks →
        p1.clientState.MySlot = p.clientState.ID) ∧
      p1.clientState.BufferedRoundData = [] ∧
      p1.clientState.currentState = PrifiLib.CLIENT_STATE_READY ∧
      p1.sent = p.sent ++ [.CLI_REL_UPSTREAM_DATA p.clientState.ID 0 cell] ∧
      ((err = none ∧ p1.clientState.RoundNo = 1) ∨
        (err = some .sendFailed ∧ p1.clientState.RoundNo = 0)) := by
  have hv := verifyTrusteeSignatures_ok env.suite
    (PrifiLib.shuffleMessage env msg.Base msg.EphPks) p.clientState.TrusteePublicKey
    msg.TrusteesSigs p.clientState.nTrustees.toNat 0 (by
      intro i hi
      have := hsig i (by omega)
      simpa using this)
  have hnot : ¬ (p.clientState.UseUDP = true ∧ p.clientState.StartStopReceiveBroadcast = none) :=
    fun h => hudp h.1 h.2
  have hslot1 : ∀ j : Nat,
      msg.EphPks[j]? = some (PointMul (PointMul env.suite.Base msg.Base) myPrivKey) →
      (∀ i : Nat,
        msg.EphPks[i]? = some (PointMul (PointMul env.suite.Base msg.Base) myPrivKey) → i = j) →
      assignedSlot p.clientState.ID env.suite.Base msg.Base myPrivKey msg.EphPks = j := by
    intro j hj huniq
    have := recognizeSlotFrom_unique _ msg.EphPks 0 (-1) j hj huniq
    simp only [assignedSlot, recognizeSlot, this]
    rw [if_neg (by omega)]
    simp
  have hslot2 : PointMul (PointMul env.suite.Base msg.Base) myPrivKey ∉ msg.EphPks →
      assignedSlot p.clientState.ID env.suite.Base msg.Base myPrivKey msg.EphPks =
        p.clientState.ID := by
    intro hn
    simp [assignedSlot, recognizeSlot, recognizeSlotFrom_not_mem _ _ _ _ hn]
  unfold PrifiLib.Received_REL_CLI_TELL_EPH_PKS_AND_TRUSTEES_SIG
  simp only [hstate, ne_eq, not_true_eq_false, if_false, hv, hkey, hnot]
  split
  · exact ⟨_, _, _, rfl, hslot1, hslot2, rfl, rfl, rfl, Or.inr ⟨rfl, rfl⟩⟩
  · exact ⟨_, _, _, rfl, hslot1, hslot2, rfl, rfl, rfl, Or.inl ⟨rfl, rfl⟩⟩

/-- C11 amended, an instance: client 1 of the demonstration finds its key at
index 1 of the shuffled list. -/
theorem degraded_slot_assignment_witness :
    ∃ p1 err cell,
      PrifiLib.Received_REL_CLI_TELL_EPH_PKS_AND_TRUSTEES_SIG PrifiLib.demoClientEnv
        ⟨PrifiLib.demoClientState PrifiLib.CLIENT_STATE_EPH_KEYS_SENT (-1) 7, []⟩
        PrifiLib.demoShuffle = .ok (p1, err) ∧
      p1.clientState.MySlot = 1 ∧
      p1.clientState.BufferedRoundData = [] ∧
      p1.clientState.currentState = PrifiLib.CLIENT_STATE_READY ∧
      p1.sent = [] ++ [.CLI_REL_UPSTREAM_DATA 1 0 cell] :=
  have h := degraded_slot_assignment PrifiLib.demoClientEnv
    ⟨PrifiLib.demoClientState PrifiLib.CLIENT_STATE_EPH_KEYS_SENT (-1) 7, []⟩
    PrifiLib.demoShuffle 4 rfl rfl
    (by
      intro j hj
      have hj0 : j = 0 := by
        have : (j : Int) < 1 := hj
        omega
      subst hj0
      exact ⟨some 6, _, rfl, rfl, by decide⟩)
    (by intro h; cases h)
  match h with
  | ⟨p1, err, cell, h1, h2, _, h4, h5, h6, _⟩ =>
    ⟨p1, err, cell, h1, h2 1 (by decide) (by
      intro i hi
      match i, hi with
      | 1, _ => rfl
      | 0, hi => exact absurd hi (by decide)
      | (n + 2), hi => simp [PrifiLib.demoShuffle] at hi), h4, h5, h6⟩

/-! ### In-order processing of downstream frames (prifi-lib/client/client.go) -/

theorem mapDelete_length_le {α : Type} (m : List (Int × α)) (k : Int) :
    (mapDelete m k).length ≤ m.length := by
  unfold mapDelete
  exact List.length_filter_le _ _

theorem mapInsert_length_le {α : Type} (m : List (Int × α)) (k : Int) (v : α) :
    (mapInsert m k v).length ≤ m.length + 1 := by
  have := mapDelete_length_le m k
  simp only [mapInsert, List.length_cons]
  omega

theorem mapLookup_mapDelete_ne {α : Type} (m : List (Int × α)) (k k' : Int) (hne : k ≠ k') :
    mapLookup (mapDelete m k') k = mapLookup m k := by
  induction m with
  | nil => rfl
  | cons e rest ih =>
    by_cases h1 : e.1 = k'
    · have h2 : ¬ e.1 = k := fun h => hne (h ▸ h1)
      have hd : mapDelete (e :: rest) k' = mapDelete rest k' := by
        simp [mapDelete, h1]
      rw [hd, ih]
      simp [mapLookup, h2]
    · have hd : mapDelete (e :: rest) k' = e :: mapDelete rest k' := by
        simp [mapDelete, h1]
      rw [hd]
      simp only [mapLookup, ih]

theorem mapDelete_length_lt {α : Type} (m : List (Int × α)) (k : Int) (v : α)
    (h : mapLookup m k = some v) : (mapDelete m k).length + 1 ≤ m.length := by
  induction m with
  | nil => simp [mapLookup] at h
  | cons e rest ih =>
    by_cases h1 : e.1 = k
    · have hd : mapDelete (e :: rest) k = mapDelete rest k := by
        simp [mapDelete, h1]
      have := mapDelete_length_le rest k
      rw [hd]
      simp only [List.length_cons]
      omega
    · have hd : mapDelete (e :: rest) k = e :: mapDelete rest k := by
        simp [mapDelete, h1]
      simp only [mapLookup, h1, if_false] at h
      have := ih h
      rw [hd]
      simp only [List.length_cons]
      omega

theorem wrapInt32_idem (i : Int) : wrapInt32 (wrapInt32 i) = wrapInt32 i := by
  unfold wrapInt32
  omega

theorem wrapInt32_succ_pred (i : Int) : wrapInt32 (wrapInt32 (i + 1) - 1) = wrapInt32 i := by
  unfold wrapInt32
  omega

theorem wrapInt32_pred_ne (i : Int) : i ≠ wrapInt32 (i - 1) := by
  unfold wrapInt32
  omega

theorem Client_upstreamCellContent_fuel (dummy : List Nat) (MsTimeStamp : Int → Int)
    (now jitter ID nClients MySlot PayloadLength RoundNo : Int) (lat : LatencyTests)
    (dataForDCNet : Option (Option (List Nat))) :
    Client_upstreamCellContent dummy MsTimeStamp now jitter ID nClients MySlot PayloadLength
      RoundNo lat dataForDCNet ≠ .error .outOfFuel := by
  intro h
  unfold Client_upstreamCellContent isMySlot at h
  simp only [] at h
  split at h
  · rename_i c hc
    split at hc
    · cases hc
      cases h
    · cases hc
  · split_ifs at h
    all_goals first
      | cases h
      | (split at h <;> cases h)

theorem Client.downstream_keeps_round {S P C H : Type} (env : Client.Env S P C H)
    (cs : Client.ClientState S P C H) (msg : Client.REL_CLI_DOWNSTREAM_DATA) :
    (Client.handleDownstreamData env (Client.processHash env cs msg) msg).RoundNo = cs.RoundNo ∧
    (Client.handleDownstreamData env (Client.processHash env cs msg) msg).BufferedRoundData =
      cs.BufferedRoundData := by
  have h1 : (Client.processHash env cs msg).RoundNo = cs.RoundNo ∧
      (Client.processHash env cs msg).BufferedRoundData = cs.BufferedRoundData := by
    unfold Client.processHash
    split
    · exact ⟨rfl, rfl⟩
    · split
      · exact ⟨rfl, rfl⟩
      · split <;> exact ⟨rfl, rfl⟩
  have h2 : ∀ cs0 : Client.ClientState S P C H,
      (Client.handleDownstreamData env cs0 msg).RoundNo = cs0.RoundNo ∧
      (Client.handleDownstreamData env cs0 msg).BufferedRoundData = cs0.BufferedRoundData := by
    intro cs0
    unfold Client.handleDownstreamData
    simp only []
    split_ifs <;> exact ⟨rfl, rfl⟩
  exact ⟨(h2 _).1.trans h1.1, (h2 _).2.trans h1.2⟩

/-- What a returning `SendUpstreamData` did with the round state: the frame of
the round before was dropped from the buffer, the round counter moved on by
one, and the handler was called on the buffered frame of the new round, if
there was one. -/
theorem Client.SendUpstreamData_ok {S P C H : Type} (env : Client.Env S P C H)
    (recv : Client.PriFiLibClientInstance S P C H → Client.REL_CLI_DOWNSTREAM_DATA →
      Except Crash (Client.PriFiLibClientInstance S P C H × Option Client.ClientError))
    (p p1 : Client.PriFiLibClientInstance S P C H) (e : Option Client.ClientError)
    (h : Client.SendUpstreamData env recv p = .ok (p1, e)) :
    ∃ p3 : Client.PriFiLibClientInstance S P C H,
      ((p1 = p3 ∧ mapLookup p3.clientState.BufferedRoundData p3.clientState.RoundNo = none) ∨
        ∃ msg e2, recv p3 msg = .ok (p1, e2) ∧
          mapLookup p3.clientState.BufferedRoundData p3.clientState.RoundNo = some msg) ∧
      p3.processed = p.processed ∧
      p3.clientState.RoundNo = wrapInt32 (p.clientState.RoundNo + 1) ∧
      p3.clientState.BufferedRoundData =
        mapDelete p.clientState.BufferedRoundData (wrapInt32 (p.clientState.RoundNo - 1)) := by
  unfold Client.SendUpstreamData at h
  simp only [] at h
  split at h
  · cases h
  · rename_i mine content lat1 hc
    by_cases hb : p.clientState.BlameStarted = true
    · simp only [hb, if_true] at h
      split at h
      · rename_i msg hl
        split at h
        · cases h
        · rename_i p4 e2 hr
          cases h
          exact ⟨_, Or.inr ⟨msg, e2, hr, hl⟩, rfl, rfl, rfl⟩
      · rename_i hl
        cases h
        exact ⟨_, Or.inl ⟨rfl, hl⟩, rfl, rfl, rfl⟩
    · simp only [hb, if_false] at h
      split at h
      · rename_i msg hl
        split at h
        · cases h
        · rename_i p4 e2 hr
          cases h
          exact ⟨_, Or.inr ⟨msg, e2, hr, hl⟩, rfl, rfl, rfl⟩
      · rename_i hl
        cases h
        exact ⟨_, Or.inl ⟨rfl, hl⟩, rfl, rfl, rfl⟩

/-- A crash of `SendUpstreamData` comes from the choice of the upstream content
or from the call of the handler on the buffered frame of the new round. -/
theorem Client.SendUpstreamData_error {S P C H : Type} (env : Client.Env S P C H)
    (recv : Client.PriFiLibClientInstance S P C H → Client.REL_CLI_DOWNSTREAM_DATA →
      Except Crash (Client.PriFiLibClientInstance S P C H × Option Client.ClientError))
    (p : Client.PriFiLibClientInstance S P C H) (c : Crash)
    (h : Client.SendUpstreamData env recv p = .error c) :
    c ≠ Crash.outOfFuel ∨
    ∃ (p3 : Client.PriFiLibClientInstance S P C H) (msg : Client.REL_CLI_DOWNSTREAM_DATA),
      recv p3 msg = .error c ∧
      mapLookup p3.clientState.BufferedRoundData p3.clientState.RoundNo = some msg ∧
      p3.clientState.RoundNo = wrapInt32 (p.clientState.RoundNo + 1) ∧
      p3.clientState.BufferedRoundData =
        mapDelete p.clientState.BufferedRoundData (wrapInt32 (p.clientState.RoundNo - 1)) := by
  unfold Client.SendUpstreamData at h
  simp only [] at h
  split at h
  · rename_i c1 hc
    cases h
    refine Or.inl ?_
    intro hf
    subst hf
    exact Client_upstreamCellContent_fuel _ _ _ _ _ _ _ _ _ _ _ hc
  · rename_i mine content lat1 hc
    by_cases hb : p.clientState.BlameStarted = true
    · simp only [hb, if_true] at h
      split at h
      · rename_i msg hl
        split at h
        · rename_i c2 hr
          cases h
          exact Or.inr ⟨_, msg, hr, hl, rfl, rfl⟩
        · cases h
      · cases h
    · simp only [hb, if_false] at h
      split at h
      · rename_i msg hl
        split at h
        · rename_i c2 hr
          cases h
          exact Or.inr ⟨_, msg, hr, hl, rfl, rfl⟩
        · cases h
      · cases h

/-- One delivery: the frames processed during the call are, one after the
other, of the round the client is in, and the buffer grows by one entry at most. -/
theorem Client.Received_trace {S P C H : Type} (env : Client.Env S P C H) (fuel : Nat) :
    ∀ (p p1 : Client.PriFiLibClientInstance S P C H) (msg : Client.REL_CLI_DOWNSTREAM_DATA)
      (e : Option Client.ClientError),
      Client.Received_REL_CLI_DOWNSTREAM_DATA env fuel p msg = .ok (p1, e) →
      ∃ new, p1.processed = p.processed ++ new ∧
        Client.roundAfter p.clientState.RoundNo new = some p1.clientState.RoundNo ∧
        p1.clientState.BufferedRoundData.length ≤ p.clientState.BufferedRoundData.length + 1 ∧
        (msg.RoundID = p.clientState.RoundNo → ∃ rest, new = msg :: rest) := by
  induction fuel with
  | zero =>
    intro p p1 msg e h
    simp [Client.Received_REL_CLI_DOWNSTREAM_DATA] at h
  | succ fuel ih =>
    intro p p1 msg e h
    unfold Client.Received_REL_CLI_DOWNSTREAM_DATA at h
    by_cases heq : msg.RoundID = p.clientState.RoundNo
    · simp only [heq, if_true] at h
      unfold Client.ProcessDownStreamData at h
      simp only [] at h
      have hk := Client.downstream_keeps_round env p.clientState msg
      by_cases hr : msg.FlagResync = true
      · simp only [hr, if_true] at h
        cases h
        refine ⟨[msg], rfl, ?_, ?_, fun _ => ⟨[], rfl⟩⟩
        · simp only [Client.roundAfter, heq, if_true, hr, Client.ChangeState]
          rw [hk.1]
        · simp only [Client.ChangeState]
          rw [hk.2]
          omega
      · simp only [hr, if_false] at h
        obtain ⟨p3, hcase, hproc, hround, hbuf⟩ := Client.SendUpstreamData_ok env _ _ _ _ h
        simp only [hk.1, hk.2] at hround hbuf
        have hlen := mapDelete_length_le p.clientState.BufferedRoundData
          (wrapInt32 (p.clientState.RoundNo - 1))
        rcases hcase with ⟨hp, _⟩ | ⟨m2, e2, hrecv, _⟩
        · subst hp
          refine ⟨[msg], hproc, ?_, ?_, fun _ => ⟨[], rfl⟩⟩
          · simp only [Client.roundAfter, heq, if_true, hr, hround]
            simp
          · rw [hbuf]
            omega
        · obtain ⟨new, hn1, hn2, hn3, _⟩ := ih p3 p1 m2 e2 hrecv
          refine ⟨msg :: new, ?_, ?_, ?_, fun _ => ⟨new, rfl⟩⟩
          · rw [hn1, hproc]
            simp
          · simp only [Client.roundAfter, heq, if_true, hr]
            rw [← hround]
            simpa using hn2
          · rw [hbuf] at hn3
            omega
    · simp only [heq, if_false] at h
      by_cases hlt : msg.RoundID < p.clientState.RoundNo
      · simp only [hlt, if_true] at h
        cases h
        exact ⟨[], by simp, rfl, by omega, fun h0 => absurd h0 heq⟩
      · simp only [hlt, if_false] at h
        by_cases hgt : msg.RoundID > p.clientState.RoundNo
        · simp only [hgt, if_true] at h
          cases h
          exact ⟨[], by simp, rfl, mapInsert_length_le _ _ _, fun h0 => absurd h0 heq⟩
        · simp only [hgt, if_false] at h
          cases h
          exact ⟨[], by simp, rfl, by omega, fun h0 => absurd h0 heq⟩

/-- A call on a buffered frame: when the round counter is an `int32` value and
the buffer has an entry for it, as many calls as the buffer has entries apart
from the one of the round before are enough. -/
theorem Client.Received_fuel_inner {S P C H : Type} (env : Client.Env S P C H) (fuel : Nat) :
    ∀ (p : Client.PriFiLibClientInstance S P C H) (msg v : Client.REL_CLI_DOWNSTREAM_DATA),
      wrapInt32 p.clientState.RoundNo = p.clientState.RoundNo →
      mapLookup p.clientState.BufferedRoundData p.clientState.RoundNo = some v →
      (mapDelete p.clientState.BufferedRoundData
        (wrapInt32 (p.clientState.RoundNo - 1))).length + 1 ≤ fuel →
      Client.Received_REL_CLI_DOWNSTREAM_DATA env fuel p msg ≠ .error .outOfFuel := by
  induction fuel with
  | zero =>
    intro p msg v _ _ hf
    omega
  | succ fuel ih =>
    intro p msg v hw hv hf h
    unfold Client.Received_REL_CLI_DOWNSTREAM_DATA at h
    split_ifs at h with heq
    unfold Client.ProcessDownStreamData at h
    simp only [] at h
    have hk := Client.downstream_keeps_round env p.clientState msg
    split_ifs at h with hr
    rcases Client.SendUpstreamData_error env _ _ _ h with hc | ⟨p3, m2, hrecv, hl, hround, hbuf⟩
    · exact hc rfl
    · simp only [hk.1, hk.2] at hround hbuf
      refine ih p3 m2 m2 ?_ hl ?_ hrecv
      · rw [hround]
        exact wrapInt32_idem _
      · rw [hround, hbuf, wrapInt32_succ_pred, hw]
        have h1 : mapLookup (mapDelete p.clientState.BufferedRoundData
            (wrapInt32 (p.clientState.RoundNo - 1))) p.clientState.RoundNo = some v := by
          rw [mapLookup_mapDelete_ne _ _ _ (wrapInt32_pred_ne _)]
          exact hv
        have := mapDelete_length_lt _ _ _ h1
        omega

/-- One delivery never exceeds a call depth of the size of the buffer plus two. -/
theorem Client.Received_fuel {S P C H : Type} (env : Client.Env S P C H) (fuel : Nat)
    (p : Client.PriFiLibClientInstance S P C H) (msg : Client.REL_CLI_DOWNSTREAM_DATA)
    (hf : p.clientState.BufferedRoundData.length + 2 ≤ fuel) :
    Client.Received_REL_CLI_DOWNSTREAM_DATA env fuel p msg ≠ .error .outOfFuel := by
  intro h
  obtain ⟨fuel, rfl⟩ : ∃ f, fuel = f + 1 := ⟨fuel - 1, by omega⟩
  unfold Client.Received_REL_CLI_DOWNSTREAM_DATA at h
  split_ifs at h with heq
  unfold Client.ProcessDownStreamData at h
  simp only [] at h
  have hk := Client.downstream_keeps_round env p.clientState msg
  split_ifs at h with hr
  rcases Client.SendUpstreamData_error env _ _ _ h with hc | ⟨p3, m2, hrecv, hl, hround, hbuf⟩
  · exact hc rfl
  · simp only [hk.1, hk.2] at hround hbuf
    refine Client.Received_fuel_inner env fuel p3 m2 m2 ?_ hl ?_ hrecv
    · rw [hround]
      exact wrapInt32_idem _
    · have h1 := mapDelete_length_le p3.clientState.BufferedRoundData
        (wrapInt32 (p3.clientState.RoundNo - 1))
      have h2 := mapDelete_length_le p.clientState.BufferedRoundData
        (wrapInt32 (p.clientState.RoundNo - 1))
      rw [hbuf] at h1 ⊢
      omega

theorem Client.roundAfter_append (a b : List Client.REL_CLI_DOWNSTREAM_DATA) :
    ∀ r : Int, Client.roundAfter r (a ++ b) =
      (Client.roundAfter r a).bind (fun r1 => Client.roundAfter r1 b) := by
  induction a with
  | nil =>
    intro r
    rfl
  | cons m rest ih =>
    intro r
    by_cases h : m.RoundID = r
    · simp only [List.cons_append, Client.roundAfter, h, if_true]
      exact ih _
    · simp [Client.roundAfter, h]

/-- Without a resync flag and below the end of the `int32` range, the frames
of such a list are of consecutive rounds. -/
theorem Client.roundAfter_consecutive (new : List Client.REL_CLI_DOWNSTREAM_DATA) :
    ∀ r r1 : Int, Client.roundAfter r new = some r1 →
      (∀ m ∈ new, m.FlagResync = false) →
      -2147483648 ≤ r → r + new.length < 2147483648 →
      ∀ (i : Nat) (m : Client.REL_CLI_DOWNSTREAM_DATA), new[i]? = some m → m.RoundID = r + i := by
  induction new with
  | nil =>
    intro r r1 _ _ _ _ i m hi
    simp at hi
  | cons m0 rest ih =>
    intro r r1 h hres hlo hhi i m hi
    have hr0 : m0.FlagResync = false := hres m0 (List.mem_cons_self _ _)
    have hlen : ((m0 :: rest).length : Int) = rest.length + 1 := by simp
    by_cases heq : m0.RoundID = r
    · simp only [Client.roundAfter, heq, if_true, hr0] at h
      have hw : wrapInt32 (r + 1) = r + 1 := by
        unfold wrapInt32
        omega
      cases i with
      | zero =>
        simp only [List.getElem?_cons_zero, Option.some.injEq] at hi
        subst hi
        simpa using heq
      | succ i =>
        simp only [List.getElem?_cons_succ] at hi
        have hfalse : (if false = true then r else wrapInt32 (r + 1)) = r + 1 := by
          simp [hw]
        rw [hfalse] at h
        have := ih (r + 1) r1 h (fun m hm => hres m (List.mem_cons_of_mem _ hm)) (by omega)
          (by omega) i m hi
        rw [this]
        push_cast
        omega
    · simp [Client.roundAfter, heq] at h

/-- A whole sequence of deliveries: the call depth is never exceeded, the frames
processed are each of the round the client is in, and each delivery adds at
most one entry to the buffer. -/
theorem Client.deliver_trace {S P C H : Type} (env : Client.Env S P C H) (fuel : Nat)
    (frames : List Client.REL_CLI_DOWNSTREAM_DATA) :
    ∀ p : Client.PriFiLibClientInstance S P C H,
      p.clientState.BufferedRoundData.length + frames.length + 2 ≤ fuel →
      Client.deliver env fuel p frames ≠ .error .outOfFuel ∧
      ∀ p1, Client.deliver env fuel p frames = .ok p1 →
        ∃ new, p1.processed = p.processed ++ new ∧
          Client.roundAfter p.clientState.RoundNo new = some p1.clientState.RoundNo := by
  induction frames with
  | nil =>
    intro p _
    refine ⟨by simp [Client.deliver], ?_⟩
    intro p1 h
    simp only [Client.deliver, Except.ok.injEq] at h
    subst h
    exact ⟨[], by simp, rfl⟩
  | cons msg rest ih =>
    intro p hf
    simp only [List.length_cons] at hf
    have hfuel := Client.Received_fuel env fuel p msg (by omega)
    unfold Client.deliver
    cases hrec : Client.Received_REL_CLI_DOWNSTREAM_DATA env fuel p msg with
    | error c =>
      simp only []
      refine ⟨?_, fun p1 h => by cases h⟩
      intro h
      cases h
      exact hfuel hrec
    | ok r =>
      obtain ⟨p2, e⟩ := r
      simp only []
      obtain ⟨new, hn1, hn2, hn3, _⟩ := Client.Received_trace env fuel p p2 msg e hrec
      obtain ⟨ih1, ih2⟩ := ih p2 (by omega)
      refine ⟨ih1, ?_⟩
      intro p1 h
      obtain ⟨new2, hm1, hm2⟩ := ih2 p1 h
      refine ⟨new ++ new2, ?_, ?_⟩
      · rw [hm1, hn1, List.append_assoc]
      · rw [Client.roundAfter_append, hn2]
        exact hm2

/-- A frame buffered for the next round is processed in the same call as the
frame of the current round that carries no resync flag. -/
theorem Client.buffered_frame_processed {S P C H : Type} (env : Client.Env S P C H) (fuel : Nat)
    (p p1 : Client.PriFiLibClientInstance S P C H) (msg m2 : Client.REL_CLI_DOWNSTREAM_DATA)
    (e : Option Client.ClientError)
    (heq : msg.RoundID = p.clientState.RoundNo) (hr : msg.FlagResync = false)
    (hl : mapLookup p.clientState.BufferedRoundData (wrapInt32 (p.clientState.RoundNo + 1)) =
      some m2)
    (hm2 : m2.RoundID = wrapInt32 (p.clientState.RoundNo + 1))
    (h : Client.Received_REL_CLI_DOWNSTREAM_DATA env fuel p msg = .ok (p1, e)) :
    ∃ rest, p1.processed = p.processed ++ msg :: m2 :: rest := by
  cases fuel with
  | zero => simp [Client.Received_REL_CLI_DOWNSTREAM_DATA] at h
  | succ fuel =>
    unfold Client.Received_REL_CLI_DOWNSTREAM_DATA at h
    simp only [heq, if_true] at h
    unfold Client.ProcessDownStreamData at h
    simp only [hr, Bool.false_eq_true, if_false] at h
    have hk := Client.downstream_keeps_round env p.clientState msg
    obtain ⟨p3, hcase, hproc, hround, hbuf⟩ := Client.SendUpstreamData_ok env _ _ _ _ h
    simp only [hk.1, hk.2] at hround hbuf
    have hne : wrapInt32 (p.clientState.RoundNo + 1) ≠ wrapInt32 (p.clientState.RoundNo - 1) := by
      unfold wrapInt32
      omega
    have hl3 : mapLookup p3.clientState.BufferedRoundData p3.clientState.RoundNo = some m2 := by
      rw [hround, hbuf, mapLookup_mapDelete_ne _ _ _ hne]
      exact hl
    rcases hcase with ⟨_, hnone⟩ | ⟨m3, e2, hrecv, hsome⟩
    · rw [hl3] at hnone
      cases hnone
    · rw [hl3] at hsome
      cases hsome
      obtain ⟨new, hn1, _, _, hhead⟩ := Client.Received_trace env fuel p3 p1 m2 e2 hrecv
      obtain ⟨rest, hrest⟩ := hhead (by rw [hm2, hround])
      refine ⟨rest, ?_⟩
      rw [hn1, hproc, hrest]
      simp

/-- C19, as stated, fails: a client of prifi-lib/client/client.go in round 0
that is delivered a frame of round 0 with the resync flag and then a frame of
round 0 without it processes both, so the round ids of the processed frames
are 0, 0 and not strictly increasing; and at the end of the `int32` range the
frame processed after the one of round 2147483647 is the one of round
-2147483648. -/
theorem in_order_processing_counterexample :
    (∃ p1, Client.deliver Client.demoEnv 3 ⟨Client.demoClientState 1 0, "READY", [], []⟩
        [⟨0, [], true, none, 0⟩, ⟨0, [], false, none, 0⟩] = .ok p1 ∧
      p1.processed.map (fun m => m.RoundID) = [0, 0] ∧
      p1.clientState.RoundNo = 1) ∧
    (∃ p1, Client.deliver Client.demoEnv 3 ⟨Client.demoClientState 1 2147483647, "READY", [], []⟩
        [⟨2147483647, [], false, none, 0⟩, ⟨-2147483648, [], false, none, 0⟩] = .ok p1 ∧
      p1.processed.map (fun m => m.RoundID) = [2147483647, -2147483648] ∧
      p1.clientState.RoundNo = -2147483647) :=
  ⟨⟨_, rfl, by decide, by decide⟩, ⟨_, rfl, by decide, by decide⟩⟩

/-- C19, amended. In prifi-lib/client/client.go, for every finite sequence of
downstream frames delivered to `Received_REL_CLI_DOWNSTREAM_DATA` in any order,
with a call depth of the size of the reorder buffer plus the number of frames
plus two: the run never exceeds the call depth; when it returns, the frames
passed to `ProcessDownStreamData` are each of the round the client is in at
that moment, a processed frame without `FlagResync` moving `RoundNo` on by one
in `int32` arithmetic and one with `FlagResync` leaving it, so that the
processed round ids are consecutive, hence strictly increasing, whenever none
of the processed frames carries `FlagResync` and `RoundNo` stays below 2^31;
a frame with `RoundID < RoundNo` is discarded leaving the state unchanged; and
a frame buffered for the round after the current one is processed in the same
call as the frame of the current round that carries no `FlagResync`. -/
theorem in_order_processing {S P C H : Type} (env : Client.Env S P C H) (fuel : Nat)
    (p : Client.PriFiLibClientInstance S P C H) (frames : List Client.REL_CLI_DOWNSTREAM_DATA)
    (hfuel : p.clientState.BufferedRoundData.length + frames.length + 2 ≤ fuel) :
    Client.deliver env fuel p frames ≠ .error .outOfFuel ∧
    (∀ p1, Client.deliver env fuel p frames = .ok p1 →
      ∃ new, p1.processed = p.processed ++ new ∧
        Client.roundAfter p.clientState.RoundNo new = some p1.clientState.RoundNo ∧
        ((∀ m ∈ new, m.FlagResync = false) → -2147483648 ≤ p.clientState.RoundNo →
          p.clientState.RoundNo + new.length < 2147483648 →
          ∀ (i : Nat) (m : Client.REL_CLI_DOWNSTREAM_DATA),
            new[i]? = some m → m.RoundID = p.clientState.RoundNo + i)) ∧
    (∀ msg : Client.REL_CLI_DOWNSTREAM_DATA, msg.RoundID < p.clientState.RoundNo →
      Client.Received_REL_CLI_DOWNSTREAM_DATA env fuel p msg = .ok (p, none)) ∧
    (∀ (msg m2 : Client.REL_CLI_DOWNSTREAM_DATA) (p1 : Client.PriFiLibClientInstance S P C H)
      (e : Option Client.ClientError),
      msg.RoundID = p.clientState.RoundNo → msg.FlagResync = false →
      mapLookup p.clientState.BufferedRoundData (wrapInt32 (p.clientState.RoundNo + 1)) =
        some m2 →
      m2.RoundID = wrapInt32 (p.clientState.RoundNo + 1) →
      Client.Received_REL_CLI_DOWNSTREAM_DATA env fuel p msg = .ok (p1, e) →
      ∃ rest, p1.processed = p.processed ++ msg :: m2 :: rest) := by
  obtain ⟨h1, h2⟩ := Client.deliver_trace env fuel frames p hfuel
  refine ⟨h1, ?_, ?_, ?_⟩
  · intro p1 h
    obtain ⟨new, hn1, hn2⟩ := h2 p1 h
    exact ⟨new, hn1, hn2, fun hres hlo hhi =>
      Client.roundAfter_consecutive new _ _ hn2 hres hlo hhi⟩
  · intro msg hlt
    obtain ⟨f, rfl⟩ : ∃ f, fuel = f + 1 := ⟨fuel - 1, by omega⟩
    have hne : ¬ msg.RoundID = p.clientState.RoundNo := by omega
    simp [Client.Received_REL_CLI_DOWNSTREAM_DATA, hne, hlt]
  · intro msg m2 p1 e heq hr hl hm2 h
    exact Client.buffered_frame_processed env fuel p p1 msg m2 e heq hr hl hm2 h

/-- C19 amended, an instance: the frame of round 1 arrives before the frame of
round 0; the run returns and the frames are processed in the order 0, 1. -/
theorem in_order_processing_witness :
    (Client.demoClientState 1 0).BufferedRoundData.length + 2 + 2 ≤ 4 ∧
    (∃ p1, Client.deliver Client.demoEnv 4 ⟨Client.demoClientState 1 0, "READY", [], []⟩
        [⟨1, [], false, none, 0⟩, ⟨0, [], false, none, 0⟩] = .ok p1 ∧
      p1.processed.map (fun m => m.RoundID) = [0, 1]) ∧
    Client.deliver Client.demoEnv 4 ⟨Client.demoClientState 1 0, "READY", [], []⟩
      [⟨1, [], false, none, 0⟩, ⟨0, [], false, none, 0⟩] ≠ .error .outOfFuel :=
  ⟨by decide, ⟨_, rfl, by decide⟩,
    (in_order_processing Client.demoEnv 4 ⟨Client.demoClientState 1 0, "READY", [], []⟩
      [⟨1, [], false, none, 0⟩, ⟨0, [], false, none, 0⟩] (by decide)).1⟩

/-! ### Parameter validation (prifi-lib/client/client.go) -/

/-- C21, as stated, fails: a parameters message with `UpstreamCellSize = 8`
(one trustee, two clients, the simple coder) passes the sanity checks; the
handler returns nil and moves the client to INITIALIZING with a payload length
of 8. -/
theorem parameter_validation_counterexample :
    ∃ p1, Client.Received_ALL_ALL_PARAMETERS Client.demoParametersEnv
        ⟨Client.demoClientState (-1) 0, "BEFORE_INIT", [], []⟩
        (⟨[("NextFreeClientID", 1), ("NTrustees", 1), ("NClients", 2), ("UpstreamCellSize", 8)],
          [], [("DCNetType", "Simple")]⟩ : Client.DemoParameters) = .ok (p1, none) ∧
      p1.stateMachine = "INITIALIZING" ∧ p1.clientState.PayloadLength = 8 :=
  ⟨_, rfl, by decide, by decide⟩

/-- C21, amended. In prifi-lib/client/client.go, for every parameters message
whose resulting values have `NTrustees < 1`, `NClients < 1` or
`UpstreamCellSize < 1`, the handler returns a non-nil error and leaves the
client (its state machine included) as it was. -/
theorem parameter_validation {S P C H M : Type} (penv : Client.ParametersEnv M C H)
    (p : Client.PriFiLibClientInstance S P C H) (msg : M)
    (h : penv.IntValueOrElse msg "NTrustees" p.clientState.nTrustees < 1 ∨
      penv.IntValueOrElse msg "NClients" p.clientState.nClients < 1 ∨
      penv.IntValueOrElse msg "UpstreamCellSize" p.clientState.PayloadLength < 1) :
    Client.Received_ALL_ALL_PARAMETERS penv p msg = .ok (p, some .badParameter) := by
  unfold Client.Received_ALL_ALL_PARAMETERS
  simp only []
  split_ifs <;> first | rfl | omega

/-- C21 amended, an instance: a message with no trustee is rejected. -/
theorem parameter_validation_witness :
    Client.Received_ALL_ALL_PARAMETERS Client.demoParametersEnv
        ⟨Client.demoClientState (-1) 0, "BEFORE_INIT", [], []⟩
        (⟨[("NextFreeClientID", 1), ("NTrustees", 0), ("NClients", 2), ("UpstreamCellSize", 16)],
          [], [("DCNetType", "Simple")]⟩ : Client.DemoParameters) =
      .ok (⟨Client.demoClientState (-1) 0, "BEFORE_INIT", [], []⟩, some .badParameter) :=
  parameter_validation Client.demoParametersEnv _ _ (Or.inl (by decide))

/-! ### The wire format of a key list (net/helpers.go) -/

theorem bigEndian_length (width v : Nat) : (bigEndian width v).length = width := by
  induction width with
  | zero => rfl
  | succ w ih => simp [bigEndian, ih]

theorem copyAt_fresh (width : Nat) (src : List Nat) (h : src.length = width) :
    copyAt (makeBytes width) 0 src = src := by
  simp [copyAt, copyInto, makeBytes, h]

theorem bigEndian_mod (width v : Nat) : bigEndian width (v % 256 ^ width) = bigEndian width v := by
  have key : ∀ w k v, w ≤ k → bigEndian w (v % 256 ^ k) = bigEndian w v := by
    intro w
    induction w with
    | zero => intros; rfl
    | succ w ih =>
      intro k v hk
      simp only [bigEndian]
      rw [ih k v (by omega)]
      congr 1
      obtain ⟨d, rfl⟩ : ∃ d, k = w + 1 + d := ⟨k - (w + 1), by omega⟩
      have e1 : 256 ^ (w + 1 + d) = 256 ^ w * (256 * 256 ^ d) := by ring
      rw [e1, Nat.mod_mul_right_div_self, Nat.mod_mod_of_dvd _ (dvd_mul_right 256 _)]
  exact key width width v le_rfl

theorem beUint_bigEndian_four (v : Nat) (h : v < 4294967296) : beUint (bigEndian 4 v) = v := by
  simp only [beUint, bigEndian, List.foldl]
  omega

theorem beUint_bigEndian_two (v : Nat) (h : v < 65536) : beUint (bigEndian 2 v) = v := by
  simp only [beUint, bigEndian, List.foldl]
  omega

theorem Net.marshalKeysLoop_eq {P : Type} (MarshalBinary : P → Option (List Nat)) :
    ∀ (keys : List P) (forms : List (List Nat)) (byteArray : List Nat),
      keys.map MarshalBinary = forms.map some →
      Net.marshalKeysLoop MarshalBinary keys byteArray =
        .ok (byteArray ++ (forms.map (fun form => bigEndian 4 form.length ++ form)).flatten) := by
  intro keys
  induction keys with
  | nil =>
    intro forms byteArray h
    cases forms with
    | nil => simp [Net.marshalKeysLoop]
    | cons f fs => simp at h
  | cons key rest ih =>
    intro forms byteArray h
    cases forms with
    | nil => simp at h
    | cons f fs =>
      simp only [List.map_cons, List.cons.injEq] at h
      obtain ⟨h1, h2⟩ := h
      simp only [Net.marshalKeysLoop, h1]
      rw [ih fs _ h2]
      have e : (4294967296 : Nat) = 256 ^ 4 := by norm_num
      rw [e, bigEndian_mod, copyAt_fresh 4 _ (bigEndian_length 4 _)]
      simp [List.append_assoc]

/-- C22. Key-list wire format. For keys that all have a marshalled form,
`MarshalPublicKeyArrayToByteArray` returns the message type 2 on four bytes in
big-endian order followed, for each key in list order, by the length of its
marshalled form on four bytes in big-endian order and that form, and nothing
else; a length below 2^32 is read back from its four bytes. -/
theorem key_list_wire_format {P : Type} (MarshalBinary : P → Option (List Nat))
    (keys : List P) (forms : List (List Nat))
    (hforms : keys.map MarshalBinary = forms.map some)
    (hlen : ∀ form ∈ forms, form.length < 4294967296) :
    Net.MarshalPublicKeyArrayToByteArray MarshalBinary keys = .ok (Net.keyListWireFormat forms) ∧
    Net.keyListWireFormat forms =
      [0, 0, 0, 2] ++ (forms.map (fun form => bigEndian 4 form.length ++ form)).flatten ∧
    ∀ form ∈ forms, beUint (bigEndian 4 form.length) = form.length := by
  refine ⟨?_, rfl, fun form hf => beUint_bigEndian_four _ (hlen form hf)⟩
  unfold Net.MarshalPublicKeyArrayToByteArray
  simp only []
  rw [Net.marshalKeysLoop_eq MarshalBinary keys forms _ hforms]
  rfl

/-- C22, an instance: two keys marshalled to one and two bytes. -/
theorem key_list_wire_format_witness :
    Net.MarshalPublicKeyArrayToByteArray (fun k : Nat => some (List.replicate k 7)) [1, 2] =
      .ok [0, 0, 0, 2, 0, 0, 0, 1, 7, 0, 0, 0, 2, 7, 7] :=
  (key_list_wire_format (fun k : Nat => some (List.replicate k 7)) [1, 2] [[7], [7, 7]] rfl
    (by decide)).1

/-! ### The round loop of the relay (dissent/relay.go) -/

theorem copyAt_append (pre rest src : List Nat) (h : src.length ≤ rest.length) :
    copyAt (pre ++ rest) pre.length src = pre ++ src ++ rest.drop src.length := by
  simp [copyAt, copyInto, List.take_of_length_le h]

theorem Relay.downstreamFrame_eq (c : Int) (data : List Nat) (hc0 : 0 ≤ c) (hc : c < 4294967296)
    (hlen : data.length ≤ 65535) :
    Relay.downstreamFrame ⟨c, data⟩ = bigEndian 4 c.toNat ++ bigEndian 2 data.length ++ data := by
  have h1 : c % 4294967296 = c := Int.emod_eq_of_lt hc0 hc
  have h2 : data.length % 65536 = data.length := Nat.mod_eq_of_lt (by omega)
  have e0 : makeBytes (6 + data.length) = [] ++ makeBytes (6 + data.length) := rfl
  have s1 := copyAt_append [] (makeBytes (6 + data.length)) (bigEndian 4 c.toNat)
    (by rw [bigEndian_length, makeBytes_length]; omega)
  have d1 : (makeBytes (6 + data.length)).drop (bigEndian 4 c.toNat).length =
      makeBytes (2 + data.length) := by
    rw [bigEndian_length]
    simp only [makeBytes, List.drop_replicate]
    congr 1
    omega
  have s2 := copyAt_append (bigEndian 4 c.toNat) (makeBytes (2 + data.length))
    (bigEndian 2 data.length) (by rw [bigEndian_length, makeBytes_length]; omega)
  have d2 : (makeBytes (2 + data.length)).drop (bigEndian 2 data.length).length =
      makeBytes data.length := by
    rw [bigEndian_length]
    simp only [makeBytes, List.drop_replicate]
    congr 1
    omega
  have s3 := copyAt_append (bigEndian 4 c.toNat ++ bigEndian 2 data.length) (makeBytes data.length)
    data (by rw [makeBytes_length])
  simp only [List.length_append, bigEndian_length, List.length_nil, List.nil_append] at s1 s2 s3
  rw [bigEndian_length] at d1 d2
  unfold Relay.downstreamFrame
  simp only [h1, h2]
  have s3' : copyAt (bigEndian 4 c.toNat ++ bigEndian 2 data.length ++ makeBytes data.length) 6
      data = bigEndian 4 c.toNat ++ bigEndian 2 data.length ++ data ++
        List.drop data.length (makeBytes data.length) := s3
  rw [s1, d1, s2, d2, s3']
  simp [makeBytes]

theorem Relay.broadcastLoop_eq (frame : List Nat) (written : Nat → Int) :
    ∀ (remaining i : Nat) (log log1 : List (Nat × List Nat)),
      Relay.broadcastLoop frame written remaining i log = .ok log1 →
      log1 = log ++ (List.range' i remaining).map (fun j => (j, frame)) := by
  intro remaining
  induction remaining with
  | zero =>
    intro i log log1 h
    simp only [Relay.broadcastLoop, Except.ok.injEq] at h
    simp [h]
  | succ k ih =>
    intro i log log1 h
    unfold Relay.broadcastLoop at h
    split_ifs at h
    rw [ih _ _ _ h]
    simp [List.range'_succ]

/-- The shape of an iteration that does not crash: either the loop is left
with the state as it was, or the frame has been written to the clients and
`inflight` has gone up by one, and then, unless it is still below the window,
a round has been decoded and `inflight` has gone down by one. -/
theorem Relay.iteration_ok (cfg : Relay.Config) (inp : Relay.RoundInput)
    (st st1 : Relay.RoundLoop) (goesOn : Bool)
    (h : Relay.iteration cfg inp st = .ok (st1, goesOn)) :
    (inp.report = false ∧ st1 = st ∧ goesOn = false) ∨
    (inp.report = true ∧ goesOn = true ∧
      Relay.broadcastLoop (Relay.downstreamFrame (inp.downbuffer.getD ⟨0, []⟩)) inp.written
        cfg.nClients.toNat 0 st.broadcast = .ok st1.broadcast ∧
      ((wrapInt64 (st.inflight + 1) < Relay.window ∧
          st1.inflight = wrapInt64 (st.inflight + 1) ∧
          st1.inflightTrace = st.inflightTrace ++ [wrapInt64 (st.inflight + 1)] ∧
          st1.decodedAt = st.decodedAt ∧ st1.conns = st.conns) ∨
        (¬ wrapInt64 (st.inflight + 1) < Relay.window ∧
          st1.inflight = wrapInt64 (wrapInt64 (st.inflight + 1) - 1) ∧
          st1.inflightTrace = st.inflightTrace ++
            [wrapInt64 (st.inflight + 1), wrapInt64 (wrapInt64 (st.inflight + 1) - 1)] ∧
          st1.decodedAt = st.decodedAt ++ [wrapInt64 (st.inflight + 1)]))) := by
  unfold Relay.iteration at h
  by_cases hr : inp.report = true
  · simp only [hr, Bool.not_true, Bool.false_eq_true, if_false] at h
    split at h
    · cases h
    · rename_i log hlog
      refine Or.inr ⟨hr, ?_⟩
      by_cases hw : wrapInt64 (st.inflight + 1) < Relay.window
      · simp only [hw, if_true] at h
        cases h
        exact ⟨rfl, hlog, Or.inl ⟨hw, rfl, rfl, rfl, rfl⟩⟩
      · simp only [hw, if_false] at h
        split at h
        · cases h
        · split at h
          · cases h
          · split at h
            · cases h
              exact ⟨rfl, hlog, Or.inr ⟨hw, rfl, by simp, rfl⟩⟩
            · split at h
              · cases h
              · cases h
                exact ⟨rfl, hlog, Or.inr ⟨hw, rfl, by simp, rfl⟩⟩
  · have hr0 : inp.report = false := by simpa using hr
    simp only [hr0, Bool.not_false, if_true] at h
    cases h
    exact Or.inl ⟨hr0, rfl, rfl⟩

/-- C23. Downstream frame framing. For a downstream buffer with a connection
id in the `u32` range and at most 65535 bytes of data, the frame built by the
relay loop has length 6 + len(data) and is the connection id on four bytes in
big-endian order, the length of the data on two bytes in big-endian order,
and the data; an iteration that does not crash has written exactly this frame
once to every client connection, in the order of the clients; for the empty
default buffer the frame is six zero bytes. -/
theorem downstream_frame_framing (cfg : Relay.Config) (inp : Relay.RoundInput)
    (st st1 : Relay.RoundLoop) (goesOn : Bool) (c : Int) (data : List Nat)
    (hbuf : inp.downbuffer.getD ⟨0, []⟩ = ⟨c, data⟩)
    (hc0 : 0 ≤ c) (hc : c < 4294967296) (hlen : data.length ≤ 65535)
    (hreport : inp.report = true)
    (hrun : Relay.iteration cfg inp st = .ok (st1, goesOn)) :
    Relay.downstreamFrame ⟨c, data⟩ = bigEndian 4 c.toNat ++ bigEndian 2 data.length ++ data ∧
    (Relay.downstreamFrame ⟨c, data⟩).length = 6 + data.length ∧
    beUint (bigEndian 4 c.toNat) = c.toNat ∧ beUint (bigEndian 2 data.length) = data.length ∧
    st1.broadcast = st.broadcast ++
      (List.range cfg.nClients.toNat).map (fun i => (i, Relay.downstreamFrame ⟨c, data⟩)) ∧
    Relay.downstreamFrame ⟨0, []⟩ = [0, 0, 0, 0, 0, 0] := by
  have hframe := Relay.downstreamFrame_eq c data hc0 hc hlen
  refine ⟨hframe, ?_, beUint_bigEndian_four _ (by omega), beUint_bigEndian_two _ (by omega), ?_,
    by decide⟩
  · rw [hframe]
    simp only [List.length_append, bigEndian_length]
  · rcases Relay.iteration_ok cfg inp st st1 goesOn hrun with ⟨h0, _, _⟩ | ⟨_, _, hb, _⟩
    · rw [hreport] at h0
      cases h0
    · rw [hbuf] at hb
      rw [Relay.broadcastLoop_eq _ _ _ _ _ _ hb, List.range_eq_range']

/-- C23, an instance: the buffer of connection 258 with the data 9, 8, 7 is
framed as 00 00 01 02 00 03 09 08 07 and written to both clients. -/
theorem downstream_frame_framing_witness :
    Relay.downstreamFrame ⟨258, [9, 8, 7]⟩ = [0, 0, 1, 2, 0, 3, 9, 8, 7] ∧
    (∃ st1, Relay.iteration Relay.demoConfig
        (Relay.demoInput Relay.demoConfig (some ⟨258, [9, 8, 7]⟩) none) Relay.initial =
          .ok (st1, true) ∧
      st1.broadcast = [(0, [0, 0, 1, 2, 0, 3, 9, 8, 7]), (1, [0, 0, 1, 2, 0, 3, 9, 8, 7])]) :=
  have h := downstream_frame_framing Relay.demoConfig
    (Relay.demoInput Relay.demoConfig (some ⟨258, [9, 8, 7]⟩) none) Relay.initial
    ⟨[], 1, [(0, [0, 0, 1, 2, 0, 3, 9, 8, 7]), (1, [0, 0, 1, 2, 0, 3, 9, 8, 7])], 0, 0, 1, 3, [1], []⟩
    true 258 [9, 8, 7] rfl (by decide) (by decide) (by decide) rfl (by decide)
  ⟨h.1, _, by decide, h.2.2.2.2.1⟩

theorem mapLookup_mapInsert_self {α : Type} (m : List (Int × α)) (k : Int) (v : α) :
    mapLookup (mapInsert m k v) k = some v := by
  simp [mapInsert, mapLookup]

theorem mapLookup_mapInsert_ne {α : Type} (m : List (Int × α)) (k k1 : Int) (v : α)
    (h : k1 ≠ k) : mapLookup (mapInsert m k v) k1 = mapLookup m k1 := by
  have h2 : ¬ k = k1 := fun e => h e.symm
  simp only [mapInsert, mapLookup, h2, if_false]
  exact mapLookup_mapDelete_ne m k1 k h

/-- C24. Upstream slot dispatch. For a decoded plaintext of the payload length
L ≥ 6, with `c` the big-endian number of bytes 0..3 and `n` that of bytes
4..5: if `c = 0` the map of connections is left as it was; if `c ≠ 0` and
`6 + n ≤ L` exactly the bytes `plaintext[6 : 6+n]` are sent to the consumer
keyed by `c` and the other consumers receive nothing; if `c ≠ 0` and
`6 + n > L` no consumer receives anything. -/
theorem upstream_slot_dispatch (payloadLength : Int) (conns : List (Int × List (List Nat)))
    (plaintext : List Nat) (hL : (plaintext.length : Int) = payloadLength)
    (h6 : 6 ≤ plaintext.length) :
    ((beUint (plaintext.take 4) : Int) = 0 →
      Relay.dispatchUpstream payloadLength conns plaintext = .ok conns) ∧
    ((beUint (plaintext.take 4) : Int) ≠ 0 →
      6 + beUint ((plaintext.drop 4).take 2) ≤ plaintext.length →
      ∃ conns1, Relay.dispatchUpstream payloadLength conns plaintext = .ok conns1 ∧
        mapLookup conns1 (beUint (plaintext.take 4)) =
          some ((mapLookup conns (beUint (plaintext.take 4))).getD [] ++
            [(plaintext.drop 6).take (beUint ((plaintext.drop 4).take 2))]) ∧
        ∀ k : Int, k ≠ beUint (plaintext.take 4) → mapLookup conns1 k = mapLookup conns k) ∧
    ((beUint (plaintext.take 4) : Int) ≠ 0 →
      6 + beUint ((plaintext.drop 4).take 2) > plaintext.length →
      ∃ conns1, Relay.dispatchUpstream payloadLength conns plaintext = .ok conns1 ∧
        ∀ k : Int, (mapLookup conns1 k).getD [] = (mapLookup conns k).getD []) := by
  have hs1 : sliceBytes plaintext [] 0 4 = .ok (plaintext.take 4) := by
    simp [sliceBytes]
    omega
  have hs2 : sliceBytes plaintext [] 4 6 = .ok ((plaintext.drop 4).take 2) := by
    simp [sliceBytes]
    omega
  have hne : ¬ (plaintext.length : Int) ≠ payloadLength := by simp [hL]
  refine ⟨?_, ?_, ?_⟩
  · intro hc
    unfold Relay.dispatchUpstream
    simp only [hne, if_false, hs1, hs2, hc, if_true]
  · intro hc hn
    have hn1 : ¬ (6 + (beUint ((plaintext.drop 4).take 2) : Int) > payloadLength) := by
      rw [← hL]
      omega
    have hs3 : sliceBytes plaintext [] 6 (6 + ((beUint ((plaintext.drop 4).take 2) : Nat) : Int).toNat) =
        .ok ((plaintext.drop 6).take (beUint ((plaintext.drop 4).take 2))) := by
      simp [sliceBytes]
      omega
    unfold Relay.dispatchUpstream
    simp only [hne, if_false, hs1, hs2, hc, hn1, hs3]
    refine ⟨_, rfl, mapLookup_mapInsert_self _ _ _, ?_⟩
    intro k hk
    rw [mapLookup_mapInsert_ne _ _ _ _ hk]
    split
    · exact mapLookup_mapInsert_ne _ _ _ _ hk
    · rfl
  · intro hc hn
    have hn1 : 6 + (beUint ((plaintext.drop 4).take 2) : Int) > payloadLength := by
      rw [← hL]
      omega
    unfold Relay.dispatchUpstream
    simp only [hne, if_false, hs1, hs2, hc, hn1, if_true]
    refine ⟨_, rfl, ?_⟩
    intro k
    split
    · rename_i hnone
      by_cases hk : k = beUint (plaintext.take 4)
      · subst hk
        rw [mapLookup_mapInsert_self, hnone]
        rfl
      · rw [mapLookup_mapInsert_ne _ _ _ _ hk]
    · rfl

/-- C24, an instance: in a cell of 16 bytes for connection 258 carrying the
three bytes 9, 8, 7, these are sent to the consumer of connection 258. -/
theorem upstream_slot_dispatch_witness :
    ∃ conns1, Relay.dispatchUpstream 16 [] [0, 0, 1, 2, 0, 3, 9, 8, 7, 0, 0, 0, 0, 0, 0, 0] =
        .ok conns1 ∧
      mapLookup conns1 258 = some ([] ++ [[9, 8, 7]]) :=
  have h := (upstream_slot_dispatch 16 [] [0, 0, 1, 2, 0, 3, 9, 8, 7, 0, 0, 0, 0, 0, 0, 0] rfl
    (by decide)).2.1 (by decide) (by decide)
  match h with
  | ⟨conns1, h1, h2, _⟩ => ⟨conns1, h1, h2⟩

theorem Relay.iteration_window (cfg : Relay.Config) (inp : Relay.RoundInput)
    (st st1 : Relay.RoundLoop) (goesOn : Bool)
    (h : Relay.iteration cfg inp st = .ok (st1, goesOn))
    (h0 : 0 ≤ st.inflight) (h1 : st.inflight < Relay.window)
    (ht : ∀ v ∈ st.inflightTrace, 0 ≤ v ∧ v ≤ Relay.window)
    (hd : ∀ v ∈ st.decodedAt, v = Relay.window) :
    0 ≤ st1.inflight ∧ st1.inflight < Relay.window ∧
    (∀ v ∈ st1.inflightTrace, 0 ≤ v ∧ v ≤ Relay.window) ∧
    (∀ v ∈ st1.decodedAt, v = Relay.window) := by
  have hw : wrapInt64 (st.inflight + 1) = st.inflight + 1 := by
    unfold wrapInt64
    unfold Relay.window at h1
    omega
  have hw2 : wrapInt64 (st.inflight + 1 - 1) = st.inflight := by
    unfold wrapInt64
    unfold Relay.window at h1
    omega
  rcases Relay.iteration_ok cfg inp st st1 goesOn h with ⟨_, hst, _⟩ | ⟨_, _, _, hcase⟩
  · subst hst
    exact ⟨h0, h1, ht, hd⟩
  · rw [hw, hw2] at hcase
    unfold Relay.window at *
    rcases hcase with ⟨hlt, hi, htr, hde, _⟩ | ⟨hge, hi, htr, hde⟩
    · refine ⟨by omega, by omega, ?_, by rw [hde]; exact hd⟩
      intro v hv
      rw [htr, List.mem_append, List.mem_singleton] at hv
      rcases hv with hv | hv
      · exact ht v hv
      · omega
    · refine ⟨by omega, by omega, ?_, ?_⟩
      · intro v hv
        rw [htr] at hv
        simp only [List.mem_append, List.mem_cons, List.mem_singleton, List.not_mem_nil,
          or_false] at hv
        rcases hv with hv | hv | hv
        · exact ht v hv
        · omega
        · omega
      · intro v hv
        rw [hde, List.mem_append, List.mem_singleton] at hv
        rcases hv with hv | hv
        · exact hd v hv
        · omega

theorem Relay.roundLoop_window (cfg : Relay.Config) (inputs : List Relay.RoundInput) :
    ∀ (st st1 : Relay.RoundLoop), Relay.roundLoop cfg inputs st = .ok st1 →
      0 ≤ st.inflight → st.inflight < Relay.window →
      (∀ v ∈ st.inflightTrace, 0 ≤ v ∧ v ≤ Relay.window) →
      (∀ v ∈ st.decodedAt, v = Relay.window) →
      0 ≤ st1.inflight ∧ st1.inflight < Relay.window ∧
      (∀ v ∈ st1.inflightTrace, 0 ≤ v ∧ v ≤ Relay.window) ∧
      (∀ v ∈ st1.decodedAt, v = Relay.window) := by
  induction inputs with
  | nil =>
    intro st st1 h h0 h1 ht hd
    simp only [Relay.roundLoop, Except.ok.injEq] at h
    subst h
    exact ⟨h0, h1, ht, hd⟩
  | cons inp rest ih =>
    intro st st1 h h0 h1 ht hd
    unfold Relay.roundLoop at h
    cases hit : Relay.iteration cfg inp st with
    | error c =>
      rw [hit] at h
      cases h
    | ok r =>
      obtain ⟨st2, goesOn⟩ := r
      rw [hit] at h
      obtain ⟨g0, g1, gt, gd⟩ := Relay.iteration_window cfg inp st st2 goesOn hit h0 h1 ht hd
      cases goesOn with
      | true =>
        simp only [if_true] at h
        exact ih st2 st1 h g0 g1 gt gd
      | false =>
        simp only [Bool.false_eq_true, if_false, Except.ok.injEq] at h
        subst h
        exact ⟨g0, g1, gt, gd⟩

/-- C25. Window bound. In every state the round loop of the relay reaches from
its entry (`inflight = 0`, window 2): every value `inflight` has taken lies
between 0 and the window, between two iterations it is below the window (so
that the increment of the next iteration does not exceed it), and whenever a
round was decoded `inflight` was equal to the window. -/
theorem window_bound (cfg : Relay.Config) (inputs : List Relay.RoundInput) (st : Relay.RoundLoop)
    (hrun : Relay.roundLoop cfg inputs Relay.initial = .ok st) :
    Relay.window = 2 ∧
    (∀ v ∈ st.inflightTrace, 0 ≤ v ∧ v ≤ Relay.window) ∧
    0 ≤ st.inflight ∧ st.inflight < Relay.window ∧
    wrapInt64 (st.inflight + 1) ≤ Relay.window ∧
    (∀ v ∈ st.decodedAt, v = Relay.window) := by
  obtain ⟨h0, h1, ht, hd⟩ := Relay.roundLoop_window cfg inputs Relay.initial st hrun
    (by decide) (by decide) (by intro v hv; cases hv) (by intro v hv; cases hv)
  refine ⟨rfl, ht, h0, h1, ?_, hd⟩
  unfold wrapInt64
  unfold Relay.window at *
  omega

/-- C25, an instance: five iterations with complete writes and reads; four
rounds are decoded, each with two cells in flight. -/
theorem window_bound_witness :
    ∃ st, Relay.roundLoop Relay.demoConfig
        (List.replicate 5 (Relay.demoInput Relay.demoConfig none none)) Relay.initial = .ok st ∧
      st.inflightTrace = [1, 2, 1, 2, 1, 2, 1, 2, 1] ∧ st.decodedAt = [2, 2, 2, 2] ∧
      (∀ v ∈ st.inflightTrace, 0 ≤ v ∧ v ≤ Relay.window) :=
  ⟨_, rfl, by decide, by decide,
    (window_bound Relay.demoConfig (List.replicate 5 (Relay.demoInput Relay.demoConfig none none))
      _ rfl).2.1⟩

/-! ### The latency-probe payload (prifi-lib/client/client.go) -/

theorem copyAt_zeros (pre src : List Nat) (m : Nat) (h : src.length ≤ m) :
    copyAt (pre ++ makeBytes m) pre.length src = pre ++ src ++ makeBytes (m - src.length) := by
  rw [copyAt_append pre (makeBytes m) src (by rw [makeBytes_length]; exact h)]
  simp [makeBytes, List.drop_replicate]

/-- The packing loop on a buffer that is zero from `posInBuffer` on: the
records of the first tests that fit are written one after the other. -/
theorem packLatencyMessages_eq (MsTimeStamp : Int → Int) (ID RoundNo : Int) (L : Nat) :
    ∀ (tests : List Int) (pre : List Nat) (m : Nat), pre.length + m = L →
      packLatencyMessages MsTimeStamp ID RoundNo L tests pre.length (pre ++ makeBytes m) =
        (pre ++ ((tests.take (min tests.length (m / 14))).map (fun createdAt =>
            bigEndian 2 (ID % 65536).toNat ++
            bigEndian 8 (MsTimeStamp createdAt % 18446744073709551616).toNat ++
            bigEndian 4 (RoundNo % 4294967296).toNat)).flatten ++
          makeBytes (m - 14 * min tests.length (m / 14)),
         tests.drop (min tests.length (m / 14))) := by
  intro tests
  induction tests with
  | nil =>
    intro pre m _
    simp [packLatencyMessages]
  | cons t rest ih =>
    intro pre m hm
    unfold packLatencyMessages
    by_cases hfit : pre.length + 14 ≤ L
    · have h14 : 14 ≤ m := by omega
      have hrec : (bigEndian 2 (ID % 65536).toNat ++
          bigEndian 8 (MsTimeStamp t % 18446744073709551616).toNat ++
          bigEndian 4 (RoundNo % 4294967296).toNat).length = 14 := by
        simp [bigEndian_length]
      have hk : min (t :: rest).length (m / 14) = min rest.length ((m - 14) / 14) + 1 := by
        simp only [List.length_cons]
        omega
      simp only [hfit, if_true]
      have hc := copyAt_zeros pre _ m (by rw [hrec]; exact h14)
      rw [hrec] at hc
      rw [hc]
      have hpre : pre.length + 14 = (pre ++ (bigEndian 2 (ID % 65536).toNat ++
          bigEndian 8 (MsTimeStamp t % 18446744073709551616).toNat ++
          bigEndian 4 (RoundNo % 4294967296).toNat)).length := by
        rw [List.length_append, hrec]
      rw [hpre, ih _ (m - 14) (by rw [List.length_append, hrec]; omega), hk]
      have e1 : m - 14 - 14 * min rest.length ((m - 14) / 14) =
          m - 14 * (min rest.length ((m - 14) / 14) + 1) := by omega
      simp only [List.take_succ_cons, List.map_cons, List.flatten_cons, List.drop_succ_cons,
        List.append_assoc, e1]
    · have h14 : m / 14 = 0 := by
        apply Nat.div_eq_of_lt
        omega
      simp [hfit, h14]

/-- C26, as stated, fails: with a payload length of 32 and two pending latency
tests the content built for the client's own round carries the pattern AA AA
once, at the start; the second record begins at byte 16 with the client id
(00 01), not with the pattern, and the records are 14 bytes long. -/
theorem latency_probe_format_counterexample :
    Client_upstreamCellContent [0, 0, 0, 0] (fun t => t) 1000 0 1 2 1 32 5 ⟨false, 0, 0, [100, 200]⟩
        none =
      .ok (true,
        some [170, 170, 0, 1, 0, 0, 0, 0, 0, 0, 0, 100, 0, 0, 0, 5,
              0, 1, 0, 0, 0, 0, 0, 0, 0, 200, 0, 0, 0, 5, 0, 0],
        ⟨false, 0, 0, []⟩) ∧
    (([170, 170, 0, 1, 0, 0, 0, 0, 0, 0, 0, 100, 0, 0, 0, 5,
       0, 1, 0, 0, 0, 0, 0, 0, 0, 200, 0, 0, 0, 5, 0, 0] : List Nat).drop 16).take 2 ≠
      bigEndian 2 43690 := by
  decide

/-- C26, amended. For a client with payload length L ≥ 16 that owns the round,
has no data queued and has at least one pending latency test, the upstream
content built by `SendUpstreamData` has length L and consists of the
big-endian u16 0xAAAA once, followed by one 14-byte record (u16 client id,
u64 millisecond timestamp, u32 current round) for each of the first pending
tests, as many as fit in the L - 2 bytes after the pattern, and zero bytes
after them; the tests written are removed from the pending ones. -/
theorem latency_probe_format (dummy : List Nat) (MsTimeStamp : Int → Int)
    (now jitter ID nClients MySlot PayloadLength RoundNo : Int) (lat : LatencyTests)
    (hL : 16 ≤ PayloadLength) (hmine : isMySlot RoundNo nClients MySlot = .ok true)
    (hpending : (scheduleLatencyTest lat now jitter).LatencyTestsToSend ≠ []) :
    ∃ content lat1,
      Client_upstreamCellContent dummy MsTimeStamp now jitter ID nClients MySlot PayloadLength
        RoundNo lat none = .ok (true, some content, lat1) ∧
      content.length = PayloadLength.toNat ∧
      content = bigEndian 2 43690 ++
        (((scheduleLatencyTest lat now jitter).LatencyTestsToSend.take
            (min (scheduleLatencyTest lat now jitter).LatencyTestsToSend.length
              ((PayloadLength.toNat - 2) / 14))).map (fun createdAt =>
          bigEndian 2 (ID % 65536).toNat ++
          bigEndian 8 (MsTimeStamp createdAt % 18446744073709551616).toNat ++
          bigEndian 4 (RoundNo % 4294967296).toNat)).flatten ++
        makeBytes (PayloadLength.toNat - 2 - 14 *
          min (scheduleLatencyTest lat now jitter).LatencyTestsToSend.length
            ((PayloadLength.toNat - 2) / 14)) ∧
      lat1.LatencyTestsToSend = (scheduleLatencyTest lat now jitter).LatencyTestsToSend.drop
        (min (scheduleLatencyTest lat now jitter).LatencyTestsToSend.length
          ((PayloadLength.toNat - 2) / 14)) := by
  have hpos : (scheduleLatencyTest lat now jitter).LatencyTestsToSend.length > 0 :=
    List.length_pos.mpr hpending
  have hnot : ¬ PayloadLength < 16 := by omega
  have hbuf : copyAt (makeBytes PayloadLength.toNat) 0 (bigEndian 2 43690) =
      bigEndian 2 43690 ++ makeBytes (PayloadLength.toNat - 2) := by
    have h := copyAt_zeros [] (bigEndian 2 43690) PayloadLength.toNat
      (by rw [bigEndian_length]; omega)
    simpa [bigEndian_length] using h
  have hpack := packLatencyMessages_eq MsTimeStamp ID RoundNo PayloadLength.toNat
    (scheduleLatencyTest lat now jitter).LatencyTestsToSend (bigEndian 2 43690)
    (PayloadLength.toNat - 2) (by rw [bigEndian_length]; omega)
  rw [bigEndian_length] at hpack
  unfold Client_upstreamCellContent
  simp only [hmine, if_true, hpos, hnot, if_false, hbuf, hpack]
  refine ⟨_, _, rfl, ?_, rfl, rfl⟩
  have hrecs : ∀ tests : List Int, ((tests.map (fun createdAt =>
      bigEndian 2 (ID % 65536).toNat ++
      bigEndian 8 (MsTimeStamp createdAt % 18446744073709551616).toNat ++
      bigEndian 4 (RoundNo % 4294967296).toNat)).flatten).length = 14 * tests.length := by
    intro tests
    induction tests with
    | nil => rfl
    | cons t rest ih =>
      simp only [List.map_cons, List.flatten_cons, List.length_append, ih, bigEndian_length,
        List.length_cons]
      omega
  simp only [List.length_append, bigEndian_length, hrecs, makeBytes_length, List.length_take]
  have hk : 14 * ((PayloadLength.toNat - 2) / 14) ≤ PayloadLength.toNat - 2 :=
    Nat.mul_div_le _ _
  omega

/-- C26 amended, an instance: payload length 16 and one pending test created
at time 100, for client 1 in round 5. -/
theorem latency_probe_format_witness :
    ∃ content lat1, Client_upstreamCellContent [0, 0, 0, 0] (fun t => t) 1000 0 1 2 1 16 5
        ⟨false, 0, 0, [100]⟩ none = .ok (true, some content, lat1) ∧
      content = [170, 170, 0, 1, 0, 0, 0, 0, 0, 0, 0, 100, 0, 0, 0, 5] :=
  match latency_probe_format [0, 0, 0, 0] (fun t => t) 1000 0 1 2 1 16 5 ⟨false, 0, 0, [100]⟩
      (by decide) (by decide) (by decide) with
  | ⟨content, lat1, h1, _, h3, _⟩ => ⟨content, lat1, h1, h3.trans (by decide)⟩

/-! ### The owner's payload bound under equivocation protection (prifi-lib/dcnet/dcnet.go) -/

theorem discardRounds_history {Pt : Type} (env : Env Pt) (roundID : Int) (fuel : Nat)
    (e : DCNetEntity Pt) :
    (discardRounds env roundID fuel e).equivocationProtection = e.equivocationProtection := by
  induction fuel generalizing e with
  | zero => simp [discardRounds]
  | succ n ih =>
    simp only [discardRounds]
    split
    · have := ih { e with
        sharedPRNGs := e.sharedPRNGs.map (fun x => (x.XORKeyStream env (makeBytes e.DCNetPayloadSize)).2)
        currentRound := wrapInt32 (e.currentRound + 1) }
      simpa using this
    · simp

theorem xorPads_short (buf : List Nat) (pads : List (List Nat))
    (h : ∀ p ∈ pads, buf.length ≤ p.length) : ∃ enc, xorPads buf pads = .ok enc := by
  induction pads generalizing buf with
  | nil => exact ⟨buf, rfl⟩
  | cons p ps ih =>
    have hp : buf.length ≤ p.length := h p (List.mem_cons_self _ _)
    have hl : (xorBytes buf p).length = buf.length := by
      simp only [xorBytes, List.length_zipWith]
      omega
    simp only [xorPads, xorPad_eq buf p hp]
    apply ih
    intro q hq
    rw [hl]
    exact h q (List.mem_cons_of_mem _ hq)

/-- The padding step of `clientEncode` for the slot owner under equivocation
protection: it fails exactly when the payload is longer than
`DCNetPayloadSize - 16`, and otherwise hands the payload, zero-padded to
`DCNetPayloadSize - 16` bytes, to `ClientEncryptPayload`. -/
theorem clientEncode_owner {Pt : Type} (env : Env Pt) (e : DCNetEntity Pt) (p : List Nat)
    (heq : e.EquivocationProtectionEnabled = true) :
    ((p.length : Int) > (e.DCNetPayloadSize : Int) - 16 →
      ∃ c, clientEncode env e true (some p) = .error c) ∧
    ((p.length : Int) ≤ (e.DCNetPayloadSize : Int) - 16 →
      clientEncode env e true (some p) =
        match e.equivocationProtection with
        | none => .error .nilDereference
        | some history =>
          match xorPads (env.ClientEncryptPayload history true
              (zeroPad (e.DCNetPayloadSize - 16) (some p))
              (preparePads env e.DCNetPayloadSize e.sharedPRNGs).1).1
              (preparePads env e.DCNetPayloadSize e.sharedPRNGs).1 with
          | .error c => .error c
          | .ok enc =>
            .ok ({ e with sharedPRNGs := (preparePads env e.DCNetPayloadSize e.sharedPRNGs).2 },
              ⟨enc, (env.ClientEncryptPayload history true
                (zeroPad (e.DCNetPayloadSize - 16) (some p))
                (preparePads env e.DCNetPayloadSize e.sharedPRNGs).1).2⟩,
              copyInto (makeBytes e.DCNetPayloadSize) (env.ClientEncryptPayload history true
                (zeroPad (e.DCNetPayloadSize - 16) (some p))
                (preparePads env e.DCNetPayloadSize e.sharedPRNGs).1).1)) := by
  constructor
  · intro hgt
    unfold clientEncode
    simp only [heq, Bool.and_self, if_true]
    by_cases hneg : (e.DCNetPayloadSize : Int) - 16 < 0
    · exact ⟨.negativeLength, by simp only [hneg, if_true]⟩
    · exact ⟨.indexOutOfRange, by simp only [hneg, if_false, hgt, if_true]⟩
  · intro hle
    have hneg : ¬ (e.DCNetPayloadSize : Int) - 16 < 0 := by omega
    have hgt : ¬ (p.length : Int) > (e.DCNetPayloadSize : Int) - 16 := by omega
    have hn : ((e.DCNetPayloadSize : Int) - 16).toNat = e.DCNetPayloadSize - 16 := by omega
    have hpad : copyInto (makeBytes (e.DCNetPayloadSize - 16)) p =
        zeroPad (e.DCNetPayloadSize - 16) (some p) := by
      have := copyInto_zeros (e.DCNetPayloadSize - 16) p (by omega)
      simpa [zeroPad] using this
    unfold clientEncode
    simp only [heq, Bool.and_self, if_true, hneg, if_false, hgt, hn, hpad]

/-- C27, as stated, fails: for a client entity with equivocation protection,
payload size 48 and an equivocation tag of 32 bytes
(`equivocationContribLength = 32`, the marshalled scalar size), the slot owner's
payload of 20 bytes is longer than 48 - 32 = 16 and yet `EncodeForRound`
accepts it. -/
theorem owner_payload_bound_counterexample :
    NewDCNetEntity demoEnv 0 .DCNET_CLIENT 48 true [5] = .ok demoOwner ∧
    demoOwner.equivocationContribLength = 32 ∧
    (List.replicate 20 1).length > demoOwner.DCNetPayloadSize - demoOwner.equivocationContribLength ∧
    ∃ out, EncodeForRound demoEnv demoOwner 0 true (some (List.replicate 20 1)) = .ok out :=
  ⟨rfl, rfl, by decide, _, rfl⟩

/-- C27, amended. For a client entity with equivocation protection enabled,
`slotOwner = true` and payload size L (and a round not before `currentRound`),
`EncodeForRound` panics on every non-nil payload with `len(payload) > L - 16`,
whatever the size of the equivocation tag, and for every payload with
`len(payload) ≤ L - 16` the padding step is accepted: the payload, zero-padded
to L - 16 bytes, is handed to `ClientEncryptPayload`, and the call returns
whenever the encrypted payload is not longer than the pads. -/
theorem owner_payload_bound {Pt : Type} (env : Env Pt) (e : DCNetEntity Pt) (roundID : Int)
    (p : List Nat) (history : List (List Nat))
    (hclient : e.Entity = .DCNET_CLIENT) (heq : e.EquivocationProtectionEnabled = true)
    (hhist : e.equivocationProtection = some history) (hround : e.currentRound ≤ roundID) :
    ((p.length : Int) > (e.DCNetPayloadSize : Int) - 16 →
      ∃ c, EncodeForRound env e roundID true (some p) = .error c) ∧
    ((p.length : Int) ≤ (e.DCNetPayloadSize : Int) - 16 →
      (∀ pads, (env.ClientEncryptPayload history true
        (zeroPad (e.DCNetPayloadSize - 16) (some p)) pads).1.length ≤ e.DCNetPayloadSize) →
      ∃ e1 enc plain pads, EncodeForRound env e roundID true (some p) =
        .ok (e1, env.ToBytes ⟨enc, (env.ClientEncryptPayload history true
          (zeroPad (e.DCNetPayloadSize - 16) (some p)) pads).2⟩, plain)) := by
  obtain ⟨hf1, hf2, hf3⟩ := discardRounds_fields env roundID (roundID - e.currentRound).toNat e
  have hf4 := discardRounds_history env roundID (roundID - e.currentRound).toNat e
  have hown := clientEncode_owner env (discardRounds env roundID (roundID - e.currentRound).toNat e)
    p (by rw [hf2]; exact heq)
  rw [hf3] at hown
  constructor
  · intro hgt
    unfold EncodeForRound
    by_cases hlong : goLen (some p) > e.DCNetPayloadSize
    · exact ⟨.payloadTooLong, by rw [if_pos hlong]⟩
    · obtain ⟨c, hc⟩ := hown.1 hgt
      refine ⟨c, ?_⟩
      rw [if_neg hlong, if_neg (by omega)]
      simp only [hf1, hclient, if_true, hc]
  · intro hle hfit
    have hlong : ¬ goLen (some p) > e.DCNetPayloadSize := by
      simp only [goLen]
      omega
    have hce := hown.2 hle
    rw [hf4, hhist] at hce
    simp only [] at hce
    obtain ⟨enc, henc⟩ := xorPads_short
      (env.ClientEncryptPayload history true (zeroPad (e.DCNetPayloadSize - 16) (some p))
        (preparePads env e.DCNetPayloadSize
          (discardRounds env roundID (roundID - e.currentRound).toNat e).sharedPRNGs).1).1
      (preparePads env e.DCNetPayloadSize
        (discardRounds env roundID (roundID - e.currentRound).toNat e).sharedPRNGs).1
      (by
        intro q hq
        rw [preparePads_lengths env _ _ q hq]
        exact hfit _)
    rw [henc] at hce
    simp only [] at hce
    unfold EncodeForRound
    rw [if_neg hlong, if_neg (by omega)]
    simp only [hf1, hclient, if_true, hce]
    exact ⟨_, enc, _, _, rfl⟩

/-- C27 amended, an instance: with payload size 48 the owner's payload of 33
bytes is rejected, one of 32 bytes is accepted. -/
theorem owner_payload_bound_witness :
    (∃ c, EncodeForRound demoEnv demoOwner 0 true (some (List.replicate 33 1)) = .error c) ∧
    (∃ e1 enc plain pads, EncodeForRound demoEnv demoOwner 0 true (some (List.replicate 32 1)) =
      .ok (e1, demoEnv.ToBytes ⟨enc, (demoEnv.ClientEncryptPayload [] true
        (zeroPad (demoOwner.DCNetPayloadSize - 16) (some (List.replicate 32 1))) pads).2⟩, plain)) :=
  ⟨(owner_payload_bound demoEnv demoOwner 0 (List.replicate 33 1) [] rfl rfl rfl
      (by decide)).1 (by decide),
   (owner_payload_bound demoEnv demoOwner 0 (List.replicate 32 1) [] rfl rfl rfl
      (by decide)).2 (by decide)
      (fun _ => (by decide : (zeroPad (48 - 16) (some (List.replicate 32 1))).length ≤ 48))⟩

/-! ### Bit extraction of a previous round (prifi-lib/dcnet/dcnet.go) -/

/-- C28, the failing runs. Without equivocation protection `GetBitsOfRound`
reads the byte after the one the bit position names: for round 0 of a client
whose pad begins 9E A5 it reports bit 2 as 1, the bit of A5, although bit 2 of
the pad is 0, and for a bit of the last byte it indexes the pad out of range.
With equivocation protection the mask of the first bit of every byte is zero:
bit 0 of a pad beginning 9E is reported as 0 although it is 1. -/
theorem getBitsOfRound_wrong_bit :
    (∃ e1 pads, GetBitsOfRound demoEnv (demoClient 2 0) 0 2 = .ok (e1, some ([(0, 1)], pads)) ∧
      (pads.map (fun pad => pad.take 2)) = [[158, 165]] ∧
      pads.map (fun pad => bitAt pad 2) = [0]) ∧
    GetBitsOfRound demoEnv (demoClient 2 0) 0 255 = .error .indexOutOfRange ∧
    (∃ e1 pads, GetBitsOfRound demoEnv demoOwnerAfterRound 0 0 = .ok (e1, some ([(0, 0)], pads)) ∧
      (pads.map (fun pad => pad.take 2)) = [[158, 165]] ∧
      pads.map (fun pad => bitAt pad 0) = [1]) :=
  ⟨⟨_, _, rfl, by decide, by decide⟩, rfl, ⟨_, _, rfl, by decide, by decide⟩⟩

/-! ### The slot scheduler (prifi-lib/scheduler/slotscheduler.go) -/

/-- C29, as stated, fails: with 2^31 + 1 clients, a round starting at slot
-2^31 and the reservation of slot 0 (which is within the round), the
difference of the slot ids overflows the `int32`: the reservation is accepted
with `MySlotInNextRound = -2^31` and the contribution cannot be built. -/
theorem schedule_contribution_counterexample :
    (-2147483648 : Int) ≤ 0 ∧ (0 : Int) < -2147483648 + 2147483649 ∧
    Scheduler.Client_ReserveSlot
        (Scheduler.Client_ReceivedScheduleRequest ⟨0, 0, false, 0⟩ (-2147483648) 2147483649) 0 =
      .ok ⟨2147483649, -2147483648, true, -2147483648⟩ ∧
    Scheduler.Client_GetOpenScheduleContribution ⟨2147483649, -2147483648, true, -2147483648⟩ =
      .error .indexOutOfRange := by
  decide

/-- C30, the failing run. For every state of the relay's scheduler, also the
initial one, `DownStreamRoundSent` called with the round that
`NextDownStreamRoundToSent` returns reaches the fatal branch: it compares the
round with `latestDownstreamSlotSent`, which is one less. The call passes only
for the round before, after which `NextDownStreamRoundToSent` is two rounds
further. -/
theorem downStreamRoundSent_rejects_next (bmr : Scheduler.BitMaskSlotScheduler_Relay) :
    Scheduler.DownStreamRoundSent bmr (Scheduler.NextDownStreamRoundToSent bmr) = .error .fatal ∧
    Scheduler.NextDownStreamRoundToSent ⟨0⟩ = 1 ∧
    Scheduler.DownStreamRoundSent ⟨0⟩ 1 = .error .fatal ∧
    Scheduler.DownStreamRoundSent ⟨0⟩ 0 = .ok ⟨1⟩ ∧
    Scheduler.NextDownStreamRoundToSent ⟨1⟩ = 2 := by
  refine ⟨?_, by decide, by decide, by decide, by decide⟩
  unfold Scheduler.DownStreamRoundSent Scheduler.NextDownStreamRoundToSent
  rw [if_pos]
  omega

/-- C29, amended. For every number of clients from 1 to 2^31 and every start
slot `b`: after `Client_ReceivedScheduleRequest(b, NClients)` the contribution
has `ceil(NClients/8)` bytes, all zero; `Client_ReserveSlot(s)` panics if and
only if `s < b`; and after `Client_ReserveSlot(s)` with `b ≤ s < b + NClients`
the contribution has the same length and exactly one bit set, bit
`(s-b) mod 8` (least significant bit = 0) of byte `(s-b) div 8`. -/
theorem schedule_contribution (bmc0 : Scheduler.BitMaskSlotScheduler_Client) (b NClients s : Int)
    (hN : 1 ≤ NClients) (hN1 : NClients ≤ 2147483648) :
    Scheduler.Client_GetOpenScheduleContribution
        (Scheduler.Client_ReceivedScheduleRequest bmc0 b NClients) =
      .ok (makeBytes ((NClients.toNat + 7) / 8)) ∧
    ((∃ c, Scheduler.Client_ReserveSlot
        (Scheduler.Client_ReceivedScheduleRequest bmc0 b NClients) s = .error c) ↔ s < b) ∧
    (b ≤ s → s < b + NClients →
      ∃ bmc1, Scheduler.Client_ReserveSlot
          (Scheduler.Client_ReceivedScheduleRequest bmc0 b NClients) s = .ok bmc1 ∧
        Scheduler.Client_GetOpenScheduleContribution bmc1 =
          .ok ((makeBytes ((NClients.toNat + 7) / 8)).set ((s - b).toNat / 8)
            (2 ^ ((s - b).toNat % 8))) ∧
        (s - b).toNat / 8 < (NClients.toNat + 7) / 8) := by
  have hbytes : (-(-NClients / 8)).toNat = (NClients.toNat + 7) / 8 := by omega
  have hnn : ¬ (-(-NClients / 8) < 0) := by omega
  refine ⟨?_, ?_, ?_⟩
  · unfold Scheduler.Client_GetOpenScheduleContribution Scheduler.Client_ReceivedScheduleRequest
    simp only [hnn, if_false, hbytes, Bool.not_false, if_true]
  · unfold Scheduler.Client_ReserveSlot Scheduler.Client_ReceivedScheduleRequest
    constructor
    · rintro ⟨c, hc⟩
      by_contra hge
      simp only [hge, if_false] at hc
      cases hc
    · intro hlt
      exact ⟨.illegalSlot, by simp only [hlt, if_true]⟩
  · intro hbs hsN
    have hlt : ¬ s < b := by omega
    have hw : wrapInt32 (s - b) = s - b := by
      unfold wrapInt32
      omega
    have hmod : Int.tmod (s - b) 8 = (s - b) % 8 := by
      rw [Int.tmod_eq_emod (by omega) (by omega)]
    have hbit : ((s - b) % 8 % 18446744073709551616).toNat = (s - b).toNat % 8 := by omega
    have hbyte : ¬ ((s - b) / 8 < 0 ∨ (s - b) / 8 ≥ -(-NClients / 8)) := by omega
    have hidx : ((s - b) / 8).toNat = (s - b).toNat / 8 := by omega
    have hsmall : (s - b).toNat % 8 < 8 := Nat.mod_lt _ (by decide)
    refine ⟨⟨NClients, b, true, s - b⟩, ?_, ?_, by omega⟩
    · unfold Scheduler.Client_ReserveSlot Scheduler.Client_ReceivedScheduleRequest
      simp only [hlt, if_false, hw]
    · unfold Scheduler.Client_GetOpenScheduleContribution
      simp only [hnn, if_false, hbytes, Bool.not_true, Bool.false_eq_true, hmod, hbit, hbyte,
        hidx, hsmall, if_true]

/-- C29 amended, an instance: ten clients, the round starts at slot 20 and slot
29 is reserved: two bytes, bit 1 of byte 1 set. -/
theorem schedule_contribution_witness :
    Scheduler.Client_GetOpenScheduleContribution
        (Scheduler.Client_ReceivedScheduleRequest ⟨0, 0, false, 0⟩ 20 10) = .ok [0, 0] ∧
    ∃ bmc1, Scheduler.Client_ReserveSlot
        (Scheduler.Client_ReceivedScheduleRequest ⟨0, 0, false, 0⟩ 20 10) 29 = .ok bmc1 ∧
      Scheduler.Client_GetOpenScheduleContribution bmc1 = .ok [0, 2] :=
  have h := schedule_contribution ⟨0, 0, false, 0⟩ 20 10 29 (by decide) (by decide)
  ⟨h.1, match h.2.2 (by decide) (by decide) with
    | ⟨bmc1, h1, h2, _⟩ => ⟨bmc1, h1, h2⟩⟩

/-! ### Bounded latency history (prifi-lib/log/statistics.go) -/

/-- C31. Bounded latency history. For a `Statistics` value holding `n ≤ 100`
latencies and a latency `x`, after `AddLatency(x)` the stored list is the old
list followed by `x` with the oldest entries removed so that at most 100
remain: it has `min(n+1, 100)` entries, its last entry is `x`, and it is a
final segment of the old list followed by `x`. -/
theorem bounded_latency_history (stats : Log.Statistics) (x : Int)
    (hn : stats.latencies.length ≤ Log.MAX_LATENCY_STORED) :
    Log.MAX_LATENCY_STORED = 100 ∧
    (Log.AddLatency stats x).latencies =
      (stats.latencies ++ [x]).drop (stats.latencies.length + 1 - 100) ∧
    (Log.AddLatency stats x).latencies.length = min (stats.latencies.length + 1) 100 ∧
    (Log.AddLatency stats x).latencies.getLast? = some x ∧
    (Log.AddLatency stats x).latencies <:+ stats.latencies ++ [x] := by
  have hdef : (Log.AddLatency stats x).latencies =
      (stats.latencies ++ [x]).drop (stats.latencies.length + 1 - 100) := by
    unfold Log.AddLatency Log.MAX_LATENCY_STORED
    simp only [List.length_append, List.length_singleton]
    split
    · rfl
    · rename_i h
      have h0 : stats.latencies.length + 1 - 100 = 0 := by omega
      rw [h0, List.drop_zero]
  unfold Log.MAX_LATENCY_STORED at hn
  refine ⟨rfl, hdef, ?_, ?_, ?_⟩
  · rw [hdef, List.length_drop, List.length_append, List.length_singleton]
    omega
  · rw [hdef, List.getLast?_drop]
    simp only [List.length_append, List.length_singleton, List.getLast?_append,
      List.getLast?_singleton]
    rw [if_neg (by omega)]
    rfl
  · rw [hdef]
    exact List.drop_suffix _ _

/-- C31, an instance: a full history of the latencies 1..100 receives 500. -/
theorem bounded_latency_history_witness :
    (Log.AddLatency ⟨(List.range 100).map (fun i => (i : Int) + 1)⟩ 500).latencies =
      (List.range 99).map (fun i => (i : Int) + 2) ++ [500] ∧
    (Log.AddLatency ⟨(List.range 100).map (fun i => (i : Int) + 1)⟩ 500).latencies.length =
      min (((List.range 100).map (fun i => (i : Int) + 1)).length + 1) 100 :=
  ⟨by decide,
   (bounded_latency_history ⟨(List.range 100).map (fun i => (i : Int) + 1)⟩ 500
      (by decide)).2.2.1⟩

/-! ### Round trip of a key list (net/helpers.go) -/

theorem sliceBytes_mid (pre mid post spare : List Nat) :
    sliceBytes (pre ++ mid ++ post) spare pre.length (pre.length + mid.length) = .ok mid := by
  unfold sliceBytes
  rw [if_pos (by simp only [List.length_append]; omega)]
  simp [List.append_assoc]

theorem keyRecords_length (forms : List (List Nat)) :
    forms.length ≤ ((forms.map (fun form => bigEndian 4 form.length ++ form)).flatten).length := by
  induction forms with
  | nil => simp
  | cons f fs ih =>
    simp only [List.map_cons, List.flatten_cons, List.length_append, bigEndian_length,
      List.length_cons]
    omega

/-- The parsing loop on a buffer that holds, from `currentByte` on, the
records of keys with non-empty forms followed by zero bytes: the keys are read
back in order. -/
theorem Net.unmarshalKeysLoop_records {P : Type} (MarshalBinary : P → Option (List Nat))
    (UnmarshalBinary : List Nat → Option P) (spare : List Nat) (z : Nat)
    (hinv : ∀ k form, MarshalBinary k = some form → UnmarshalBinary form = some k) :
    ∀ (keys : List P) (forms : List (List Nat)) (pre : List Nat) (acc : List P) (fuel : Nat),
      keys.map MarshalBinary = forms.map some →
      (∀ form ∈ forms, form ≠ [] ∧ form.length < 4294967296) →
      keys.length < fuel →
      Net.unmarshalKeysLoop UnmarshalBinary
        (pre ++ (forms.map (fun form => bigEndian 4 form.length ++ form)).flatten ++ makeBytes z)
        spare fuel pre.length acc = .ok (acc ++ keys) := by
  intro keys
  induction keys with
  | nil =>
    intro forms pre acc fuel hf _ hfuel
    cases forms with
    | cons f fs => simp at hf
    | nil =>
      obtain ⟨fuel, rfl⟩ : ∃ f, fuel = f + 1 := ⟨fuel - 1, by simp at hfuel; omega⟩
      unfold Net.unmarshalKeysLoop
      simp only [List.map_nil, List.flatten_nil, List.append_nil, List.length_append,
        makeBytes_length]
      by_cases hz : pre.length + 4 > pre.length + z
      · rw [if_pos hz]
      · rw [if_neg hz]
        have hsplit : makeBytes z = makeBytes 4 ++ makeBytes (z - 4) := by
          have hz4 : z = 4 + (z - 4) := by omega
          simp only [makeBytes, List.append_replicate_replicate]
          rw [← hz4]
        have hs := sliceBytes_mid pre (makeBytes 4) (makeBytes (z - 4)) spare
        rw [makeBytes_length, List.append_assoc, ← hsplit] at hs
        rw [hs]
        simp [makeBytes, beUint]
  | cons k ks ih =>
    intro forms pre acc fuel hf hne hfuel
    cases forms with
    | nil => simp at hf
    | cons f fs =>
      obtain ⟨fuel, rfl⟩ : ∃ f, fuel = f + 1 := ⟨fuel - 1, by omega⟩
      simp only [List.map_cons, List.cons.injEq] at hf
      obtain ⟨hk, hrest⟩ := hf
      obtain ⟨hfne, hflen⟩ := hne f (List.mem_cons_self _ _)
      have hpos : f.length ≠ 0 := fun h => hfne (List.length_eq_zero.mp h)
      have hbuf1 : pre ++ ((f :: fs).map (fun form => bigEndian 4 form.length ++ form)).flatten ++
          makeBytes z = pre ++ bigEndian 4 f.length ++
            (f ++ (fs.map (fun form => bigEndian 4 form.length ++ form)).flatten ++ makeBytes z) := by
        simp [List.append_assoc]
      have hbuf2 : pre ++ ((f :: fs).map (fun form => bigEndian 4 form.length ++ form)).flatten ++
          makeBytes z = (pre ++ bigEndian 4 f.length) ++ f ++
            ((fs.map (fun form => bigEndian 4 form.length ++ form)).flatten ++ makeBytes z) := by
        simp [List.append_assoc]
      have hbuf3 : pre ++ ((f :: fs).map (fun form => bigEndian 4 form.length ++ form)).flatten ++
          makeBytes z = (pre ++ bigEndian 4 f.length ++ f) ++
            (fs.map (fun form => bigEndian 4 form.length ++ form)).flatten ++ makeBytes z := by
        simp [List.append_assoc]
      have hs1 := sliceBytes_mid pre (bigEndian 4 f.length)
        (f ++ (fs.map (fun form => bigEndian 4 form.length ++ form)).flatten ++ makeBytes z) spare
      rw [bigEndian_length, ← hbuf1] at hs1
      have hs2 := sliceBytes_mid (pre ++ bigEndian 4 f.length) f
        ((fs.map (fun form => bigEndian 4 form.length ++ form)).flatten ++ makeBytes z) spare
      rw [List.length_append, bigEndian_length, ← hbuf2] at hs2
      have hih := ih fs (pre ++ bigEndian 4 f.length ++ f) (acc ++ [k]) fuel hrest
        (fun form hform => hne form (List.mem_cons_of_mem _ hform))
        (by simp only [List.length_cons] at hfuel; omega)
      rw [← hbuf3] at hih
      simp only [List.length_append, bigEndian_length] at hih
      have hlen : ¬ pre.length + 4 > (pre ++ ((f :: fs).map
          (fun form => bigEndian 4 form.length ++ form)).flatten ++ makeBytes z).length := by
        rw [hbuf1]
        simp only [List.length_append, bigEndian_length]
        omega
      unfold Net.unmarshalKeysLoop
      rw [if_neg hlen, hs1]
      simp only [beUint_bigEndian_four _ hflen, hpos, if_false, hs2, hinv k f hk, hih]
      simp

/-- C32. Key-list round trip. For keys whose marshalled forms are non-empty
(and shorter than 2^32 bytes), and any number `z` of trailing zero bytes,
`UnMarshalPublicKeyArrayFromByteArray` applied to the bytes of
`MarshalPublicKeyArrayToByteArray(keys)` followed by `z` zero bytes returns
exactly the keys in the same order, when the point `UnmarshalBinary` inverts
`MarshalBinary`. -/
theorem key_list_round_trip {P : Type} (MarshalBinary : P → Option (List Nat))
    (UnmarshalBinary : List Nat → Option P) (keys : List P) (forms : List (List Nat))
    (z : Nat) (spare : List Nat)
    (hforms : keys.map MarshalBinary = forms.map some)
    (hinv : ∀ k form, MarshalBinary k = some form → UnmarshalBinary form = some k)
    (hne : ∀ form ∈ forms, form ≠ [] ∧ form.length < 4294967296) :
    ∃ bytes, Net.MarshalPublicKeyArrayToByteArray MarshalBinary keys = .ok bytes ∧
      Net.UnMarshalPublicKeyArrayFromByteArray UnmarshalBinary (bytes ++ makeBytes z) spare =
        .ok keys := by
  have hm : Net.MarshalPublicKeyArrayToByteArray MarshalBinary keys =
      .ok (bigEndian 4 2 ++ (forms.map (fun form => bigEndian 4 form.length ++ form)).flatten) := by
    unfold Net.MarshalPublicKeyArrayToByteArray
    simp only []
    rw [Net.marshalKeysLoop_eq MarshalBinary keys forms _ hforms]
    rfl
  refine ⟨_, hm, ?_⟩
  have hs := sliceBytes_mid [] (bigEndian 4 2)
    ((forms.map (fun form => bigEndian 4 form.length ++ form)).flatten ++ makeBytes z) spare
  simp only [List.nil_append, List.length_nil, Nat.zero_add, bigEndian_length,
    ← List.append_assoc] at hs
  have hloop := Net.unmarshalKeysLoop_records MarshalBinary UnmarshalBinary spare z hinv keys forms
    (bigEndian 4 2) []
    ((bigEndian 4 2 ++ (forms.map (fun form => bigEndian 4 form.length ++ form)).flatten ++
      makeBytes z).length + 1) hforms hne (by
        have h1 := keyRecords_length forms
        have h2 : keys.length = forms.length := by
          have := congrArg List.length hforms
          simpa using this
        simp only [List.length_append]
        omega)
  rw [bigEndian_length] at hloop
  unfold Net.UnMarshalPublicKeyArrayFromByteArray
  rw [hs]
  simp only [show beUint (bigEndian 4 2) = 2 from by decide, ne_eq, not_true_eq_false, if_false]
  rw [hloop]
  rfl

/-- C32, an instance: two keys of one and two bytes, read back from a buffer
with five trailing zero bytes. -/
theorem key_list_round_trip_witness :
    ∃ bytes, Net.MarshalPublicKeyArrayToByteArray (fun k : Nat => some (List.replicate k 7)) [1, 2] =
        .ok bytes ∧
      Net.UnMarshalPublicKeyArrayFromByteArray (fun form : List Nat => some form.length)
        (bytes ++ makeBytes 5) [] = .ok [1, 2] :=
  key_list_round_trip (fun k : Nat => some (List.replicate k 7))
    (fun form : List Nat => some form.length) [1, 2] [[7], [7, 7]] 5 [] rfl
    (by
      intro k form h
      simp only [Option.some.injEq] at h
      subst h
      simp)
    (by decide)

/-! ### The relay's key message for the trustees (dissent/relay.go, net/helpers.go) -/

theorem Relay.keysMessageLoop_eq {P : Type} (MarshalBinary : P → Option (List Nat)) :
    ∀ (keys : List P) (forms : List (List Nat)) (message : List Nat),
      keys.map MarshalBinary = forms.map some →
      Relay.keysMessageLoop MarshalBinary keys message =
        .ok (message ++ (forms.map (fun form => bigEndian 4 form.length ++ form)).flatten) := by
  intro keys
  induction keys with
  | nil =>
    intro forms message h
    cases forms with
    | nil => simp [Relay.keysMessageLoop]
    | cons f fs => simp at h
  | cons key rest ih =>
    intro forms message h
    cases forms with
    | nil => simp at h
    | cons f fs =>
      simp only [List.map_cons, List.cons.injEq] at h
      obtain ⟨h1, h2⟩ := h
      simp only [Relay.keysMessageLoop, h1]
      rw [ih fs _ h2]
      have e : (4294967296 : Nat) = 256 ^ 4 := by norm_num
      rw [e, bigEndian_mod, copyAt_fresh 4 _ (bigEndian_length 4 _)]
      simp [List.append_assoc]

/-- The message the relay builds for the trustees begins with the length of
the first key, not with the message type: whenever that length is not 2, the
trustee's `UnMarshalPublicKeyArrayFromConnection` stops at its safety check. -/
theorem Relay.messageForTrustees_rejected {P : Type} (MarshalBinary : P → Option (List Nat))
    (UnmarshalBinary : List Nat → Option P) (key : P) (rest : List P) (form : List Nat)
    (forms : List (List Nat))
    (hforms : (key :: rest).map MarshalBinary = (form :: forms).map some)
    (hlen : form.length < 4294967296) (hne : form.length ≠ 2) :
    ∃ message, Relay.messageForTrustees MarshalBinary (key :: rest) = .ok message ∧
      Net.UnMarshalPublicKeyArrayFromConnection UnmarshalBinary (some message) =
        .error .badMessageType := by
  have hm := Relay.keysMessageLoop_eq MarshalBinary (key :: rest) (form :: forms) [] hforms
  refine ⟨_, hm, ?_⟩
  have hbuf : ∃ post, copyInto (makeBytes 1024) ([] ++ ((form :: forms).map
      (fun form => bigEndian 4 form.length ++ form)).flatten) =
      [] ++ bigEndian 4 form.length ++ post ∧ True := by
    refine ⟨(copyInto (makeBytes 1024) ([] ++ ((form :: forms).map
      (fun form => bigEndian 4 form.length ++ form)).flatten)).drop 4, ?_, trivial⟩
    simp only [copyInto, makeBytes, List.nil_append, List.map_cons, List.flatten_cons,
      List.length_replicate, List.append_assoc, bigEndian, List.cons_append, List.take_succ_cons,
      List.drop_succ_cons, List.drop_zero]
  obtain ⟨post, hpost, _⟩ := hbuf
  have hs := sliceBytes_mid [] (bigEndian 4 form.length) post []
  simp only [List.length_nil, Nat.zero_add, bigEndian_length] at hs
  unfold Net.UnMarshalPublicKeyArrayFromConnection Net.UnMarshalPublicKeyArrayFromByteArray
  simp only [hpost, hs, beUint_bigEndian_four _ hlen, ne_eq, hne, not_false_eq_true, if_true]

set_option maxRecDepth 100000 in
/-- C35, the failing run. For two clients whose public keys are marshalled on
32 bytes, the message the relay builds for the trustees is the two records
(length on four bytes, key); the trustee reads it into its buffer of 1024
bytes and stops at the safety check of `UnMarshalPublicKeyArrayFromByteArray`,
since the first four bytes are the length 32 and not the message type 2. The
same keys written by `MarshalPublicKeyArrayToByteArray` are parsed. -/
theorem trustee_rejects_relay_key_message :
    Relay.messageForTrustees (fun k : Nat => some (List.replicate 32 k)) [7, 9] =
      .ok ([0, 0, 0, 32] ++ List.replicate 32 7 ++ [0, 0, 0, 32] ++ List.replicate 32 9) ∧
    Net.UnMarshalPublicKeyArrayFromConnection (fun form : List Nat => form.head?)
      (some ([0, 0, 0, 32] ++ List.replicate 32 7 ++ [0, 0, 0, 32] ++ List.replicate 32 9)) =
      .error .badMessageType ∧
    Net.MarshalPublicKeyArrayToByteArray (fun k : Nat => some (List.replicate 32 k)) [7, 9] =
      .ok ([0, 0, 0, 2] ++ [0, 0, 0, 32] ++ List.replicate 32 7 ++ [0, 0, 0, 32] ++
        List.replicate 32 9) ∧
    Net.UnMarshalPublicKeyArrayFromConnection (fun form : List Nat => form.head?)
      (some ([0, 0, 0, 2] ++ [0, 0, 0, 32] ++ List.replicate 32 7 ++ [0, 0, 0, 32] ++
        List.replicate 32 9)) = .ok [7, 9] := by
  decide

/-! ### The final schedule (prifi-lib/scheduler/slotscheduler.go) -/

/-- C34, the failing run. For two bytes of contributions, base round 0 and
`maxSlots = 9`, the test `bitPos == uint(maxSlots)-1` compares the position of
the bit within its byte (0..7) with 8 and never holds: the map returned has 16
entries, with the keys 9..15 outside the nine slots. With `maxSlots = 8` the
function returns after the eight slots of the first byte. -/
theorem final_schedule_exceeds_maxSlots :
    (Scheduler.Relay_ComputeFinalSchedule [0, 0] 0 9).length = 16 ∧
    mapLookup (Scheduler.Relay_ComputeFinalSchedule [0, 0] 0 9) 15 = some false ∧
    (Scheduler.Relay_ComputeFinalSchedule [0, 0] 0 9).map (fun e => e.1) =
      [15, 14, 13, 12, 11, 10, 9, 8, 7, 6, 5, 4, 3, 2, 1, 0] ∧
    (Scheduler.Relay_ComputeFinalSchedule [0, 0] 0 8).map (fun e => e.1) =
      [7, 6, 5, 4, 3, 2, 1, 0] := by
  decide

theorem Scheduler.clientContribution_eq (b N : Int) (hN : 1 ≤ N) (hN1 : N ≤ 2147483648)
    (reservation : Option Int)
    (hr : ∀ s, reservation = some s → b ≤ s ∧ s < b + N) :
    Scheduler.clientContribution b N reservation =
      .ok (Scheduler.offsetContribution ((N.toNat + 7) / 8)
        (reservation.map (fun s => (s - b).toNat))) := by
  have hbytes : (-(-N / 8)).toNat = (N.toNat + 7) / 8 := by omega
  have hnn : ¬ (-(-N / 8) < 0) := by omega
  cases reservation with
  | none =>
    unfold Scheduler.clientContribution Scheduler.Client_GetOpenScheduleContribution
      Scheduler.Client_ReceivedScheduleRequest
    simp only [hnn, if_false, hbytes, Bool.not_false, if_true]
    rfl
  | some s =>
    obtain ⟨hbs, hsN⟩ := hr s rfl
    have hlt : ¬ s < b := by omega
    have hw : wrapInt32 (s - b) = s - b := by
      unfold wrapInt32
      omega
    have hmod : Int.tmod (s - b) 8 = (s - b) % 8 := by
      rw [Int.tmod_eq_emod (by omega) (by omega)]
    have hbit : ((s - b) % 8 % 18446744073709551616).toNat = (s - b).toNat % 8 := by omega
    have hbyte : ¬ ((s - b) / 8 < 0 ∨ (s - b) / 8 ≥ -(-N / 8)) := by omega
    have hidx : ((s - b) / 8).toNat = (s - b).toNat / 8 := by omega
    have hsmall : (s - b).toNat % 8 < 8 := Nat.mod_lt _ (by decide)
    unfold Scheduler.clientContribution Scheduler.Client_ReserveSlot
      Scheduler.Client_ReceivedScheduleRequest
    simp only [hlt, if_false, hw]
    unfold Scheduler.Client_GetOpenScheduleContribution
    simp only [hnn, if_false, hbytes, Bool.not_true, Bool.false_eq_true, hmod, hbit, hbyte,
      hidx, hsmall, if_true]
    rfl

theorem Scheduler.clientContributions_eq (b N : Int) (hN : 1 ≤ N) (hN1 : N ≤ 2147483648) :
    ∀ reservations : List (Option Int),
      (∀ s, some s ∈ reservations → b ≤ s ∧ s < b + N) →
      Scheduler.clientContributions b N reservations =
        .ok (reservations.map (fun r => Scheduler.offsetContribution ((N.toNat + 7) / 8)
          (r.map (fun s => (s - b).toNat)))) := by
  intro reservations
  induction reservations with
  | nil =>
    intro _
    rfl
  | cons r rest ih =>
    intro h
    have h1 := Scheduler.clientContribution_eq b N hN hN1 r (by
      intro s hs
      exact h s (by rw [hs]; exact List.mem_cons_self _ _))
    have h2 := ih (fun s hs => h s (List.mem_cons_of_mem _ hs))
    simp only [Scheduler.clientContributions, h1, h2, List.map_cons]

theorem Scheduler.offsetContribution_length (n : Nat) (offset : Option Nat) :
    (Scheduler.offsetContribution n offset).length = n := by
  cases offset <;> simp [Scheduler.offsetContribution, makeBytes]

theorem Scheduler.offsetContribution_testBit (n : Nat) (offset : Option Nat)
    (hoff : ∀ j, offset = some j → j < 8 * n) (i t : Nat) (ht : t < 8) :
    ((Scheduler.offsetContribution n offset).getD i 0).testBit t =
      decide (offset = some (8 * i + t)) := by
  cases offset with
  | none => simp [Scheduler.offsetContribution, makeBytes]
  | some j =>
    have hj := hoff j rfl
    have hjn : j / 8 < n := by omega
    simp only [Scheduler.offsetContribution, List.getD_eq_getElem?_getD, List.getElem?_set,
      makeBytes, List.length_replicate, hjn, if_true, Option.some.injEq]
    by_cases hi : j / 8 = i
    · simp only [hi, if_true, Option.getD_some, Nat.testBit_two_pow]
      congr 1
      apply propext
      constructor <;> intro h <;> omega
    · simp only [hi, if_false]
      have hne : ¬ j = 8 * i + t := by omega
      simp [List.getElem?_replicate, hne]
      split <;> simp

theorem Scheduler.combineLoop_eq :
    ∀ (contributions : List (List Nat)) (out : List Nat),
      (∀ c ∈ contributions, c.length = out.length) →
      Scheduler.combineLoop contributions out = .ok (xorAll out contributions) := by
  intro contributions
  induction contributions with
  | nil =>
    intro out _
    rfl
  | cons c rest ih =>
    intro out h
    have hc : c.length = out.length := h c (List.mem_cons_self _ _)
    have hl : (xorBytes out c).length = out.length := xorBytes_length _ _ hc.symm
    simp only [Scheduler.combineLoop, xorInto_eq _ _ hc]
    rw [ih (xorBytes out c) (fun c1 h1 => by rw [hl]; exact h c1 (List.mem_cons_of_mem _ h1))]
    rfl

/-- The XOR of the contributions of clients that reserve pairwise distinct
slots: bit `t` of byte `i` is set exactly when some client reserved the slot
at offset `8 * i + t`. -/
theorem Scheduler.combined_testBit (n : Nat) :
    ∀ offsets : List (Option Nat),
      (∀ j, some j ∈ offsets → j < 8 * n) →
      (offsets.filterMap id).Nodup →
      ∀ i t, t < 8 →
        (xsum (offsets.map (fun o => (Scheduler.offsetContribution n o).getD i 0))).testBit t =
          decide (some (8 * i + t) ∈ offsets) := by
  intro offsets
  induction offsets with
  | nil =>
    intro _ _ i t _
    simp [xsum_nil]
  | cons o rest ih =>
    intro hoff hnd i t ht
    have hrest : (rest.filterMap id).Nodup := by
      cases o with
      | none => simpa using hnd
      | some j =>
        simp only [List.filterMap_cons, id] at hnd
        exact (List.nodup_cons.mp hnd).2
    have h1 := Scheduler.offsetContribution_testBit n o
      (fun j hj => hoff j (by rw [hj]; exact List.mem_cons_self _ _)) i t ht
    have h2 := ih (fun j hj => hoff j (List.mem_cons_of_mem _ hj)) hrest i t ht
    simp only [List.map_cons, xsum_cons, Nat.testBit_xor, h1, h2, List.mem_cons]
    by_cases ho : o = some (8 * i + t)
    · have hnot : ¬ some (8 * i + t) ∈ rest := by
        subst ho
        simp only [List.filterMap_cons, id] at hnd
        have := (List.nodup_cons.mp hnd).1
        intro hmem
        apply this
        exact List.mem_filterMap.mpr ⟨some (8 * i + t), hmem, rfl⟩
      simp [ho, hnot]
    · have ho' : ¬ some (8 * i + t) = o := fun h => ho h.symm
      simp [ho, ho']

theorem testBit_of_and_two_pow (b p : Nat) (hp : p < 8) :
    decide (b &&& (2 ^ p % 256) > 0) = b.testBit p := by
  have h256 : 2 ^ p % 256 = 2 ^ p := by
    apply Nat.mod_eq_of_lt
    calc 2 ^ p < 2 ^ 8 := Nat.pow_lt_pow_right (by decide) hp
      _ = 256 := by norm_num
  rw [h256]
  by_cases hb : b.testBit p = true
  · rw [hb]
    have hne : b &&& 2 ^ p ≠ 0 := by
      intro h0
      have := congrArg (fun x => x.testBit p) h0
      simp [hb, Nat.testBit_two_pow_self] at this
    simpa using Nat.pos_of_ne_zero hne
  · have hb0 : b.testBit p = false := by simpa using hb
    rw [hb0]
    have h0 : b &&& 2 ^ p = 0 := by
      apply Nat.eq_of_testBit_eq
      intro i
      simp only [Nat.testBit_and, Nat.testBit_two_pow, Nat.zero_testBit]
      by_cases hi : p = i
      · subst hi
        simp [hb0]
      · simp [hi]
    simp [h0]

theorem scheduleKey_eq (base k : Int) (idx : Nat) (hb : IsInt32 base) (hk : IsInt32 k)
    (hbk : base ≤ k) (hidx : idx < 4294967296) :
    wrapInt32 (base + wrapInt32 (idx : Int)) = k ↔ idx = (k - base).toNat := by
  unfold IsInt32 at hb hk
  unfold wrapInt32
  omega

/-- The inner loop of `Relay_ComputeFinalSchedule`, looked up at one slot
`k`: the loop has not passed the position `M = uint(maxSlots) - 1` when it is
at `bitPos`; it writes the bits from `bitPos` up to position `M` (or 7). -/
theorem Scheduler.finalScheduleByte_lookup (base maxSlots k : Int) (M i b0 : Nat)
    (hM : ((maxSlots % 18446744073709551616).toNat + 18446744073709551616 - 1) %
      18446744073709551616 = M)
    (hb : IsInt32 base) (hk : IsInt32 k) (hbk : base ≤ k) (hi : i * 8 + 8 ≤ 4294967296) :
    ∀ (remaining p : Nat) (res : List (Int × Bool)), p + remaining = 8 → p ≤ M →
      (Scheduler.finalScheduleByte base maxSlots i b0 remaining p res).2 = decide (M ≤ 7) ∧
      mapLookup (Scheduler.finalScheduleByte base maxSlots i b0 remaining p res).1 k =
        if (k - base).toNat / 8 = i ∧ p ≤ (k - base).toNat % 8 ∧ (k - base).toNat % 8 ≤ M then
          some (b0.testBit ((k - base).toNat % 8))
        else mapLookup res k := by
  intro remaining
  induction remaining with
  | zero =>
    intro p res hp hpM
    have hM7 : ¬ M ≤ 7 := by omega
    have hc : ¬ ((k - base).toNat / 8 = i ∧ p ≤ (k - base).toNat % 8 ∧
        (k - base).toNat % 8 ≤ M) := by omega
    simp only [Scheduler.finalScheduleByte, hM7, decide_False, hc, if_false, and_self]
  | succ r ih =>
    intro p res hp hpM
    have hp8 : p < 8 := by omega
    have hkey := scheduleKey_eq base k (i * 8 + p) hb hk hbk (by omega)
    have hval := testBit_of_and_two_pow b0 p hp8
    unfold Scheduler.finalScheduleByte
    simp only [hM]
    by_cases hstop : p = M
    · rw [if_pos hstop]
      have hM7 : M ≤ 7 := by omega
      refine ⟨by simp [hM7], ?_⟩
      simp only []
      by_cases hhit : i * 8 + p = (k - base).toNat
      · rw [hkey.mpr hhit, mapLookup_mapInsert_self, hval]
        have hc : (k - base).toNat / 8 = i ∧ p ≤ (k - base).toNat % 8 ∧
            (k - base).toNat % 8 ≤ M := by omega
        have hmod : (k - base).toNat % 8 = p := by omega
        rw [if_pos hc, hmod]
      · have hne : k ≠ wrapInt32 (base + wrapInt32 ((i * 8 + p : Nat) : Int)) :=
          fun h => hhit (hkey.mp h.symm)
        rw [mapLookup_mapInsert_ne _ _ _ _ hne]
        have hc : ¬ ((k - base).toNat / 8 = i ∧ p ≤ (k - base).toNat % 8 ∧
            (k - base).toNat % 8 ≤ M) := by omega
        rw [if_neg hc]
    · rw [if_neg hstop]
      obtain ⟨ih1, ih2⟩ := ih (p + 1)
        (mapInsert res (wrapInt32 (base + wrapInt32 ((i * 8 + p : Nat) : Int)))
          (decide (b0 &&& (2 ^ p % 256) > 0))) (by omega) (by omega)
      refine ⟨ih1, ?_⟩
      rw [ih2]
      by_cases hhit : i * 8 + p = (k - base).toNat
      · rw [hkey.mpr hhit, mapLookup_mapInsert_self, hval]
        have hc1 : ¬ ((k - base).toNat / 8 = i ∧ p + 1 ≤ (k - base).toNat % 8 ∧
            (k - base).toNat % 8 ≤ M) := by omega
        have hc : (k - base).toNat / 8 = i ∧ p ≤ (k - base).toNat % 8 ∧
            (k - base).toNat % 8 ≤ M := by omega
        have hmod : (k - base).toNat % 8 = p := by omega
        rw [if_neg hc1, if_pos hc, hmod]
      · have hne : k ≠ wrapInt32 (base + wrapInt32 ((i * 8 + p : Nat) : Int)) :=
          fun h => hhit (hkey.mp h.symm)
        rw [mapLookup_mapInsert_ne _ _ _ _ hne]
        by_cases hc1 : (k - base).toNat / 8 = i ∧ p + 1 ≤ (k - base).toNat % 8 ∧
            (k - base).toNat % 8 ≤ M
        · have hc : (k - base).toNat / 8 = i ∧ p ≤ (k - base).toNat % 8 ∧
              (k - base).toNat % 8 ≤ M := by omega
          rw [if_pos hc1, if_pos hc]
        · have hc : ¬ ((k - base).toNat / 8 = i ∧ p ≤ (k - base).toNat % 8 ∧
              (k - base).toNat % 8 ≤ M) := by omega
          rw [if_neg hc1, if_neg hc]

/-- The outer loop when `uint(maxSlots) - 1` is above 7: every byte is gone
through, and the entry of slot `k` is the bit at its offset. -/
theorem Scheduler.finalScheduleLoop_lookup (base maxSlots k : Int) (M : Nat)
    (hM : ((maxSlots % 18446744073709551616).toNat + 18446744073709551616 - 1) %
      18446744073709551616 = M) (hM8 : 8 ≤ M)
    (hb : IsInt32 base) (hk : IsInt32 k) (hbk : base ≤ k) :
    ∀ (bytes : List Nat) (i : Nat) (res : List (Int × Bool)),
      (i + bytes.length) * 8 ≤ 4294967296 →
      mapLookup (Scheduler.finalScheduleLoop base maxSlots bytes i res) k =
        if i ≤ (k - base).toNat / 8 ∧ (k - base).toNat / 8 < i + bytes.length then
          some ((bytes.getD ((k - base).toNat / 8 - i) 0).testBit ((k - base).toNat % 8))
        else mapLookup res k := by
  intro bytes
  induction bytes with
  | nil =>
    intro i res _
    have hc : ¬ (i ≤ (k - base).toNat / 8 ∧ (k - base).toNat / 8 < i + ([] : List Nat).length) := by
      simp only [List.length_nil]
      omega
    rw [if_neg hc]
    rfl
  | cons b0 rest ih =>
    intro i res hlen
    simp only [List.length_cons] at hlen
    obtain ⟨h1, h2⟩ := Scheduler.finalScheduleByte_lookup base maxSlots k M i b0 hM hb hk hbk
      (by omega) 8 0 res rfl (by omega)
    have hfalse : (Scheduler.finalScheduleByte base maxSlots i b0 8 0 res).2 = false := by
      rw [h1]
      simp only [decide_eq_false_iff_not]
      omega
    have hstep : Scheduler.finalScheduleLoop base maxSlots (b0 :: rest) i res =
        Scheduler.finalScheduleLoop base maxSlots rest (i + 1)
          (Scheduler.finalScheduleByte base maxSlots i b0 8 0 res).1 := by
      rw [Scheduler.finalScheduleLoop]
      simp only [hfalse, Bool.false_eq_true, if_false]
    rw [hstep, ih (i + 1) _ (by omega), h2]
    simp only [List.length_cons]
    by_cases hnow : (k - base).toNat / 8 = i
    · have hc1 : ¬ (i + 1 ≤ (k - base).toNat / 8 ∧ (k - base).toNat / 8 < i + 1 + rest.length) := by
        omega
      have hc2 : (k - base).toNat / 8 = i ∧ 0 ≤ (k - base).toNat % 8 ∧ (k - base).toNat % 8 ≤ M := by
        omega
      have hc3 : i ≤ (k - base).toNat / 8 ∧ (k - base).toNat / 8 < i + (rest.length + 1) := by
        omega
      rw [if_neg hc1, if_pos hc2, if_pos hc3, hnow, Nat.sub_self]
      rfl
    · have hc2 : ¬ ((k - base).toNat / 8 = i ∧ 0 ≤ (k - base).toNat % 8 ∧
          (k - base).toNat % 8 ≤ M) := by omega
      by_cases hlater : i + 1 ≤ (k - base).toNat / 8 ∧ (k - base).toNat / 8 < i + 1 + rest.length
      · have hc3 : i ≤ (k - base).toNat / 8 ∧ (k - base).toNat / 8 < i + (rest.length + 1) := by
          omega
        rw [if_pos hlater, if_pos hc3]
        have hidx : (k - base).toNat / 8 - i = ((k - base).toNat / 8 - (i + 1)) + 1 := by omega
        rw [hidx]
        rfl
      · have hc3 : ¬ (i ≤ (k - base).toNat / 8 ∧ (k - base).toNat / 8 < i + (rest.length + 1)) := by
          omega
        rw [if_neg hlater, if_neg hc2, if_neg hc3]

theorem Scheduler.scheduleRound_eq (b N : Int) (hN : 1 ≤ N) (hN1 : N ≤ 2147483648)
    (reservations : List (Option Int)) (hne : reservations ≠ [])
    (hres : ∀ s, some s ∈ reservations → b ≤ s ∧ s < b + N) :
    Scheduler.scheduleRound b N reservations =
      .ok (Scheduler.Relay_ComputeFinalSchedule
        (xorAll (makeBytes ((N.toNat + 7) / 8))
          (reservations.map (fun r => Scheduler.offsetContribution ((N.toNat + 7) / 8)
            (r.map (fun s => (s - b).toNat))))) b N) := by
  unfold Scheduler.scheduleRound
  rw [Scheduler.clientContributions_eq b N hN hN1 reservations hres]
  cases reservations with
  | nil => exact absurd rfl hne
  | cons r rest =>
    simp only [List.map_cons, Scheduler.Relay_CombineContributions,
      Scheduler.offsetContribution_length]
    rw [Scheduler.combineLoop_eq]
    intro c hc
    rw [makeBytes_length]
    simp only [List.mem_cons, List.mem_map] at hc
    rcases hc with hc | ⟨r1, _, hc⟩
    · rw [hc, Scheduler.offsetContribution_length]
    · rw [← hc, Scheduler.offsetContribution_length]

/-- The bits of the combined contributions: bit `t` of byte `i` is set if and
only if some client reserved the slot at offset `8 i + t`. -/
theorem Scheduler.combined_bits (b N : Int) (reservations : List (Option Int))
    (hres : ∀ s, some s ∈ reservations → b ≤ s ∧ s < b + N)
    (hdist : (reservations.filterMap id).Nodup) (k : Int) (hbk : b ≤ k) (hkN : k < b + N) :
    ((xorAll (makeBytes ((N.toNat + 7) / 8))
        (reservations.map (fun r => Scheduler.offsetContribution ((N.toNat + 7) / 8)
          (r.map (fun s => (s - b).toNat))))).getD ((k - b).toNat / 8) 0).testBit
        ((k - b).toNat % 8) = decide (some k ∈ reservations) := by
  have hlen : ∀ x ∈ reservations.map (fun r => Scheduler.offsetContribution ((N.toNat + 7) / 8)
      (r.map (fun s => (s - b).toNat))), x.length = (makeBytes ((N.toNat + 7) / 8)).length := by
    intro x hx
    simp only [List.mem_map] at hx
    obtain ⟨r, _, hr⟩ := hx
    rw [← hr, Scheduler.offsetContribution_length, makeBytes_length]
  rw [xorAll_getD _ _ hlen, makeBytes_getD, Nat.zero_xor, List.map_map]
  have hoffs : ∀ j, some j ∈ reservations.map (fun r => r.map (fun s => (s - b).toNat)) →
      j < 8 * ((N.toNat + 7) / 8) := by
    intro j hj
    simp only [List.mem_map] at hj
    obtain ⟨r, hr, hrj⟩ := hj
    cases r with
    | none => cases hrj
    | some s =>
      have hs := hres s hr
      simp only [Option.map_some', Option.some.injEq] at hrj
      omega
  have hnd : ((reservations.map (fun r => r.map (fun s => (s - b).toNat))).filterMap id).Nodup := by
    have hfm : (reservations.map (fun r => r.map (fun s => (s - b).toNat))).filterMap id =
        (reservations.filterMap id).map (fun s => (s - b).toNat) := by
      clear hres hdist hlen hoffs
      induction reservations with
      | nil => rfl
      | cons r rest ih =>
        cases r with
        | none => simpa using ih
        | some s => simpa using ih
    rw [hfm]
    apply List.Nodup.map_on _ hdist
    intro x hx y hy hxy
    have hx1 := hres x (by simpa using hx)
    have hy1 := hres y (by simpa using hy)
    omega
  have h := Scheduler.combined_testBit ((N.toNat + 7) / 8)
    (reservations.map (fun r => r.map (fun s => (s - b).toNat))) hoffs hnd
    ((k - b).toNat / 8) ((k - b).toNat % 8) (Nat.mod_lt _ (by decide))
  rw [List.map_map] at h
  have hfun : ((fun o => (Scheduler.offsetContribution ((N.toNat + 7) / 8) o).getD
        ((k - b).toNat / 8) 0) ∘ fun r : Option Int => r.map (fun s => (s - b).toNat)) =
      ((fun x : List Nat => x.getD ((k - b).toNat / 8) 0) ∘ fun r : Option Int =>
        Scheduler.offsetContribution ((N.toNat + 7) / 8) (r.map (fun s => (s - b).toNat))) := rfl
  rw [← hfun, h, Nat.div_add_mod]
  congr 1
  apply propext
  simp only [List.mem_map]
  constructor
  · rintro ⟨r, hr, hrk⟩
    cases r with
    | none => cases hrk
    | some s =>
      have hs := hres s hr
      simp only [Option.map_some', Option.some.injEq] at hrk
      have hsk : s = k := by omega
      rw [← hsk]
      exact hr
  · intro hk
    exact ⟨some k, hk, rfl⟩

/-- The final schedule at a slot `k` of the round: the bit of the combined
contributions at the offset of `k`. -/
theorem Scheduler.finalSchedule_lookup (b N k : Int) (bytes : List Nat)
    (hN : 1 ≤ N) (hN1 : N ≤ 2147483648) (hb : IsInt32 b) (hk : IsInt32 k)
    (hbk : b ≤ k) (hkN : k < b + N) (hlen : bytes.length = (N.toNat + 7) / 8) :
    mapLookup (Scheduler.Relay_ComputeFinalSchedule bytes b N) k =
      some ((bytes.getD ((k - b).toNat / 8) 0).testBit ((k - b).toNat % 8)) := by
  have hM : ((N % 18446744073709551616).toNat + 18446744073709551616 - 1) %
      18446744073709551616 = N.toNat - 1 := by omega
  unfold Scheduler.Relay_ComputeFinalSchedule
  by_cases hsmall : N ≤ 8
  · have hone : bytes.length = 1 := by omega
    match bytes, hone with
    | [c0], _ =>
      obtain ⟨h1, h2⟩ := Scheduler.finalScheduleByte_lookup b N k (N.toNat - 1) 0 c0 hM hb hk hbk
        (by omega) 8 0 [] rfl (by omega)
      have htrue : (Scheduler.finalScheduleByte b N 0 c0 8 0 []).2 = true := by
        rw [h1]
        simp only [decide_eq_true_eq]
        omega
      have hloop : Scheduler.finalScheduleLoop b N [c0] 0 [] =
          (Scheduler.finalScheduleByte b N 0 c0 8 0 []).1 := by
        rw [Scheduler.finalScheduleLoop]
        simp only [htrue, if_true]
      have hc : (k - b).toNat / 8 = 0 ∧ 0 ≤ (k - b).toNat % 8 ∧
          (k - b).toNat % 8 ≤ N.toNat - 1 := by omega
      rw [hloop, h2, if_pos hc, hc.1]
      rfl
  · have h := Scheduler.finalScheduleLoop_lookup b N k (N.toNat - 1) hM (by omega) hb hk hbk
      bytes 0 [] (by omega)
    have hc : 0 ≤ (k - b).toNat / 8 ∧ (k - b).toNat / 8 < 0 + bytes.length := by omega
    rw [h, if_pos hc, Nat.sub_zero]

theorem filterMap_replicate_none (n : Nat) :
    (List.replicate n (none : Option Int)).filterMap id = [] := by
  induction n with
  | zero => rfl
  | succ n ih =>
    rw [List.replicate_succ, List.filterMap_cons_none rfl, ih]

theorem Scheduler.scheduleRound_overflow (rest : List (Option Int)) :
    Scheduler.scheduleRound (-2147483648) 2147483649 (some 0 :: rest) =
      .error .indexOutOfRange := by
  have h1 : Scheduler.clientContribution (-2147483648) 2147483649 (some 0) =
      .error .indexOutOfRange := by decide
  unfold Scheduler.scheduleRound Scheduler.clientContributions
  simp only [h1]

/-! ### Schedule round trip (prifi-lib/scheduler/slotscheduler.go) -/

/-- C33, as stated, fails: with 2^31 + 1 clients and a round starting at slot
-2^31, the first client reserves slot 0 (which is within the round) and the
others reserve nothing: that client's contribution cannot be built, so there
are no contributions to combine and no schedule. -/
theorem schedule_round_trip_counterexample :
    ((some 0 :: List.replicate 2147483648 none : List (Option Int)).length : Int) = 2147483649 ∧
    (-2147483648 : Int) ≤ 0 ∧ (0 : Int) < -2147483648 + 2147483649 ∧
    ((some 0 :: List.replicate 2147483648 none : List (Option Int)).filterMap id) = [0] ∧
    Scheduler.scheduleRound (-2147483648) 2147483649 (some 0 :: List.replicate 2147483648 none) =
      .error .indexOutOfRange := by
  refine ⟨?_, by decide, by decide, ?_, Scheduler.scheduleRound_overflow _⟩
  · rw [List.length_cons, List.length_replicate]
    norm_num
  · rw [@List.filterMap_cons_some _ _ id (some 0) _ 0 rfl, filterMap_replicate_none]

/-- C33, amended. For every number of clients `N` from 1 to 2^31, every base
slot `b` and every list of `N` clients reserving pairwise distinct slots in
`[b, b+N)` (`none` for a client reserving nothing): the contributions of the
`N` clients are built, `Relay_CombineContributions` combines them and
`Relay_ComputeFinalSchedule(combined, b, N)` holds, for every slot `k` in
`[b, b+N)`, the value true if some client reserved `k` and false otherwise. -/
theorem schedule_round_trip (b N : Int) (reservations : List (Option Int))
    (hN : 1 ≤ N) (hN1 : N ≤ 2147483648) (hb : IsInt32 b)
    (hlen : (reservations.length : Int) = N)
    (hres : ∀ s, some s ∈ reservations → b ≤ s ∧ s < b + N)
    (hdist : (reservations.filterMap id).Nodup) :
    ∃ schedule, Scheduler.scheduleRound b N reservations = .ok schedule ∧
      ∀ k, IsInt32 k → b ≤ k → k < b + N →
        mapLookup schedule k = some (decide (some k ∈ reservations)) ∧
        (mapLookup schedule k = some true ↔ some k ∈ reservations) := by
  have hne : reservations ≠ [] := by
    intro h
    rw [h] at hlen
    simp only [List.length_nil, Nat.cast_zero] at hlen
    omega
  refine ⟨_, Scheduler.scheduleRound_eq b N hN hN1 reservations hne hres, ?_⟩
  intro k hk hbk hkN
  have hlenx : (xorAll (makeBytes ((N.toNat + 7) / 8))
      (reservations.map (fun r => Scheduler.offsetContribution ((N.toNat + 7) / 8)
        (r.map (fun s => (s - b).toNat))))).length = (N.toNat + 7) / 8 := by
    rw [xorAll_length, makeBytes_length]
    intro x hx
    simp only [List.mem_map] at hx
    obtain ⟨r, _, hr⟩ := hx
    rw [← hr, Scheduler.offsetContribution_length, makeBytes_length]
  have hlook := Scheduler.finalSchedule_lookup b N k _ hN hN1 hb hk hbk hkN hlenx
  rw [Scheduler.combined_bits b N reservations hres hdist k hbk hkN] at hlook
  refine ⟨hlook, ?_⟩
  rw [hlook]
  simp only [Option.some.injEq, decide_eq_true_eq]

/-- C33 amended, an instance: ten clients, the round starts at slot 20, the
clients reserve the slots 29, 20 and 23 and seven clients reserve nothing:
slot 29 is open in the final schedule and slot 21 is not. -/
theorem schedule_round_trip_witness :
    ∃ schedule, Scheduler.scheduleRound 20 10
        [some 29, none, some 20, none, none, some 23, none, none, none, none] = .ok schedule ∧
      mapLookup schedule 29 = some true ∧ mapLookup schedule 21 = some false :=
  match schedule_round_trip 20 10
      [some 29, none, some 20, none, none, some 23, none, none, none, none]
      (by decide) (by decide) (by decide) (by decide)
      (by intro s hs; simp at hs; omega) (by decide) with
  | ⟨schedule, h1, h2⟩ =>
    ⟨schedule, h1, (h2 29 (by decide) (by decide) (by decide)).1,
      (h2 21 (by decide) (by decide) (by decide)).1⟩

theorem beUint_bigEndian_eight (v : Nat) (h : v < 18446744073709551616) :
    beUint (bigEndian 8 v) = v := by
  simp only [beUint, bigEndian, List.foldl]
  norm_num
  omega

theorem beUint_zeros (n : Nat) : beUint (List.replicate n 0) = 0 := by
  unfold beUint
  induction n with
  | zero => rfl
  | succ n ih =>
    rw [List.replicate_succ, List.foldl_cons]
    exact ih

/-- The probe built by `SendUpstreamData`, in full: the pattern, the records
of the pending tests that fit, zero bytes. -/
theorem Client_upstreamCellContent_probe (dummy : List Nat) (MsTimeStamp : Int → Int)
    (now jitter ID nClients MySlot PayloadLength RoundNo : Int) (lat : LatencyTests)
    (hL : 16 ≤ PayloadLength) (hmine : isMySlot RoundNo nClients MySlot = .ok true)
    (hpending : (scheduleLatencyTest lat now jitter).LatencyTestsToSend ≠ []) :
    Client_upstreamCellContent dummy MsTimeStamp now jitter ID nClients MySlot PayloadLength
        RoundNo lat none =
      .ok (true, some (bigEndian 2 43690 ++
        (((scheduleLatencyTest lat now jitter).LatencyTestsToSend.take
            (min (scheduleLatencyTest lat now jitter).LatencyTestsToSend.length
              ((PayloadLength.toNat - 2) / 14))).map (fun createdAt =>
          bigEndian 2 (ID % 65536).toNat ++
          bigEndian 8 (MsTimeStamp createdAt % 18446744073709551616).toNat ++
          bigEndian 4 (RoundNo % 4294967296).toNat)).flatten ++
        makeBytes (PayloadLength.toNat - 2 - 14 *
          min (scheduleLatencyTest lat now jitter).LatencyTestsToSend.length
            ((PayloadLength.toNat - 2) / 14))),
        { scheduleLatencyTest lat now jitter with
          LatencyTestsToSend := (scheduleLatencyTest lat now jitter).LatencyTestsToSend.drop
            (min (scheduleLatencyTest lat now jitter).LatencyTestsToSend.length
              ((PayloadLength.toNat - 2) / 14)) }) := by
  have hpos : (scheduleLatencyTest lat now jitter).LatencyTestsToSend.length > 0 :=
    List.length_pos.mpr hpending
  have hnot : ¬ PayloadLength < 16 := by omega
  have hbuf : copyAt (makeBytes PayloadLength.toNat) 0 (bigEndian 2 43690) =
      bigEndian 2 43690 ++ makeBytes (PayloadLength.toNat - 2) := by
    have h := copyAt_zeros [] (bigEndian 2 43690) PayloadLength.toNat
      (by rw [bigEndian_length]; omega)
    simpa [bigEndian_length] using h
  have hpack := packLatencyMessages_eq MsTimeStamp ID RoundNo PayloadLength.toNat
    (scheduleLatencyTest lat now jitter).LatencyTestsToSend (bigEndian 2 43690)
    (PayloadLength.toNat - 2) (by rw [bigEndian_length]; omega)
  rw [bigEndian_length] at hpack
  unfold Client_upstreamCellContent
  simp only [hmine, if_true, hpos, hnot, if_false, hbuf, hpack]

/-- The scan of `ProcessDownStreamData` over records that carry this client's
ID: one measurement for each. -/
theorem Client.scanLatencyRecords_records (ID msNow : Int) (MsTimeStamp : Int → Int)
    (RoundNo : Int) (hID0 : 0 ≤ ID) (hID : ID < 65536) :
    ∀ (tests : List Int) (pre tail : List Nat) (fuel : Nat) (measured : List Int),
      Client.scanLatencyRecords ID msNow
          (pre ++ (tests.map (fun createdAt =>
            bigEndian 2 (ID % 65536).toNat ++
            bigEndian 8 (MsTimeStamp createdAt % 18446744073709551616).toNat ++
            bigEndian 4 (RoundNo % 4294967296).toNat)).flatten ++ tail)
          (fuel + tests.length) pre.length measured =
        Client.scanLatencyRecords ID msNow
          (pre ++ (tests.map (fun createdAt =>
            bigEndian 2 (ID % 65536).toNat ++
            bigEndian 8 (MsTimeStamp createdAt % 18446744073709551616).toNat ++
            bigEndian 4 (RoundNo % 4294967296).toNat)).flatten ++ tail)
          fuel (pre.length + 14 * tests.length)
          (measured ++ tests.map (fun createdAt => wrapInt64 (msNow -
            wrapInt64 ((MsTimeStamp createdAt % 18446744073709551616).toNat : Int)))) := by
  intro tests
  induction tests with
  | nil =>
    intro pre tail fuel measured
    simp
  | cons t ts ih =>
    intro pre tail fuel measured
    have hdata : pre ++ ((t :: ts).map (fun createdAt =>
          bigEndian 2 (ID % 65536).toNat ++
          bigEndian 8 (MsTimeStamp createdAt % 18446744073709551616).toNat ++
          bigEndian 4 (RoundNo % 4294967296).toNat)).flatten ++ tail =
        (pre ++ (bigEndian 2 (ID % 65536).toNat ++
          bigEndian 8 (MsTimeStamp t % 18446744073709551616).toNat ++
          bigEndian 4 (RoundNo % 4294967296).toNat)) ++
        (ts.map (fun createdAt =>
          bigEndian 2 (ID % 65536).toNat ++
          bigEndian 8 (MsTimeStamp createdAt % 18446744073709551616).toNat ++
          bigEndian 4 (RoundNo % 4294967296).toNat)).flatten ++ tail := by
      simp only [List.map_cons, List.flatten_cons, List.append_assoc]
    have hpre : (pre ++ (bigEndian 2 (ID % 65536).toNat ++
          bigEndian 8 (MsTimeStamp t % 18446744073709551616).toNat ++
          bigEndian 4 (RoundNo % 4294967296).toNat)).length = pre.length + 14 := by
      simp only [List.length_append, bigEndian_length]
    have hstep := ih (pre ++ (bigEndian 2 (ID % 65536).toNat ++
          bigEndian 8 (MsTimeStamp t % 18446744073709551616).toNat ++
          bigEndian 4 (RoundNo % 4294967296).toNat)) tail fuel
      (measured ++ [wrapInt64 (msNow -
        wrapInt64 ((MsTimeStamp t % 18446744073709551616).toNat : Int))])
    rw [hpre] at hstep
    have hfuel : fuel + (t :: ts).length = (fuel + ts.length) + 1 := by
      simp only [List.length_cons]
      omega
    have hposn : pre.length + 14 * (t :: ts).length = pre.length + 14 + 14 * ts.length := by
      simp only [List.length_cons]
      omega
    have hmeas : measured ++ (t :: ts).map (fun createdAt => wrapInt64 (msNow -
          wrapInt64 ((MsTimeStamp createdAt % 18446744073709551616).toNat : Int))) =
        measured ++ [wrapInt64 (msNow -
          wrapInt64 ((MsTimeStamp t % 18446744073709551616).toNat : Int))] ++
          ts.map (fun createdAt => wrapInt64 (msNow -
            wrapInt64 ((MsTimeStamp createdAt % 18446744073709551616).toNat : Int))) := by
      simp only [List.map_cons, List.append_assoc, List.singleton_append]
    rw [hfuel, hposn, hmeas, hdata, ← hstep]
    generalize hrest : (ts.map (fun createdAt =>
          bigEndian 2 (ID % 65536).toNat ++
          bigEndian 8 (MsTimeStamp createdAt % 18446744073709551616).toNat ++
          bigEndian 4 (RoundNo % 4294967296).toNat)).flatten ++ tail = rest
    have hassoc : (pre ++ (bigEndian 2 (ID % 65536).toNat ++
          bigEndian 8 (MsTimeStamp t % 18446744073709551616).toNat ++
          bigEndian 4 (RoundNo % 4294967296).toNat)) ++
        (ts.map (fun createdAt =>
          bigEndian 2 (ID % 65536).toNat ++
          bigEndian 8 (MsTimeStamp createdAt % 18446744073709551616).toNat ++
          bigEndian 4 (RoundNo % 4294967296).toNat)).flatten ++ tail =
        pre ++ (bigEndian 2 (ID % 65536).toNat ++
          (bigEndian 8 (MsTimeStamp t % 18446744073709551616).toNat ++
          (bigEndian 4 (RoundNo % 4294967296).toNat ++ rest))) := by
      rw [← hrest]
      simp only [List.append_assoc]
    rw [hassoc]
    generalize hd : pre ++ (bigEndian 2 (ID % 65536).toNat ++
          (bigEndian 8 (MsTimeStamp t % 18446744073709551616).toNat ++
          (bigEndian 4 (RoundNo % 4294967296).toNat ++ rest))) = data
    have hlen : pre.length + 14 ≤ data.length := by
      rw [← hd]
      simp only [List.length_append, bigEndian_length]
      omega
    have hid : beUint ((data.drop pre.length).take 2) = (ID % 65536).toNat := by
      rw [← hd, List.drop_left, List.take_left' (bigEndian_length _ _)]
      exact beUint_bigEndian_two _ (by omega)
    have hts : beUint ((data.drop (pre.length + 2)).take 8) =
        (MsTimeStamp t % 18446744073709551616).toNat := by
      have hd2 : data = (pre ++ bigEndian 2 (ID % 65536).toNat) ++
          (bigEndian 8 (MsTimeStamp t % 18446744073709551616).toNat ++
          (bigEndian 4 (RoundNo % 4294967296).toNat ++ rest)) := by
        rw [← hd]
        simp only [List.append_assoc]
      have hl2 : (pre ++ bigEndian 2 (ID % 65536).toNat).length = pre.length + 2 := by
        simp only [List.length_append, bigEndian_length]
      rw [hd2, ← hl2, List.drop_left, List.take_left' (bigEndian_length _ _)]
      exact beUint_bigEndian_eight _ (by omega)
    rw [Client.scanLatencyRecords]
    have hcast : (((ID % 65536).toNat : Nat) : Int) = ID := by omega
    simp only [hlen, if_true, hid, hts, hcast]

/-- The scan of `ProcessDownStreamData` over zero bytes: no record carries the
ID of a client whose ID is not 0. -/
theorem Client.scanLatencyRecords_zeros (ID msNow : Int) (hID : ID ≠ 0) (pre : List Nat)
    (z : Nat) :
    ∀ (fuel pos : Nat) (measured : List Int), pre.length ≤ pos →
      Client.scanLatencyRecords ID msNow (pre ++ makeBytes z) fuel pos measured = measured := by
  intro fuel
  induction fuel with
  | zero =>
    intro pos measured _
    rfl
  | succ fuel ih =>
    intro pos measured hpos
    have hid : beUint (((pre ++ makeBytes z).drop pos).take 2) = 0 := by
      rw [List.drop_append_eq_append_drop, List.drop_eq_nil_of_le hpos, List.nil_append]
      unfold makeBytes
      rw [List.drop_replicate, List.take_replicate]
      exact beUint_zeros _
    have hne : ¬ ((0 : Nat) : Int) = ID := by
      intro h
      exact hID (by simpa using h.symm)
    rw [Client.scanLatencyRecords]
    simp only [hid, hne, if_false]
    split
    · exact ih (pos + 14) measured (by omega)
    · rfl

/-- The measurements recorded when a probe is echoed: one for each record. -/
theorem Client.handleDownstreamData_probe {S P C H : Type} (env : Client.Env S P C H)
    (cs : Client.ClientState S P C H) (msg : Client.REL_CLI_DOWNSTREAM_DATA)
    (MsTimeStamp : Int → Int) (RoundNo : Int) (tests : List Int) (z : Nat)
    (hID : 1 ≤ cs.ID) (hID1 : cs.ID ≤ 65535) (hdo : cs.LatencyTest.DoLatencyTests = true)
    (hdata : msg.Data = bigEndian 2 43690 ++ (tests.map (fun createdAt =>
        bigEndian 2 (cs.ID % 65536).toNat ++
        bigEndian 8 (MsTimeStamp createdAt % 18446744073709551616).toNat ++
        bigEndian 4 (RoundNo % 4294967296).toNat)).flatten ++ makeBytes z)
    (hlen : 16 ≤ msg.Data.length) :
    (Client.handleDownstreamData env cs msg).measuredLatency =
      cs.measuredLatency ++ tests.map (fun createdAt =>
        wrapInt64 (env.MsTimeStampNow cs.RoundNo -
          wrapInt64 ((MsTimeStamp createdAt % 18446744073709551616).toNat : Int))) := by
  have hrecs : ((tests.map (fun createdAt =>
      bigEndian 2 (cs.ID % 65536).toNat ++
      bigEndian 8 (MsTimeStamp createdAt % 18446744073709551616).toNat ++
      bigEndian 4 (RoundNo % 4294967296).toNat)).flatten).length = 14 * tests.length := by
    clear hdata
    induction tests with
    | nil => rfl
    | cons t rest ih =>
      simp only [List.map_cons, List.flatten_cons, List.length_append, ih, bigEndian_length,
        List.length_cons]
      omega
  have hfuel : msg.Data.length = (msg.Data.length - tests.length) + tests.length := by
    have h := congrArg List.length hdata
    simp only [List.length_append, bigEndian_length, hrecs, makeBytes_length] at h
    omega
  have hscan : Client.scanLatencyRecords cs.ID (env.MsTimeStampNow cs.RoundNo) msg.Data
      msg.Data.length 2 cs.measuredLatency =
      cs.measuredLatency ++ tests.map (fun createdAt =>
        wrapInt64 (env.MsTimeStampNow cs.RoundNo -
          wrapInt64 ((MsTimeStamp createdAt % 18446744073709551616).toNat : Int))) := by
    have h1 := Client.scanLatencyRecords_records cs.ID (env.MsTimeStampNow cs.RoundNo)
      MsTimeStamp RoundNo (by omega) (by omega) tests (bigEndian 2 43690) (makeBytes z)
      (msg.Data.length - tests.length) cs.measuredLatency
    rw [bigEndian_length] at h1
    rw [hfuel]
    nth_rewrite 1 [hdata]
    rw [h1]
    apply Client.scanLatencyRecords_zeros cs.ID _ (by omega)
    simp only [List.length_append, bigEndian_length, hrecs]
    omega
  have h1 : msg.Data.length > 1 := by omega
  have h2 : msg.Data.length > 2 := by omega
  have hpat : beUint (msg.Data.take 2) = 43690 := by
    rw [hdata, List.append_assoc, List.take_left' (bigEndian_length _ _)]
    rfl
  unfold Client.handleDownstreamData
  cases hout : cs.DataOutputEnabled
  · simp only [h1, h2, if_true, hdo, hpat, decide_True, Bool.and_self, Bool.false_eq_true,
      if_false, hscan]
  · simp only [h1, h2, if_true, hdo, hpat, decide_True, Bool.and_self, hscan]

theorem latencyRecords_length (MsTimeStamp : Int → Int) (ID RoundNo : Int) (tests : List Int) :
    ((tests.map (fun createdAt =>
      bigEndian 2 (ID % 65536).toNat ++
      bigEndian 8 (MsTimeStamp createdAt % 18446744073709551616).toNat ++
      bigEndian 4 (RoundNo % 4294967296).toNat)).flatten).length = 14 * tests.length := by
  induction tests with
  | nil => rfl
  | cons t rest ih =>
    simp only [List.map_cons, List.flatten_cons, List.length_append, ih, bigEndian_length,
      List.length_cons]
    omega

/-! ### Latency echo count (prifi-lib/client/client.go) -/

/-- C36, the failing run. Client 0 with payload length 30 and one pending
latency test builds a probe with one record and 14 zero bytes after it. When
the probe is echoed, the scan of `ProcessDownStreamData` goes over both
14-byte slots and takes the zero bytes for a second record of client 0 with
timestamp 0: two measurements are recorded, the second being `now - 0`, where
`min(1, (30-2)/14) = 1` record was embedded. The same probe of client 1 gives
the one measurement, and so does the full probe of client 0 (length 16). -/
theorem latency_echo_counts_padding :
    Client_upstreamCellContent (Client.demoEnv.DummyPacket 30) Client.demoEnv.MsTimeStamp
        (Client.demoEnv.Now 5) (Client.demoEnv.Jitter 5) 0 2 1 30 5 ⟨true, 2000, 0, [100]⟩
        (Client.demoProbeClient 0 true).DataForDCNet.head? =
      .ok (true, some (Client.demoEcho 0).Data, ⟨true, 2000, 0, []⟩) ∧
    (Client.handleDownstreamData Client.demoEnv (Client.demoProbeClientAfter 0 true)
        (Client.demoEcho 0)).measuredLatency = [906, 1006] ∧
    min 1 ((30 - 2) / 14) = 1 ∧
    Client.demoEnv.MsTimeStampNow (Client.demoProbeClientAfter 0 true).RoundNo - 0 = 1006 ∧
    (Client.handleDownstreamData Client.demoEnv (Client.demoProbeClientAfter 1 true)
        (Client.demoEcho 1)).measuredLatency = [906] ∧
    (Client.handleDownstreamData Client.demoEnv (Client.demoProbeClientAfter 0 true)
        { Client.demoEcho 0 with Data := (Client.demoEcho 0).Data.take 16 }).measuredLatency =
      [906] := by
  decide

/-- Where the echo count is right: for a client with ID in [1, 65535] and
payload length L ≥ 16 that has k ≥ 1 pending latency tests and no data queued,
the probe payload built by `SendUpstreamData`, echoed back unchanged to the
client with latency tests enabled, makes the data handling of
`ProcessDownStreamData` record exactly `min(k, floor((L-2)/14))`
measurements, one for each embedded record, in the order of the records. -/
theorem Client.echo_measurements_of_nonzero_id {S P C H : Type} (env : Client.Env S P C H)
    (cs cs1 : Client.ClientState S P C H) (msg : Client.REL_CLI_DOWNSTREAM_DATA)
    (lat1 : LatencyTests)
    (hID : 1 ≤ cs.ID) (hID1 : cs.ID ≤ 65535) (hL : 16 ≤ cs.PayloadLength)
    (hpending : (scheduleLatencyTest cs.LatencyTest (env.Now cs.RoundNo)
      (env.Jitter cs.RoundNo)).LatencyTestsToSend ≠ [])
    (hnodata : cs.DataForDCNet.head? = none)
    (hprobe : Client_upstreamCellContent (env.DummyPacket cs.PayloadLength) env.MsTimeStamp
        (env.Now cs.RoundNo) (env.Jitter cs.RoundNo) cs.ID cs.nClients cs.MySlot
        cs.PayloadLength cs.RoundNo cs.LatencyTest cs.DataForDCNet.head? =
      .ok (true, some msg.Data, lat1))
    (hsame : cs1.ID = cs.ID) (hdo : cs1.LatencyTest.DoLatencyTests = true) :
    (Client.handleDownstreamData env cs1 msg).measuredLatency =
      cs1.measuredLatency ++
        ((scheduleLatencyTest cs.LatencyTest (env.Now cs.RoundNo)
            (env.Jitter cs.RoundNo)).LatencyTestsToSend.take
          (min (scheduleLatencyTest cs.LatencyTest (env.Now cs.RoundNo)
              (env.Jitter cs.RoundNo)).LatencyTestsToSend.length
            ((cs.PayloadLength.toNat - 2) / 14))).map (fun createdAt =>
          wrapInt64 (env.MsTimeStampNow cs1.RoundNo -
            wrapInt64 ((env.MsTimeStamp createdAt % 18446744073709551616).toNat : Int))) ∧
    (Client.handleDownstreamData env cs1 msg).measuredLatency.length =
      cs1.measuredLatency.length +
        min (scheduleLatencyTest cs.LatencyTest (env.Now cs.RoundNo)
            (env.Jitter cs.RoundNo)).LatencyTestsToSend.length
          ((cs.PayloadLength.toNat - 2) / 14) := by
  have hmine : isMySlot cs.RoundNo cs.nClients cs.MySlot = .ok true := by
    rw [hnodata] at hprobe
    cases hm : isMySlot cs.RoundNo cs.nClients cs.MySlot with
    | error c => simp [Client_upstreamCellContent, hm] at hprobe
    | ok mine =>
      cases mine with
      | false => simp [Client_upstreamCellContent, hm] at hprobe
      | true => rfl
  rw [hnodata, Client_upstreamCellContent_probe _ _ _ _ _ _ _ _ _ _ hL hmine hpending] at hprobe
  simp only [Except.ok.injEq, Prod.mk.injEq, Option.some.injEq, true_and] at hprobe
  have hdata := hprobe.1.symm
  rw [← hsame] at hdata
  have hk : 14 * ((cs.PayloadLength.toNat - 2) / 14) ≤ cs.PayloadLength.toNat - 2 :=
    Nat.mul_div_le _ _
  have hlen : 16 ≤ msg.Data.length := by
    rw [hdata]
    simp only [List.length_append, bigEndian_length, latencyRecords_length, makeBytes_length,
      List.length_take]
    omega
  have h := Client.handleDownstreamData_probe env cs1 msg env.MsTimeStamp cs.RoundNo _ _
    (by omega) (by omega) hdo hdata hlen
  refine ⟨h, ?_⟩
  rw [h]
  simp only [List.length_append, List.length_map, List.length_take]
  omega

/-! ### Bit extraction and the bounds of the pad (prifi-lib/dcnet/dcnet.go) -/

/-- C37, the failing runs. Without equivocation protection `GetBitsOfRound`
reads the byte after the one the bit position names, so every bit position of
the last byte indexes the pad at `L`: for a client and for a trustee with
payload size 32 at round 2, the bit positions 248, 251 and 255 of the rounds 0
and 1 end in an index out of range, the position 247 before them does not. -/
theorem getBitsOfRound_out_of_bounds :
    (demoClient 2 0).DCNetPayloadSize = 32 ∧ (demoClient 2 0).currentRound = 2 ∧
    (demoClient 2 0).EquivocationProtectionEnabled = false ∧
    bitOfPad false 248 (makeBytes 32) = .error .indexOutOfRange ∧
    GetBitsOfRound demoEnv (demoClient 2 0) 0 248 = .error .indexOutOfRange ∧
    GetBitsOfRound demoEnv (demoClient 2 0) 1 251 = .error .indexOutOfRange ∧
    GetBitsOfRound demoEnv (demoTrustee 2 0) 1 255 = .error .indexOutOfRange ∧
    (∃ r, GetBitsOfRound demoEnv (demoClient 2 0) 0 247 = .ok r) :=
  ⟨rfl, rfl, rfl, rfl, rfl, rfl, rfl, _, rfl⟩

theorem xorBytes_right_comm (z x y : List Nat) :
    xorBytes (xorBytes z x) y = xorBytes (xorBytes z y) x := by
  unfold xorBytes
  induction z generalizing x y with
  | nil => simp
  | cons a z ih =>
    cases x with
    | nil => simp
    | cons b x =>
      cases y with
      | nil => simp
      | cons c y =>
        simp only [List.zipWith_cons_cons, List.cons.injEq]
        exact ⟨by rw [Nat.xor_assoc, Nat.xor_comm b c, ← Nat.xor_assoc], ih x y⟩

theorem xorAll_perm (init : List Nat) (xs ys : List (List Nat)) (h : xs.Perm ys) :
    xorAll init xs = xorAll init ys := by
  unfold xorAll
  exact h.foldl_eq' (fun x _ y _ z => xorBytes_right_comm z x y) init

theorem decodeFeed_eq {Pt : Type} (env : Env Pt) (roundID : Int) (e : DCNetEntity Pt)
    (d : DCNetRoundDecoder) (ciphers : List (Bool × List Nat))
    (hd : e.DCNetRoundDecoder = some d) (hr : d.currentRoundBeingDecoded = roundID)
    (hne : e.EquivocationProtectionEnabled = false)
    (hlen : ∀ c ∈ ciphers, (env.DCNetCipherFromBytes c.2).Payload.length = d.xorBuffer.length) :
    decodeFeed env roundID e ciphers =
      .ok { e with
            DCNetRoundDecoder := some ⟨d.currentRoundBeingDecoded,
              xorAll d.xorBuffer (ciphers.map (fun c => (env.DCNetCipherFromBytes c.2).Payload)),
              d.equivTrusteeContribs, d.equivClientContribs⟩ } := by
  induction ciphers generalizing e d with
  | nil =>
    cases e
    simp only at hd
    simp [decodeFeed, xorAll, hd]
  | cons c cs ih =>
    have hx := hlen c (List.mem_cons_self _ _)
    obtain ⟨fromClient, slice⟩ := c
    obtain ⟨i1, i2, i3, i4, i5, i6, i7, i8, i9, i10⟩ := e
    obtain ⟨d1, d2, d3, d4⟩ := d
    simp only at hd hr hne hx
    subst hd hr hne
    cases fromClient
    · simp only [decodeFeed, DecodeTrustee, ne_eq, not_true_eq_false, if_false,
        xorInto_eq _ _ hx, Bool.false_eq_true]
      rw [ih _ _ rfl rfl rfl]
      · simp [xorAll]
      · intro y hy
        simp only
        rw [xorBytes_length _ _ hx.symm]
        exact hlen y (List.mem_cons_of_mem _ hy)
    · simp only [decodeFeed, DecodeClient, ne_eq, not_true_eq_false, if_false, if_true,
        xorInto_eq _ _ hx, Bool.false_eq_true]
      rw [ih _ _ rfl rfl rfl]
      · simp [xorAll]
      · intro y hy
        simp only
        rw [xorBytes_length _ _ hx.symm]
        exact hlen y (List.mem_cons_of_mem _ hy)

theorem decodeInOrder_eq {Pt : Type} (env : Env Pt) (relay : DCNetEntity Pt) (roundID : Int)
    (ciphers : List (Bool × List Nat)) (isOpenClosedSlot : Bool)
    (hne : relay.EquivocationProtectionEnabled = false)
    (hlen : ∀ c ∈ ciphers,
      (env.DCNetCipherFromBytes c.2).Payload.length = relay.DCNetPayloadSize) :
    decodeInOrder env relay roundID ciphers isOpenClosedSlot =
      .ok (xorAll (makeBytes relay.DCNetPayloadSize)
             (ciphers.map (fun c => (env.DCNetCipherFromBytes c.2).Payload)),
           xorAll (makeBytes relay.DCNetPayloadSize)
             (ciphers.map (fun c => (env.DCNetCipherFromBytes c.2).Payload))) := by
  obtain ⟨i1, i2, i3, i4, i5, i6, i7, i8, i9, i10⟩ := relay
  simp only at hne hlen
  subst hne
  have h1 := decodeFeed_eq env roundID
    (DecodeStart ⟨i1, i2, false, i4, i5, i6, i7, i8, i9, i10⟩ roundID)
    ⟨roundID, makeBytes i4, [], []⟩ ciphers rfl rfl rfl
    (by intro c hc; rw [makeBytes_length]; exact hlen c hc)
  unfold decodeInOrder
  rw [h1]
  simp [DecodeCell, DecodeStart]

/-! ### Decode order independence (prifi-lib/dcnet/dcnet.go) -/

/-- C38. Decode order independence. For every relay entity with equivocation
protection disabled, every round `r` and every collection of client and
trustee ciphers whose payloads have `L = DCNetPayloadSize` bytes: whatever the
order in which the ciphers are fed to `DecodeClient` and `DecodeTrustee` after
`DecodeStart(r)` (`ciphers2` is a permutation of `ciphers1`), `DecodeCell`
returns the same value, the XOR of all the payloads, and its two components
(decoded bytes, raw XOR) are equal. -/
theorem decode_order_independence {Pt : Type} (env : Env Pt) (relay : DCNetEntity Pt) (r : Int)
    (ciphers1 ciphers2 : List (Bool × List Nat)) (isOpenClosedSlot : Bool)
    (hne : relay.EquivocationProtectionEnabled = false)
    (hperm : ciphers1.Perm ciphers2)
    (hlen : ∀ c ∈ ciphers1,
      (env.DCNetCipherFromBytes c.2).Payload.length = relay.DCNetPayloadSize) :
    decodeInOrder env relay r ciphers1 isOpenClosedSlot =
      .ok (xorAll (makeBytes relay.DCNetPayloadSize)
             (ciphers1.map (fun c => (env.DCNetCipherFromBytes c.2).Payload)),
           xorAll (makeBytes relay.DCNetPayloadSize)
             (ciphers1.map (fun c => (env.DCNetCipherFromBytes c.2).Payload))) ∧
    decodeInOrder env relay r ciphers2 isOpenClosedSlot =
      decodeInOrder env relay r ciphers1 isOpenClosedSlot := by
  have h1 := decodeInOrder_eq env relay r ciphers1 isOpenClosedSlot hne hlen
  have h2 := decodeInOrder_eq env relay r ciphers2 isOpenClosedSlot hne
    (fun c hc => hlen c (hperm.mem_iff.mpr hc))
  refine ⟨h1, ?_⟩
  rw [h1, h2, xorAll_perm _ _ _ (hperm.map _).symm]

/-- C38, an instance: the demonstration relay (payload size 32) is fed two
client ciphers and one trustee cipher, in two orders. -/
theorem decode_order_independence_witness :
    decodeInOrder demoEnv demoRelay 3
        [(false, List.replicate 32 7), (true, List.replicate 32 1), (true, List.replicate 32 2)]
        false =
      decodeInOrder demoEnv demoRelay 3
        [(true, List.replicate 32 1), (false, List.replicate 32 7), (true, List.replicate 32 2)]
        false :=
  (decode_order_independence demoEnv demoRelay 3
    [(true, List.replicate 32 1), (false, List.replicate 32 7), (true, List.replicate 32 2)]
    [(false, List.replicate 32 7), (true, List.replicate 32 1), (true, List.replicate 32 2)]
    false rfl (List.Perm.swap _ _ _) (by decide)).2

/-- What `EncodeForRound` does on a client whose round is not after `roundID`
and whose streams have handed out `q` pads, equivocation protection disabled:
the rounds up to `roundID` are discarded and the next pad is used. -/
theorem EncodeForRound_ahead {Pt : Type} (env : Env Pt) (e : DCNetEntity Pt) (roundID : Int)
    (slotOwner : Bool) (payload : Option (List Nat)) (seeds : List (List Nat)) (q : Nat)
    (hk : e.Entity = .DCNET_CLIENT)
    (hs : e.sharedPRNGs = streamsAt seeds (q * e.DCNetPayloadSize))
    (hne : e.EquivocationProtectionEnabled = false)
    (hlo : -2147483648 ≤ e.currentRound) (hle : e.currentRound ≤ roundID)
    (hr1 : roundID < 2147483648) (hp : goLen payload ≤ e.DCNetPayloadSize) :
    EncodeForRound env e roundID slotOwner payload =
      .ok ({ e with
              sharedPRNGs := streamsAt seeds
                ((q + (roundID - e.currentRound).toNat + 1) * e.DCNetPayloadSize),
              currentRound := wrapInt32 (roundID + 1) },
           env.ToBytes ⟨xorAll (zeroPad e.DCNetPayloadSize payload)
              (seeds.map (padOfRound env e.DCNetPayloadSize
                (q + (roundID - e.currentRound).toNat))), []⟩,
           makeBytes e.DCNetPayloadSize) := by
  have h2 := discardRounds_eq env roundID seeds (roundID - e.currentRound).toNat e
    (q * e.DCNetPayloadSize) hs hlo hr1 rfl hle
  have hpos : q * e.DCNetPayloadSize + (roundID - e.currentRound).toNat * e.DCNetPayloadSize =
      (q + (roundID - e.currentRound).toNat) * e.DCNetPayloadSize := by ring
  rw [hpos] at h2
  unfold EncodeForRound
  rw [if_neg (by omega), if_neg (by omega)]
  simp only [h2]
  have h3 := clientEncode_plain env
    { e with sharedPRNGs := streamsAt seeds
               ((q + (roundID - e.currentRound).toNat) * e.DCNetPayloadSize),
             currentRound := roundID } slotOwner payload seeds
    (q + (roundID - e.currentRound).toNat) rfl hne hp
  simp only at h3
  simp only [hk, if_true] at h3 ⊢
  rw [h3]

/-- A sequence of `EncodeForRound` calls for rounds in `[0, 2^31 - 2]` keeps an
entity in lockstep, and changes neither its keys nor its size nor its kind. -/
theorem encodeSequence_lockstep {Pt : Type} (env : Env Pt) :
    ∀ (calls : List (Int × Bool × Option (List Nat))) (e : DCNetEntity Pt),
      InLockstep env e → e.EquivocationProtectionEnabled = false →
      (∀ c ∈ calls, 0 ≤ c.1 ∧ c.1 < 2147483647 ∧ goLen c.2.2 ≤ e.DCNetPayloadSize) →
      ∃ e1, encodeSequence env e calls = .ok e1 ∧ InLockstep env e1 ∧
        e1.EquivocationProtectionEnabled = false ∧ e1.sharedKeys = e.sharedKeys ∧
        e1.DCNetPayloadSize = e.DCNetPayloadSize ∧ e1.Entity = e.Entity := by
  intro calls
  induction calls with
  | nil =>
    intro e hlock hne _
    exact ⟨e, rfl, hlock, hne, rfl, rfl, rfl⟩
  | cons c rest ih =>
    intro e hlock hne hcalls
    obtain ⟨roundID, slotOwner, payload⟩ := c
    obtain ⟨hr0, hr1, hp⟩ := hcalls _ (List.mem_cons_self _ _)
    simp only at hr0 hr1 hp
    have hstep := EncodeForRound_of_inLockstep env e roundID slotOwner payload hlock hne hr0
      (by omega) hp
    have hw : wrapInt32 (roundID + 1) = roundID + 1 :=
      wrapInt32_of_isInt32 _ ⟨by omega, by omega⟩
    have hlock1 : InLockstep env { e with
        sharedPRNGs := streamsAt (e.sharedKeys.map (seedOf env))
          ((roundID.toNat + 1) * e.DCNetPayloadSize),
        currentRound := wrapInt32 (roundID + 1) } := by
      obtain ⟨_, seeds, hm, _⟩ := hlock
      have hseeds := marshalAll_some_eq env _ _ hm
      refine ⟨by simp only [hw]; omega, e.sharedKeys.map (seedOf env), ?_, ?_⟩
      · rw [← hseeds]; exact hm
      · simp only [hw]
        congr 2
        omega
    obtain ⟨e1, h1, h2, h3, h4, h5, h6⟩ := ih _ hlock1 hne
      (fun c hc => hcalls c (List.mem_cons_of_mem _ hc))
    refine ⟨e1, ?_, h2, h3, h4, h5, h6⟩
    simp only [encodeSequence, hstep]
    exact h1

theorem demoClient_inLockstep_wide : InLockstep wideEnv (demoClient 0 0) :=
  ⟨by decide, [[5]], rfl, rfl⟩

/-! ### History independence of encoding (prifi-lib/dcnet/dcnet.go) -/

/-- C39, as stated, fails. (a) After an earlier call for round -1 on a fresh
client, `EncodeForRound(0, _, nil)` uses the pad of round 1 and returns other
bytes than on a fresh entity. (b) `EncodeForRound(2^31 - 1, _, nil)` leaves
`currentRound = -2^31`, not `2^31`. (c) With a key stream that changes every
2^32 bytes: after an earlier call for round 2^31 - 1 the entity is at round
-2^31 with 2^31 pads handed out, `EncodeForRound(0, _, nil)` discards 2^31
more and returns other bytes than on a fresh entity. -/
theorem history_independent_encoding_counterexample :
    NewDCNetEntity demoEnv 0 .DCNET_CLIENT 32 false [5] = .ok (demoClient 0 0) ∧
    NewDCNetEntity wideEnv 0 .DCNET_CLIENT 32 false [5] = .ok (demoClient 0 0) ∧
    (∃ e1 b1 p1 e2 bytes plain e3 bytes0 plain0,
      EncodeForRound demoEnv (demoClient 0 0) (-1) false none = .ok (e1, b1, p1) ∧
      EncodeForRound demoEnv e1 0 false none = .ok (e2, bytes, plain) ∧
      EncodeForRound demoEnv (demoClient 0 0) 0 false none = .ok (e3, bytes0, plain0) ∧
      bytes ≠ bytes0) ∧
    (∃ e1 b1 p1,
      EncodeForRound demoEnv (demoClient 0 0) 2147483647 false none = .ok (e1, b1, p1) ∧
      e1.currentRound = -2147483648) ∧
    (∃ e1 b1 p1 e2 bytes plain e3 bytes0 plain0,
      EncodeForRound wideEnv (demoClient 0 0) 2147483647 false none = .ok (e1, b1, p1) ∧
      EncodeForRound wideEnv e1 0 false none = .ok (e2, bytes, plain) ∧
      EncodeForRound wideEnv (demoClient 0 0) 0 false none = .ok (e3, bytes0, plain0) ∧
      bytes ≠ bytes0) := by
  refine ⟨rfl, rfl, ⟨_, _, _, _, _, _, _, _, _, rfl, rfl, rfl, by decide⟩, ?_, ?_⟩
  · exact ⟨_, _, _, EncodeForRound_of_inLockstep demoEnv (demoClient 0 0) 2147483647 false none
      (demoClient_inLockstep 0 0) rfl (by decide) (by decide) (by decide), by decide⟩
  · have h1 := EncodeForRound_of_inLockstep wideEnv (demoClient 0 0) 2147483647 false none
      demoClient_inLockstep_wide rfl (by decide) (by decide) (by decide)
    have h2 := EncodeForRound_ahead wideEnv
      { demoClient 0 0 with
        sharedPRNGs := streamsAt ((demoClient 0 0).sharedKeys.map (seedOf wideEnv))
          (((2147483647 : Int).toNat + 1) * (demoClient 0 0).DCNetPayloadSize)
        currentRound := wrapInt32 (2147483647 + 1) }
      0 false none [[5]] 2147483648 rfl (by decide) rfl (by decide) (by decide) (by decide)
      (by decide)
    have h3 := EncodeForRound_of_inLockstep wideEnv (demoClient 0 0) 0 false none
      demoClient_inLockstep_wide rfl (by decide) (by decide) (by decide)
    exact ⟨_, _, _, _, _, _, _, _, _, h1, h2, h3, by decide⟩

/-- C39, amended. With equivocation protection disabled, for every freshly
constructed entity, every finite sequence of earlier `EncodeForRound` calls
for rounds in `[0, 2^31 - 2]` with payloads of at most `L` bytes (rounds in any
order, also rounds lower than ones already encoded), every round `r` in
`[0, 2^31 - 2]` and every payload `p` of at most `L` bytes: the earlier calls
return, and `EncodeForRound(r, _, p)` after them returns the same bytes (and
plain payload) as the same call on the fresh entity, and leaves
`currentRound = r + 1`. -/
theorem history_independent_encoding {Pt : Type} (env : Env Pt) (entityID : Int)
    (entity : DCNET_ENTITY) (PayloadSize : Int) (sharedKeys : List Pt) (fresh : DCNetEntity Pt)
    (calls : List (Int × Bool × Option (List Nat))) (r : Int) (slotOwner : Bool)
    (p : Option (List Nat))
    (hnew : NewDCNetEntity env entityID entity PayloadSize false sharedKeys = .ok fresh)
    (hcalls : ∀ c ∈ calls, 0 ≤ c.1 ∧ c.1 < 2147483647 ∧ (goLen c.2.2 : Int) ≤ PayloadSize)
    (hr0 : 0 ≤ r) (hr1 : r < 2147483647) (hp : (goLen p : Int) ≤ PayloadSize) :
    ∃ e1 e2 e3 bytes plain,
      encodeSequence env fresh calls = .ok e1 ∧
      EncodeForRound env e1 r slotOwner p = .ok (e2, bytes, plain) ∧
      EncodeForRound env fresh r slotOwner p = .ok (e3, bytes, plain) ∧
      e2.currentRound = r + 1 := by
  obtain ⟨hlock, _, hne, hL, _, _⟩ := NewDCNetEntity_fresh env _ _ _ _ _ _ hnew
  have hp1 : goLen p ≤ fresh.DCNetPayloadSize := by omega
  obtain ⟨e1, hseq, hlock1, hne1, hk1, hL1, hE1⟩ := encodeSequence_lockstep env calls fresh
    hlock hne (fun c hc => by
      obtain ⟨h1, h2, h3⟩ := hcalls c hc
      exact ⟨h1, h2, by omega⟩)
  have h1 := EncodeForRound_of_inLockstep env e1 r slotOwner p hlock1 hne1 hr0 (by omega)
    (by rw [hL1]; exact hp1)
  have h2 := EncodeForRound_of_inLockstep env fresh r slotOwner p hlock hne hr0 (by omega) hp1
  rw [hk1, hL1, hE1] at h1
  exact ⟨e1, _, _, _, _, hseq, h1, h2, wrapInt32_of_isInt32 _ ⟨by omega, by omega⟩⟩

/-- C39 amended, an instance: a client encodes the rounds 3, 1 and 2, then
round 1 again with another payload. -/
theorem history_independent_encoding_witness :
    ∃ e1 e2 e3 bytes plain,
      encodeSequence demoEnv (demoClient 0 0)
        [(3, false, none), (1, true, some [104, 105]), (2, false, none)] = .ok e1 ∧
      EncodeForRound demoEnv e1 1 true (some [1, 2, 3]) = .ok (e2, bytes, plain) ∧
      EncodeForRound demoEnv (demoClient 0 0) 1 true (some [1, 2, 3]) = .ok (e3, bytes, plain) ∧
      e2.currentRound = 1 + 1 :=
  history_independent_encoding demoEnv 0 .DCNET_CLIENT 32 [5] (demoClient 0 0)
    [(3, false, none), (1, true, some [104, 105]), (2, false, none)] 1 true (some [1, 2, 3])
    rfl (by decide) (by decide) (by decide) (by decide)

end PriFi
